import Mathlib

/-!
# NoseCone: event-to-webhook delivery pipeline

A shallow embedding of `src/utils/helpers.js`, `src/utils/validators.js`,
`src/services/n8nService.js`, `src/services/configService.js`, the predicates of
`src/services/discordService.js` and the handler of `src/events/messageCreate.js`, and
the properties of the retry policy, the payload normaliser, the dispatcher, the router,
the validation of the configuration, the text helpers and the message handler.

Conventions of the embedding.

* An `async` function that may reject is a function into `Except`; `.error` is a
  rejection (a `throw`), `.ok` a resolved value.
* The outside world (the remote endpoints, the clock) is an explicit state `σ` that is
  threaded through every effectful call.
* What a run did (invocations, HTTP POSTs, waits) is returned next to the result as a
  trace, oldest event first.  The trace is observation only: no control flow reads it.
* `maxRetries`, `baseDelay` and the loop counter are natural numbers; `delay(ms)` is
  recorded with the number it was called with.
* Calls to the logger have no effect on results and are left out.
* A string that a text helper measures, cuts or splits is the list of its UTF-16 code
  units.  The method `toLowerCase` of the engine is an argument of the functions that
  call it.
-/

namespace NoseCone

/-! ## `helpers.js` : `retryWithBackoff` -/

/-- One observable step of a `retryWithBackoff` run. -/
inductive RetryEvent where
  | invoke
  | wait (ms : Nat)
  deriving DecidableEq, Repr

/-- Outcome of a `retryWithBackoff` run: the settled promise, the world it leaves,
and what it did.  A rejection carries `lastError`, which is `none` while the JavaScript
variable still holds `undefined`. -/
structure RetryRun (σ ε α : Type) where
  result : Except (Option ε) α
  world : σ
  trace : List RetryEvent

/-- The `for (let i = 0; i <= maxRetries; i++)` loop of `retryWithBackoff`.  The first
argument is the number of iterations the loop header still admits
(`maxRetries + 1 - i`); when it is `0` the loop is left and `lastError` is thrown. -/
def retryLoop {σ ε α : Type} (fn : σ → Except ε α × σ) (delay : Nat → σ → σ)
    (maxRetries baseDelay : Nat) :
    Nat → Nat → σ → Option ε → List RetryEvent → RetryRun σ ε α
  | 0, _, w, lastError, tr => ⟨.error lastError, w, tr⟩
  | n + 1, i, w, _, tr =>
    match fn w with
    | (.ok v, w1) => ⟨.ok v, w1, tr ++ [.invoke]⟩
    | (.error e, w1) =>
      if i = maxRetries then
        ⟨.error (some e), w1, tr ++ [.invoke]⟩
      else
        retryLoop fn delay maxRetries baseDelay n (i + 1)
          (delay (baseDelay * 2 ^ i) w1) (some e)
          (tr ++ [.invoke, .wait (baseDelay * 2 ^ i)])

/-- Default of the parameter `maxRetries`. -/
def defaultMaxRetries : Nat := 3

/-- Default of the parameter `baseDelay` (milliseconds). -/
def defaultBaseDelay : Nat := 1000

/-- Embedding of `retryWithBackoff(fn, maxRetries, baseDelay)`. -/
def retryWithBackoff {σ ε α : Type} (fn : σ → Except ε α × σ) (delay : Nat → σ → σ)
    (maxRetries baseDelay : Nat) (w : σ) : RetryRun σ ε α :=
  retryLoop fn delay maxRetries baseDelay (maxRetries + 1) 0 w none []

/-- Number of times `fn` was invoked in a trace. -/
def invocations (tr : List RetryEvent) : Nat :=
  tr.count .invoke

/-- The waits of a trace, in the order they happened. -/
def waits : List RetryEvent → List Nat
  | [] => []
  | .invoke :: tr => waits tr
  | .wait ms :: tr => ms :: waits tr

/-- The world in which `fn` is invoked after `j` further failed rounds, when round
number `i` starts in world `w`: every failed round runs `fn` and then waits
`baseDelay * 2 ^ i`. -/
def worldAfter {σ ε α : Type} (fn : σ → Except ε α × σ) (delay : Nat → σ → σ)
    (baseDelay : Nat) : Nat → Nat → σ → σ
  | 0, _, w => w
  | j + 1, i, w => worldAfter fn delay baseDelay j (i + 1) (delay (baseDelay * 2 ^ i) (fn w).2)

/-- The trace of `d` failed rounds starting at round `i`: an invocation, then the wait
`baseDelay * 2 ^ i`, and so on. -/
def failedRounds (baseDelay : Nat) : Nat → Nat → List RetryEvent
  | 0, _ => []
  | d + 1, i => .invoke :: .wait (baseDelay * 2 ^ i) :: failedRounds baseDelay d (i + 1)

/-! ## JavaScript values -/

/-- The JavaScript values the pipeline handles.  A `Date` is represented by its ISO-8601
rendering (`none` for an invalid date); a discord.js `Collection` is represented by the
array of its values, in iteration order; numbers are integers. -/
inductive JSValue where
  | undefined
  | null
  | bool (b : Bool)
  | num (n : Int)
  | str (s : String)
  | date (iso : Option String)
  | arr (items : List JSValue)
  | obj (fields : List (String × JSValue))

/-- A thrown `Error` object: its `name` and its `message`.  The wording of the messages
of errors raised by the runtime is engine specific: the embedding uses the wording of V8,
and nothing below depends on it. -/
structure JSError where
  name : String
  message : String
  deriving DecidableEq, Repr

/-- `ToBoolean`: the value as a condition (`if (v)`, `!v`, `v || w`). -/
def truthy : JSValue → Bool
  | .undefined => false
  | .null => false
  | .bool b => b
  | .num n => n != 0
  | .str s => s != ""
  | .date _ => true
  | .arr _ => true
  | .obj _ => true

/-- The test `typeof v === 'object'`. -/
def typeofObject : JSValue → Bool
  | .null => true
  | .date _ => true
  | .arr _ => true
  | .obj _ => true
  | _ => false

/-- The operator `k in v` on a value for which `typeof v === 'object'`: the data
properties of `v`.  Inherited members of the built-in prototypes are not modelled. -/
def inOp (k : String) : JSValue → Bool
  | .obj fields => fields.any (fun kv => kv.1 == k)
  | .arr items => k == "length" || (List.range items.length).any (fun i => toString i == k)
  | _ => false

/-- The names of the data properties of an object, in insertion order. -/
def keys : JSValue → List String
  | .obj fields => fields.map (fun kv => kv.1)
  | _ => []

/-- Property read `v.k`: a `TypeError` on `undefined` and `null`, the field of an
object, and `undefined` for a name the value does not carry. -/
def getProp (v : JSValue) (k : String) : Except JSError JSValue :=
  match v with
  | .undefined =>
    .error ⟨"TypeError", "Cannot read properties of undefined (reading \x27" ++ k ++ "\x27)"⟩
  | .null =>
    .error ⟨"TypeError", "Cannot read properties of null (reading \x27" ++ k ++ "\x27)"⟩
  | .obj fields => .ok ((fields.lookup k).getD .undefined)
  | _ => .ok .undefined

/-- Optional chaining `v?.k`: `undefined` on `undefined` and `null`, otherwise `v.k`. -/
def optChain (v : JSValue) (k : String) : JSValue :=
  match v with
  | .obj fields => (fields.lookup k).getD .undefined
  | _ => .undefined

/-- The call `v.toISOString()`. -/
def toISOString : JSValue → Except JSError String
  | .date (some iso) => .ok iso
  | .date none => .error ⟨"RangeError", "Invalid time value"⟩
  | .undefined =>
    .error ⟨"TypeError", "Cannot read properties of undefined (reading \x27toISOString\x27)"⟩
  | .null =>
    .error ⟨"TypeError", "Cannot read properties of null (reading \x27toISOString\x27)"⟩
  | _ => .error ⟨"TypeError", "message.createdAt.toISOString is not a function"⟩

/-- The expression `a || b`. -/
def orElse (a b : JSValue) : JSValue :=
  if truthy a then a else b

/-- A default parameter value `p = d`: `d` replaces an omitted (`undefined`) argument. -/
def defaultTo (d : JSValue) : JSValue → JSValue
  | .undefined => d
  | v => v

/-! ## `helpers.js` : response builders -/

/-- Embedding of `createErrorResponse(message, type)`; `now` is the rendering of
`new Date().toISOString()` at the time of the call. -/
def createErrorResponse (message : String) (type : String) (now : String) : JSValue :=
  .obj [("success", .bool false),
        ("error", .obj [("type", .str type), ("message", .str message),
                        ("timestamp", .str now)])]

/-- Embedding of `createSuccessResponse(data, message)`. -/
def createSuccessResponse (data : JSValue) (message : String) (now : String) : JSValue :=
  .obj [("success", .bool true), ("message", .str message), ("data", data),
        ("timestamp", .str now)]

/-! ## `validators.js` : `validateWebhookPayload` -/

/-- Embedding of `validateWebhookPayload(payload)`. -/
def validateWebhookPayload (payload : JSValue) : Bool :=
  if !truthy payload || !typeofObject payload then
    false
  else
    ["messageType", "message"].all (fun field => inOp field payload)

/-! ## `n8nService.js` -/

/-- The part of the configuration `N8nService` reads (`getN8nConfig()`).  The primary
URL has passed start-up validation; the other two are environment variables, `none`
when unset. -/
structure N8nConfig where
  webhookUrl : String
  webhookToken : Option String
  secondaryWebhook : Option String

/-- An environment variable as a condition: set and not empty. -/
def envTruthy : Option String → Bool
  | none => false
  | some s => s != ""

/-- The value of an environment variable once it is known to be set. -/
def envValue : Option String → String
  | none => ""
  | some s => s

/-- The outside world as the service sees it: `post url body` is
`this.httpClient.post(url, body)`, which resolves with a response object or rejects
with an error; `delay ms` lets `ms` milliseconds pass; `now` reads the clock. -/
structure Env (σ : Type) where
  post : String → JSValue → σ → Except JSError JSValue × σ
  delay : Nat → σ → σ
  now : σ → String

/-- One observable step of the service on the network. -/
inductive NetEvent where
  | post (url : String) (body : JSValue)
  | wait (ms : Nat)

/-- A retry event of the loop that posts `body` to `url`, as a network event. -/
def toNetEvent (url : String) (body : JSValue) : RetryEvent → NetEvent
  | .invoke => .post url body
  | .wait ms => .wait ms

/-- Number of HTTP POSTs to `url` in a trace. -/
def postsTo (url : String) : List NetEvent → Nat
  | [] => 0
  | .post u _ :: tr => (if u = url then 1 else 0) + postsTo url tr
  | .wait _ :: tr => postsTo url tr

/-- Number of HTTP POSTs in a trace, whatever the URL. -/
def postCount : List NetEvent → Nat
  | [] => 0
  | .post _ _ :: tr => 1 + postCount tr
  | .wait _ :: tr => postCount tr

/-- The waits of a network trace, in order. -/
def netWaits : List NetEvent → List Nat
  | [] => []
  | .post _ _ :: tr => netWaits tr
  | .wait ms :: tr => ms :: netWaits tr

/-- Outcome of a call into the service: the settled promise (`.error` is a rejection
reaching the caller), the world it leaves, and the network activity. -/
structure ServiceRun (σ : Type) where
  result : Except JSError JSValue
  world : σ
  trace : List NetEvent

/-- The call `roles.map(role => role.id)` on the values of a collection: the callback
runs on the roles in order and the first one that throws ends the call. -/
def roleIds : List JSValue → Except JSError (List JSValue)
  | [] => .ok []
  | role :: rest => do
    let id ← getProp role "id"
    let ids ← roleIds rest
    pure (id :: ids)

/-- The expression `message.member?.roles?.cache?.map(role => role.id) || []`. -/
def authorRoles (message : JSValue) : Except JSError JSValue := do
  let member ← getProp message "member"
  match optChain (optChain member "roles") "cache" with
  | .undefined => pure (.arr [])
  | .null => pure (.arr [])
  | .arr roles => do
    let ids ← roleIds roles
    pure (.arr ids)
  | _ => throw ⟨"TypeError", "message.member?.roles?.cache?.map is not a function"⟩

/-- Embedding of `createWebhookPayload(message, messageType, command = null)`; the
property reads happen in the order of the object literal. -/
def createWebhookPayload (message messageType command : JSValue) : Except JSError JSValue := do
  let command := defaultTo .null command
  let id ← getProp message "id"
  let content ← getProp message "content"
  let createdAt ← getProp message "createdAt"
  let timestamp ← toISOString createdAt
  let authorId ← getProp (← getProp message "author") "id"
  let username ← getProp (← getProp message "author") "username"
  let discriminator ← getProp (← getProp message "author") "discriminator"
  let roles ← authorRoles message
  let channelId ← getProp (← getProp message "channel") "id"
  let channelName ← getProp (← getProp message "channel") "name"
  let channelType ← getProp (← getProp message "channel") "type"
  let messageFields : List (String × JSValue) :=
    [("id", id), ("content", content), ("timestamp", .str timestamp),
     ("author", .obj [("id", authorId), ("username", username),
                      ("discriminator", discriminator), ("roles", roles)]),
     ("channel", .obj [("id", channelId), ("name", orElse channelName (.str "DM")),
                       ("type", channelType)])]
  let guild ← getProp message "guild"
  let messageFields ←
    if truthy guild then do
      let guildId ← getProp guild "id"
      let guildName ← getProp guild "name"
      pure (messageFields ++ [("guild", .obj [("id", guildId), ("name", guildName)])])
    else
      pure messageFields
  let payload : List (String × JSValue) :=
    [("messageType", messageType), ("message", .obj messageFields)]
  if truthy command then
    pure (.obj (payload ++ [("command", command)]))
  else
    pure (.obj payload)

/-- The error thrown by `throw new Error('Invalid webhook payload structure')`. -/
def invalidPayloadError : JSError :=
  ⟨"Error", "Invalid webhook payload structure"⟩

/-- The `TypeError` raised by `error.message` inside a `catch (error)` block when the
thrown value is `undefined`. -/
def undefinedErrorMessage : JSError :=
  ⟨"TypeError", "Cannot read properties of undefined (reading \x27message\x27)"⟩

/-- The `try ... catch` of `sendToWebhook` and `sendToSecondaryWebhook`: posts `payload`
to `url` under `retryWithBackoff` with the default parameters and turns the outcome
into a response; `label` is `"n8n"` or `"secondary n8n"`. -/
def deliver {σ : Type} (env : Env σ) (url : String) (label : String) (payload : JSValue)
    (w : σ) : ServiceRun σ :=
  let r := retryWithBackoff (env.post url payload) env.delay defaultMaxRetries defaultBaseDelay w
  let tr := r.trace.map (toNetEvent url payload)
  match r.result with
  | .ok response =>
    match getProp response "data" with
    | .ok data =>
      ⟨.ok (createSuccessResponse data ("Data sent to " ++ label ++ " webhook") (env.now r.world)),
        r.world, tr⟩
    | .error e =>
      ⟨.ok (createErrorResponse ("Failed to send data to " ++ label ++ ": " ++ e.message)
          "webhook_error" (env.now r.world)), r.world, tr⟩
  | .error (some e) =>
    ⟨.ok (createErrorResponse ("Failed to send data to " ++ label ++ ": " ++ e.message)
        "webhook_error" (env.now r.world)), r.world, tr⟩
  | .error none => ⟨.error undefinedErrorMessage, r.world, tr⟩

/-- Embedding of `sendToWebhook(payload)`. -/
def sendToWebhook {σ : Type} (env : Env σ) (cfg : N8nConfig) (payload : JSValue) (w : σ) :
    ServiceRun σ :=
  if !validateWebhookPayload payload then
    ⟨.error invalidPayloadError, w, []⟩
  else
    deliver env cfg.webhookUrl "n8n" payload w

/-- Embedding of `sendToSecondaryWebhook(payload)`. -/
def sendToSecondaryWebhook {σ : Type} (env : Env σ) (cfg : N8nConfig) (payload : JSValue)
    (w : σ) : ServiceRun σ :=
  if !envTruthy cfg.secondaryWebhook then
    ⟨.ok (createErrorResponse "Secondary webhook URL not configured" "config_error" (env.now w)),
      w, []⟩
  else if !validateWebhookPayload payload then
    ⟨.error invalidPayloadError, w, []⟩
  else
    deliver env (envValue cfg.secondaryWebhook) "secondary n8n" payload w

/-- The `catch` block of `processMessage`. -/
def processingError {σ : Type} (env : Env σ) (e : JSError) (w : σ) : JSValue :=
  createErrorResponse ("Message processing failed: " ++ e.message) "processing_error" (env.now w)

/-- Embedding of `processMessage(message, messageType, command = null)`. -/
def processMessage {σ : Type} (env : Env σ) (cfg : N8nConfig)
    (message messageType command : JSValue) (w : σ) : ServiceRun σ :=
  let command := defaultTo .null command
  match createWebhookPayload message messageType command with
  | .error e => ⟨.ok (processingError env e w), w, []⟩
  | .ok payload =>
    let p := sendToWebhook env cfg payload w
    match p.result with
    | .error e => ⟨.ok (processingError env e p.world), p.world, p.trace⟩
    | .ok primaryResult =>
      if truthy command && envTruthy cfg.secondaryWebhook then
        let s := sendToSecondaryWebhook env cfg payload p.world
        match s.result with
        | .error e => ⟨.ok (processingError env e s.world), s.world, p.trace ++ s.trace⟩
        | .ok secondaryResult =>
          ⟨.ok (.obj [("primary", primaryResult), ("secondary", secondaryResult)]),
            s.world, p.trace ++ s.trace⟩
      else
        ⟨.ok (.obj [("primary", primaryResult)]), p.world, p.trace⟩

/-! ## The data model: well-formed messages and command data -/

/-- The value is absent: `undefined` or `null`. -/
def isNullish : JSValue → Bool
  | .undefined => true
  | .null => true
  | _ => false

/-- The value is a plain object. -/
def isObject : JSValue → Bool
  | .obj _ => true
  | _ => false

/-- The value is a valid `Date`. -/
def isValidDate : JSValue → Bool
  | .date (some _) => true
  | _ => false

/-- The role cache of a message, `message.member?.roles?.cache`, is usable: absent, or
a collection of role objects. -/
def rolesResolvable (message : JSValue) : Bool :=
  match optChain (optChain (optChain message "member") "roles") "cache" with
  | .undefined => true
  | .null => true
  | .arr roles => roles.all isObject
  | _ => false

/-- A well-formed inbound message: an object whose `createdAt` is a valid date, whose
`author` and `channel` are objects, whose `guild` is absent or an object, and whose role
cache is usable.  (`id` and `content` are only copied, so nothing is asked of them.) -/
def wellFormed (message : JSValue) : Bool :=
  isObject message &&
  isValidDate (optChain message "createdAt") &&
  isObject (optChain message "author") &&
  isObject (optChain message "channel") &&
  (isNullish (optChain message "guild") || isObject (optChain message "guild")) &&
  rolesResolvable message

/-- Command data as a caller passes it: `null` (none) or an object. -/
def isCommandArg : JSValue → Bool
  | .null => true
  | .obj _ => true
  | _ => false

/-! ## The payload in closed form

The three parts of the object `createWebhookPayload` returns when none of its property
reads throws, written without the error plumbing.  The lemmas below show that the
embedding of the source returns exactly this object. -/

/-- The fields of `payload.message` set by the object literal; `ts` is the rendering of
`createdAt` and `roles` the value of the `roles` expression. -/
def literalFields (message : JSValue) (ts : String) (roles : JSValue) :
    List (String × JSValue) :=
  [("id", optChain message "id"), ("content", optChain message "content"),
   ("timestamp", .str ts),
   ("author", .obj [("id", optChain (optChain message "author") "id"),
                    ("username", optChain (optChain message "author") "username"),
                    ("discriminator", optChain (optChain message "author") "discriminator"),
                    ("roles", roles)]),
   ("channel", .obj [("id", optChain (optChain message "channel") "id"),
                     ("name", orElse (optChain (optChain message "channel") "name") (.str "DM")),
                     ("type", optChain (optChain message "channel") "type")])]

/-- The field added by `if (message.guild) { payload.message.guild = ... }`. -/
def guildField (message : JSValue) : List (String × JSValue) :=
  if truthy (optChain message "guild") then
    [("guild", .obj [("id", optChain (optChain message "guild") "id"),
                     ("name", optChain (optChain message "guild") "name")])]
  else
    []

/-- The field added by `if (command) { payload.command = command }`. -/
def commandField (command : JSValue) : List (String × JSValue) :=
  if truthy command then [("command", command)] else []

/-- The value of the `roles` expression on a message whose role cache is usable: the
ids of the roles of the cache, in its order, and the empty list when there is none. -/
def resolvedRoles (message : JSValue) : List JSValue :=
  match optChain (optChain (optChain message "member") "roles") "cache" with
  | .arr roles => roles.map (fun role => optChain role "id")
  | _ => []

/-! ## `n8nService.js` : `testWebhook` -/

/-- The object `testPayload` of `testWebhook`; `now` is `new Date().toISOString()`. -/
def testPayload (now : String) : JSValue :=
  .obj [("messageType", .str "test"),
        ("message", .obj [("id", .str "test-message-id"),
          ("content", .str "NoseCone webhook connectivity test"),
          ("timestamp", .str now),
          ("author", .obj [("id", .str "test-user-id"), ("username", .str "NoseCone"),
                           ("discriminator", .str "0000"), ("roles", .arr [])]),
          ("channel", .obj [("id", .str "test-channel-id"), ("name", .str "test-channel"),
                            ("type", .str "GUILD_TEXT")])])]

/-- Embedding of `testWebhook()`. -/
def testWebhook {σ : Type} (env : Env σ) (cfg : N8nConfig) (w : σ) : ServiceRun σ :=
  sendToWebhook env cfg (testPayload (env.now w)) w

/-- Every POST of a trace goes to `url`. -/
def allPostsTo (url : String) : List NetEvent → Bool
  | [] => true
  | .post u _ :: tr => decide (u = url) && allPostsTo url tr
  | .wait _ :: tr => allPostsTo url tr

/-- The network activity of a send that uses up the default retry budget: four POSTs of
`body` to `url` with waits of 1000, 2000 and 4000 ms between them. -/
def fourAttempts (url : String) (body : JSValue) : List NetEvent :=
  [.post url body, .wait 1000, .post url body, .wait 2000, .post url body, .wait 4000,
   .post url body]

/-! ## Delivery results -/

/-- The result record is filled on one side only.  With `success: true` it has the keys
`data` and `timestamp` and no key `error`; with `success: false` it has no key `data`
and its `error` has the keys `type`, `message` and `timestamp`. -/
def filledOneSide (r : JSValue) : Bool :=
  match optChain r "success" with
  | .bool true => inOp "data" r && inOp "timestamp" r && !inOp "error" r
  | .bool false =>
    !inOp "data" r && inOp "error" r &&
      inOp "type" (optChain r "error") && inOp "message" (optChain r "error") &&
      inOp "timestamp" (optChain r "error")
  | _ => false

/-! ## `validators.js` : the validators of the configuration -/

/-- The character class `[A-Za-z0-9_-]`. -/
def isTokenChar (c : Char) : Bool :=
  c.isAlphanum || c == '_' || c == '-'

/-- The segments of a text between its dots. -/
def splitDots : List Char → List (List Char)
  | [] => [[]]
  | c :: cs =>
    match splitDots cs with
    | [] => [[]]
    | seg :: segs => if c == '.' then [] :: seg :: segs else (c :: seg) :: segs

/-- Embedding of `validateBotToken(token)`: the token is set, not empty, and matches
`/^[A-Za-z0-9_-]{23,28}\.[A-Za-z0-9_-]{6}\.[A-Za-z0-9_-]{27,}$/`, that is, it has three
dot-separated segments of the character class, of 23 to 28, of 6 and of at least 27
characters. -/
def validateBotToken (token : Option String) : Bool :=
  if !envTruthy token then
    false
  else
    match splitDots (envValue token).toList with
    | [a, b, c] =>
      a.all isTokenChar && decide (23 ≤ a.length) && decide (a.length ≤ 28) &&
      b.all isTokenChar && decide (b.length = 6) &&
      c.all isTokenChar && decide (27 ≤ c.length)
    | _ => false

/-- Embedding of `validateUrl(url)`; `parses s` says whether `new URL(s)` succeeds. -/
def validateUrl (parses : String → Bool) (url : Option String) : Bool :=
  if !envTruthy url then
    false
  else
    parses (envValue url)

/-- Embedding of `validateSnowflake(id)`: the id is set and matches `/^\d{17,19}$/`. -/
def validateSnowflake (id : Option String) : Bool :=
  if !envTruthy id then
    false
  else
    (envValue id).toList.all Char.isDigit &&
      decide (17 ≤ (envValue id).toList.length) && decide ((envValue id).toList.length ≤ 19)

/-! ## `configService.js` -/

/-- The environment variables the configuration is loaded from; `none` is unset. -/
structure ProcessEnv where
  discordBotToken : Option String
  discordClientId : Option String
  n8nWebhookUrl : Option String
  n8nWebhookToken : Option String
  n8nSecondaryWebhook : Option String
  botCommandPrefix : Option String
  commandChannelId : Option String
  debugMode : Option String

/-- The object `this.config`, flattened: the sections `discord`, `n8n` and `bot`. -/
structure AppConfig where
  botToken : Option String
  clientId : Option String
  webhookUrl : Option String
  webhookToken : Option String
  secondaryWebhook : Option String
  commandPrefix : String
  commandChannelId : Option String
  debugMode : Bool

/-- Embedding of `_loadConfig()`. -/
def loadConfig (env : ProcessEnv) : AppConfig :=
  { botToken := env.discordBotToken
    clientId := env.discordClientId
    webhookUrl := env.n8nWebhookUrl
    webhookToken := env.n8nWebhookToken
    secondaryWebhook := env.n8nSecondaryWebhook
    commandPrefix := if envTruthy env.botCommandPrefix then envValue env.botCommandPrefix else "!"
    commandChannelId := env.commandChannelId
    debugMode := decide (env.debugMode = some "true") }

/-- The list `errors` that `_validateConfig()` collects, in order. -/
def configErrors (parses : String → Bool) (c : AppConfig) : List String :=
  (if !envTruthy c.botToken then ["DISCORD_BOT_TOKEN is required"]
   else if !validateBotToken c.botToken then ["DISCORD_BOT_TOKEN has invalid format"]
   else []) ++
  (if !envTruthy c.clientId then ["DISCORD_CLIENT_ID is required"]
   else if !validateSnowflake c.clientId then ["DISCORD_CLIENT_ID has invalid format"]
   else []) ++
  (if !envTruthy c.webhookUrl then ["N8N_WEBHOOK_URL is required"]
   else if !validateUrl parses c.webhookUrl then ["N8N_WEBHOOK_URL has invalid URL format"]
   else []) ++
  (if envTruthy c.secondaryWebhook && !validateUrl parses c.secondaryWebhook then
     ["N8N_SECONDARY_WEBHOOK has invalid URL format"]
   else []) ++
  (if envTruthy c.commandChannelId && !validateSnowflake c.commandChannelId then
     ["COMMAND_CHANNEL_ID has invalid format"]
   else [])

/-- The line break of the error message. -/
def lineBreak : String :=
  String.singleton (Char.ofNat 10)

/-- Embedding of `_validateConfig()`: it throws when `errors` is not empty. -/
def validateConfig (parses : String → Bool) (c : AppConfig) : Except JSError Unit :=
  if (configErrors parses c).length > 0 then
    .error ⟨"Error", "Configuration validation failed:" ++ lineBreak
      ++ lineBreak.intercalate (configErrors parses c)⟩
  else
    .ok ()

/-! ## `helpers.js` and `validators.js` : functions on text

A JavaScript string is a sequence of UTF-16 code units, and `length`, `slice`, `trim`,
`startsWith`, `split` and the regular expressions of the code count and compare code
units.  A string is handled here as the list of its code units, natural numbers below
65536: a character outside the Basic Multilingual Plane takes two of them, its surrogate
pair, and a list may hold a surrogate on its own, as a JavaScript string may. -/

/-- The code units of a character: the character itself in the Basic Multilingual Plane,
its surrogate pair above it. -/
def charUnits (c : Char) : List Nat :=
  if c.toNat < 0x10000 then [c.toNat]
  else [0xD800 + (c.toNat - 0x10000) / 0x400, 0xDC00 + (c.toNat - 0x10000) % 0x400]

/-- The code units of a text. -/
def codeUnits (s : String) : List Nat :=
  (s.toList.map charUnits).flatten

/-- A code unit that opens a surrogate pair. -/
def isHighSurrogate (u : Nat) : Bool :=
  decide (0xD800 ≤ u) && decide (u ≤ 0xDBFF)

/-- A code unit that closes a surrogate pair. -/
def isLowSurrogate (u : Nat) : Bool :=
  decide (0xDC00 ≤ u) && decide (u ≤ 0xDFFF)

/-- The character of a surrogate pair. -/
def pairChar (hi lo : Nat) : Char :=
  Char.ofNat (0x10000 + (hi - 0xD800) * 0x400 + (lo - 0xDC00))

/-- The scan that reads code units as characters; the first argument is a high
surrogate that was read just before and waits for its low surrogate.  A surrogate
without its partner has no character: `Char.ofNat` reads it as U+0000. -/
def decodeGo : Option Nat → List Nat → List Char
  | none, [] => []
  | some hi, [] => [Char.ofNat hi]
  | none, u :: us =>
    if isHighSurrogate u then decodeGo (some u) us else Char.ofNat u :: decodeGo none us
  | some hi, u :: us =>
    if isLowSurrogate u then pairChar hi u :: decodeGo none us
    else if isHighSurrogate u then Char.ofNat hi :: decodeGo (some u) us
    else Char.ofNat hi :: Char.ofNat u :: decodeGo none us

/-- The text of a sequence of code units, for a string that is stored in a `JSValue`. -/
def ofCodeUnits (units : List Nat) : String :=
  String.mk (decodeGo none units)

/-- The white space of `String.prototype.trim` and of the class `\s`: TAB, LF, VT, FF,
CR, the space, NBSP, the space separators U+1680, U+2000 to U+200A, U+202F, U+205F and
U+3000, the line and paragraph separators, and U+FEFF. -/
def isJSSpace (u : Nat) : Bool :=
  u == 9 || u == 10 || u == 11 || u == 12 || u == 13 ||
  u == 32 || u == 0xA0 || u == 0x1680 ||
  (decide (0x2000 ≤ u) && decide (u ≤ 0x200A)) ||
  u == 0x2028 || u == 0x2029 || u == 0x202F || u == 0x205F ||
  u == 0x3000 || u == 0xFEFF

/-- The call `text.trim()`. -/
def jsTrim (text : List Nat) : List Nat :=
  (text.dropWhile isJSSpace).rdropWhile isJSSpace

/-- The call `text.slice(0, e)`: a negative `e` counts from the end of the text. -/
def sliceTo (text : List Nat) (e : Int) : List Nat :=
  if e < 0 then text.take (Int.toNat (text.length + e)) else text.take e.toNat

/-- The scan of `text.split(/\s+/)`: `cur` is the piece being read, and `inGap` says
that the last code unit read was white space, whose run has already closed a piece. -/
def splitGo : Bool → List Nat → List Nat → List (List Nat)
  | _, cur, [] => [cur]
  | inGap, cur, c :: cs =>
    if isJSSpace c then
      if inGap then splitGo true cur cs else cur :: splitGo true [] cs
    else
      splitGo false (cur ++ [c]) cs

/-- The call `text.split(/\s+/)`: the pieces of the text between its runs of white
space; the empty text gives one empty piece. -/
def splitSpaces (text : List Nat) : List (List Nat) :=
  splitGo false [] text

/-- Embedding of `truncateText(text, maxLength)`. -/
def truncateText (text : List Nat) (maxLength : Int) : List Nat :=
  if (text.length : Int) ≤ maxLength then
    text
  else
    sliceTo text (maxLength - 3) ++ codeUnits "..."

/-- Default of the parameter `maxLength` of `truncateText`. -/
def defaultMaxLength : Int := 100

/-- The object `parseCommand` returns. -/
structure ParsedCommand where
  command : List Nat
  args : List (List Nat)
  deriving DecidableEq, Repr

/-- Embedding of `parseCommand(content, prefix)`; `none` is `null`.  `args.shift()`
takes the first piece, which `split` always provides.  `toLowerCase` is the method
`String.prototype.toLowerCase` of the engine, which maps every cased letter by the
Unicode tables the engine was built with: it is an argument of the embedding, and what
is proved holds for every such function. -/
def parseCommand (toLowerCase : List Nat → List Nat) (content pfx : List Nat) :
    Option ParsedCommand :=
  if !pfx.isPrefixOf content then
    none
  else
    match splitSpaces (jsTrim (content.drop pfx.length)) with
    | [] => none
    | first :: rest => some ⟨toLowerCase first, rest⟩

/-- The code units `sanitizeInput` removes: 60, 62 and 96, which are `<`, `>` and the
backtick. -/
def isStripped (u : Nat) : Bool :=
  u == 60 || u == 62 || u == 96

/-- The string branch of `sanitizeInput`: `replace(/[<>]/g, '')`, the `replace` of the
backtick, `trim`, and `slice(0, 2000)`. -/
def sanitizeText (input : List Nat) : List Nat :=
  (jsTrim ((input.filter (fun u => !(u == 60 || u == 62))).filter
    (fun u => !(u == 96)))).take 2000

/-- A value as `typeof` sorts it for `sanitizeInput`: the code units of a string, or
`none` for a value of any other type. -/
def asText : JSValue → Option (List Nat)
  | .str s => some (codeUnits s)
  | _ => none

/-- Embedding of `sanitizeInput(input)`: the input is a string, given by its code
units, or `none`, a value for which `typeof input !== 'string'`. -/
def sanitizeInput (input : Option (List Nat)) : List Nat :=
  match input with
  | some text => sanitizeText text
  | none => []

/-! ## `n8nService.js` : `setupAxiosDefaults` -/

/-- The headers of a request, as names with values. -/
abbrev Headers := List (String × String)

/-- The assignment `headers[name] = value`. -/
def setHeader (name value : String) : Headers → Headers
  | [] => [(name, value)]
  | (n, v) :: hs => if n = name then (name, value) :: hs else (n, v) :: setHeader name value hs

/-- The `headers` given to `axios.create`. -/
def defaultHeaders : Headers :=
  [("Content-Type", "application/json"), ("User-Agent", "NoseCone-Discord-Bot/1.0.0")]

/-- The `timeout` given to `axios.create`, in milliseconds. -/
def requestTimeout : Nat := 10000

/-- The request interceptor of `setupAxiosDefaults`, on the headers of the request. -/
def requestInterceptor (cfg : N8nConfig) (headers : Headers) : Headers :=
  if envTruthy cfg.webhookToken then
    setHeader "Authorization" ("Bearer " ++ envValue cfg.webhookToken) headers
  else
    headers

/-- The headers of a request of the service: `post(url, payload)` passes none of its
own, so the interceptor receives the headers given to `axios.create`. -/
def outboundHeaders (cfg : N8nConfig) : Headers :=
  requestInterceptor cfg defaultHeaders

/-! ## `discordService.js` and `events/messageCreate.js` -/

/-- The comparison `v === s` of a value with a string. -/
def strictEqStr (v : JSValue) (s : String) : Bool :=
  match v with
  | .str t => t == s
  | _ => false

/-- Embedding of `isFromBot(message)`: the value of `message.author.bot`. -/
def isFromBot (message : JSValue) : Except JSError JSValue := do
  getProp (← getProp message "author") "bot"

/-- Embedding of `isDirectMessage(message)`. -/
def isDirectMessage (message : JSValue) : Except JSError Bool := do
  let type ← getProp (← getProp message "channel") "type"
  pure (strictEqStr type "DM")

/-- Embedding of `isFromCommandChannel(message, configuredChannelId)`. -/
def isFromCommandChannel (message : JSValue) (configuredChannelId : Option String) :
    Except JSError Bool :=
  if !envTruthy configuredChannelId then
    pure true
  else do
    let id ← getProp (← getProp message "channel") "id"
    pure (strictEqStr id (envValue configuredChannelId))

/-- The receiver of a string method such as `substring` or `startsWith`: a string, or
the call throws. -/
def stringReceiver (method : String) : JSValue → Except JSError String
  | .str s => .ok s
  | .undefined =>
    .error ⟨"TypeError",
      "Cannot read properties of undefined (reading \x27" ++ method ++ "\x27)"⟩
  | .null =>
    .error ⟨"TypeError", "Cannot read properties of null (reading \x27" ++ method ++ "\x27)"⟩
  | _ => .error ⟨"TypeError", "message.content." ++ method ++ " is not a function"⟩

/-- Embedding of `logMessageDetails(message, context)`, for what it can throw: the
reads of `formatUser(message.author)` and `formatChannel(message.channel)`, the calls
`message.content.substring` and `message.createdAt.toISOString`.  The log line itself
is left out. -/
def logMessageDetails (message : JSValue) : Except JSError Unit := do
  let _ ← getProp message "id"
  let _ ← getProp (← getProp message "author") "username"
  let _ ← getProp (← getProp message "author") "discriminator"
  let _ ← getProp (← getProp message "author") "id"
  let _ ← getProp (← getProp message "channel") "name"
  let _ ← getProp (← getProp message "channel") "id"
  let _ ← stringReceiver "substring" (← getProp message "content")
  let _ ← toISOString (← getProp message "createdAt")
  pure ()

/-- The command data `execute` builds from the content of a message and the configured
command prefix: `null` unless the content starts with it.  The pieces `parseCommand`
cuts from a content hold no half of a surrogate pair, so `ofCodeUnits` stores each of
them as it is. -/
def commandDataOf (toLowerCase : List Nat → List Nat) (content pfx : String) : JSValue :=
  if (codeUnits pfx).isPrefixOf (codeUnits content) then
    match parseCommand toLowerCase (codeUnits content) (codeUnits pfx) with
    | some parsed =>
      .obj [("name", .str (ofCodeUnits parsed.command)),
            ("args", .arr (parsed.args.map (fun a => .str (ofCodeUnits a)))),
            ("prefix", .str pfx)]
    | none => .null
  else
    .null

/-- The `try` block of `execute` up to the call of `processMessage`: `none` when the
message is skipped, otherwise the `messageType` and the command data of the call. -/
def intakeDecision (toLowerCase : List Nat → List Nat) (bot : AppConfig)
    (message : JSValue) : Except JSError (Option (JSValue × JSValue)) := do
  let dm ← isDirectMessage message
  let messageType ←
    if dm then
      pure (some "dm")
    else do
      let fromChannel ← isFromCommandChannel message bot.commandChannelId
      if fromChannel then pure (some "channel") else pure none
  match messageType with
  | none => pure none
  | some type => do
    logMessageDetails message
    let content ← stringReceiver "startsWith" (← getProp message "content")
    let commandData := commandDataOf toLowerCase content bot.commandPrefix
    let _ ← getProp (← getProp message "author") "username"
    pure (some (.str type, commandData))

/-- The reply of the `catch` block of `execute`, which is sent in debug mode to a
message that is not a direct message. -/
def intakeCatch (bot : AppConfig) (message : JSValue) : Except JSError (Option String) :=
  if bot.debugMode then do
    let dm ← isDirectMessage message
    if !dm then pure (some "❌ Error processing message for n8n") else pure none
  else
    pure none

/-- The confirmation of `execute`, which is sent in debug mode to a message that is not
a direct message. -/
def intakeConfirm (bot : AppConfig) (message outcome : JSValue) :
    Except JSError (Option String) :=
  if bot.debugMode then do
    let dm ← isDirectMessage message
    if !dm then
      if truthy (optChain (optChain outcome "primary") "success") then
        pure (some "✅ Message sent to n8n webhook")
      else
        pure (some "❌ Message failed to send to n8n webhook")
    else
      pure none
  else
    pure none

/-- A run of the handler `execute(message)`: the settled promise, the arguments of the
call of `processMessage` when there is one, what that call returned, the reply sent to
the channel, the world and the network activity. -/
structure IntakeRun (σ : Type) where
  result : Except JSError Unit
  forwarded : Option (JSValue × JSValue × JSValue)
  outcome : Option JSValue
  reply : Option String
  world : σ
  trace : List NetEvent

/-- The end of a run of `execute` through its `catch` block. -/
def intakeFailed {σ : Type} (bot : AppConfig) (message : JSValue)
    (forwarded : Option (JSValue × JSValue × JSValue)) (w : σ) (trace : List NetEvent) :
    IntakeRun σ :=
  match intakeCatch bot message with
  | .error e => ⟨.error e, forwarded, none, none, w, trace⟩
  | .ok reply => ⟨.ok (), forwarded, none, reply, w, trace⟩

/-- Embedding of the handler `execute(message)` of `messageCreate.js`.  Sending the reply
is recorded and has no effect on the world; `toLowerCase` is the method of the engine
that `parseCommand` calls. -/
def execute {σ : Type} (toLowerCase : List Nat → List Nat) (env : Env σ) (cfg : N8nConfig)
    (bot : AppConfig) (message : JSValue) (w : σ) : IntakeRun σ :=
  match isFromBot message with
  | .error e => ⟨.error e, none, none, none, w, []⟩
  | .ok fromBot =>
    if truthy fromBot then
      ⟨.ok (), none, none, none, w, []⟩
    else
      match intakeDecision toLowerCase bot message with
      | .error _ => intakeFailed bot message none w []
      | .ok none => ⟨.ok (), none, none, none, w, []⟩
      | .ok (some (messageType, commandData)) =>
        let run := processMessage env cfg message messageType commandData w
        match run.result with
        | .error _ =>
          intakeFailed bot message (some (message, messageType, commandData)) run.world run.trace
        | .ok outcome =>
          match intakeConfirm bot message outcome with
          | .error _ =>
            intakeFailed bot message (some (message, messageType, commandData)) run.world
              run.trace
          | .ok reply =>
            ⟨.ok (), some (message, messageType, commandData), some outcome, reply, run.world,
              run.trace⟩

/-! ## Concrete operations, worlds and messages -/

/-- An operation on a world that counts invocations: it fails with `"boom 0"`,
`"boom 1"`, ... on its first `k` invocations and returns `42` from then on. -/
def flakyOp (k : Nat) (n : Nat) : Except String Nat × Nat :=
  (if n < k then .error ("boom " ++ toString n) else .ok 42, n + 1)

/-- An operation on a world that counts invocations and fails every time, with an
error that names the invocation. -/
def failingOp (n : Nat) : Except String Nat × Nat :=
  (.error ("boom " ++ toString n), n + 1)

/-- A wait that leaves the counting world alone. -/
def noDelay (_ms : Nat) (n : Nat) : Nat := n

/-- The direct message of the scenario in the specification, with its creation date. -/
def dmMessage : JSValue :=
  .obj [("id", .str "m1"), ("content", .str "hello"),
        ("createdAt", .date (some "2024-01-01T00:00:00.000Z")),
        ("author", .obj [("id", .str "u1"), ("username", .str "alice")]),
        ("channel", .obj [("id", .str "c1"), ("type", .str "dm")])]

/-- A message sent in a guild channel by a member holding two roles. -/
def guildMessage : JSValue :=
  .obj [("id", .str "m2"), ("content", .str "!ping"),
        ("createdAt", .date (some "2024-01-01T00:00:01.000Z")),
        ("author", .obj [("id", .str "u1"), ("username", .str "alice"),
                         ("discriminator", .str "0001")]),
        ("member", .obj [("roles", .obj [("cache",
            .arr [.obj [("id", .str "r1")], .obj [("id", .str "r2")]])])]),
        ("channel", .obj [("id", .str "c2"), ("name", .str "general"),
                          ("type", .str "GUILD_TEXT")]),
        ("guild", .obj [("id", .str "g1"), ("name", .str "Rocketry")])]

/-- The message `dmMessage` without its `createdAt`. -/
def undatedMessage : JSValue :=
  .obj [("id", .str "m1"), ("content", .str "hello"),
        ("author", .obj [("id", .str "u1"), ("username", .str "alice")]),
        ("channel", .obj [("id", .str "c1"), ("type", .str "dm")])]

/-- Command data as the message handler builds it for the content `!ping`. -/
def pingCommand : JSValue :=
  .obj [("name", .str "ping"), ("args", .arr []), ("prefix", .str "!")]

/-- A configuration with both endpoints and no token. -/
def bothEndpoints : N8nConfig :=
  ⟨"https://n8n.example/primary", none, some "https://n8n.example/secondary"⟩

/-- A configuration with the primary endpoint only. -/
def primaryOnly : N8nConfig :=
  ⟨"https://n8n.example/primary", none, none⟩

/-- A world that counts the POSTs made so far: the answer to a POST is given by the
URL and the number of earlier POSTs; waiting changes nothing and the clock stands
still. -/
def countingEnv (respond : String → Nat → Except JSError JSValue) : Env Nat :=
  ⟨fun url _ n => (respond url n, n + 1), fun _ n => n, fun _ => "2024-01-01T00:00:02.000Z"⟩

/-- The response object of a 200 answer. -/
def okResponse : JSValue :=
  .obj [("status", .num 200), ("data", .obj [("received", .bool true)])]

/-- The error axios rejects with on a 500 answer. -/
def serverError : JSError :=
  ⟨"AxiosError", "Request failed with status code 500"⟩

/-- Every endpoint answers 200. -/
def allUp (_url : String) (_n : Nat) : Except JSError JSValue :=
  .ok okResponse

/-- The primary endpoint of `bothEndpoints` answers 500, any other URL answers 200. -/
def primaryDown (url : String) (_n : Nat) : Except JSError JSValue :=
  if url = "https://n8n.example/primary" then .error serverError else .ok okResponse

/-- The secondary endpoint of `bothEndpoints` answers 500, any other URL answers 200. -/
def secondaryDown (url : String) (_n : Nat) : Except JSError JSValue :=
  if url = "https://n8n.example/secondary" then .error serverError else .ok okResponse

/-- A payload without the key `message`. -/
def headerOnlyPayload : JSValue :=
  .obj [("messageType", .str "dm")]

/-- The payload of `guildMessage` routed as `channel` with `pingCommand`. -/
def guildPingPayload : JSValue :=
  .obj [("messageType", .str "channel"),
        ("message", .obj [("id", .str "m2"), ("content", .str "!ping"),
          ("timestamp", .str "2024-01-01T00:00:01.000Z"),
          ("author", .obj [("id", .str "u1"), ("username", .str "alice"),
                           ("discriminator", .str "0001"),
                           ("roles", .arr [.str "r1", .str "r2"])]),
          ("channel", .obj [("id", .str "c2"), ("name", .str "general"),
                            ("type", .str "GUILD_TEXT")]),
          ("guild", .obj [("id", .str "g1"), ("name", .str "Rocketry")])]),
        ("command", pingCommand)]

/-- Every endpoint answers 500 to the first three POSTs of the world and 200 from then
on. -/
def upOnFourth (_url : String) (n : Nat) : Except JSError JSValue :=
  if n < 3 then .error serverError else .ok okResponse

/-- A set of environment variables that passes validation, with only the required
ones set. -/
def minimalEnv : ProcessEnv :=
  { discordBotToken := some "ABCDEFGHIJKLMNOPQRSTUVWX.abcdef.0123456789abcdefghijklmnopq"
    discordClientId := some "123456789012345678"
    n8nWebhookUrl := some "https://n8n.example/primary"
    n8nWebhookToken := none
    n8nSecondaryWebhook := none
    botCommandPrefix := none
    commandChannelId := none
    debugMode := none }

/-- A URL parser for the examples: a text parses when it starts with `https://`. -/
def httpsOnly (s : String) : Bool :=
  "https://".toList.isPrefixOf s.toList

/-- The guild message as the platform delivers it: `guildMessage` with the flag `bot` of
its author. -/
def platformMessage : JSValue :=
  .obj [("id", .str "m2"), ("content", .str "!ping"),
        ("createdAt", .date (some "2024-01-01T00:00:01.000Z")),
        ("author", .obj [("id", .str "u1"), ("username", .str "alice"),
                         ("discriminator", .str "0001"), ("bot", .bool false)]),
        ("channel", .obj [("id", .str "c2"), ("name", .str "general"),
                          ("type", .str "GUILD_TEXT")]),
        ("guild", .obj [("id", .str "g1"), ("name", .str "Rocketry")])]

/-- The message `platformMessage` with the command prefix as its whole content. -/
def bareCommandMessage : JSValue :=
  .obj [("id", .str "m3"), ("content", .str "!"),
        ("createdAt", .date (some "2024-01-01T00:00:01.000Z")),
        ("author", .obj [("id", .str "u1"), ("username", .str "alice"),
                         ("discriminator", .str "0001"), ("bot", .bool false)]),
        ("channel", .obj [("id", .str "c2"), ("name", .str "general"),
                          ("type", .str "GUILD_TEXT")]),
        ("guild", .obj [("id", .str "g1"), ("name", .str "Rocketry")])]

/-- The bot configuration loaded from `minimalEnv`: command prefix `!`, no command
channel, debug mode off. -/
def minimalBot : AppConfig :=
  loadConfig minimalEnv

/-- A text of 2001 code units: 1999 letters `a`, a space and a letter `b`. -/
def longInput : List Nat :=
  List.replicate 1999 97 ++ [32, 98]

/-- A lower-casing for the examples, which is that of an engine on a text of Latin-1:
the letters A to Z and the capital letters U+00C0 to U+00DE, without the multiplication
sign U+00D7, move up by 32, and every other code unit stays. -/
def latinLower (text : List Nat) : List Nat :=
  text.map (fun u =>
    if (65 ≤ u ∧ u ≤ 90) ∨ (192 ≤ u ∧ u ≤ 222 ∧ u ≠ 215) then u + 32 else u)

/-! ### Lemmas on traces -/

theorem invocations_append (a b : List RetryEvent) :
    invocations (a ++ b) = invocations a + invocations b := by
  simp [invocations]

theorem waits_append (a b : List RetryEvent) : waits (a ++ b) = waits a ++ waits b := by
  induction a with
  | nil => rfl
  | cons x xs ih => cases x <;> simp [waits, ih]

theorem invocations_failedRounds (b d i : Nat) : invocations (failedRounds b d i) = d := by
  induction d generalizing i with
  | zero => rfl
  | succ d ih =>
    have := ih (i + 1)
    simp [failedRounds, invocations] at this ⊢
    exact this

theorem waits_failedRounds (b d i : Nat) :
    waits (failedRounds b d i) = (List.range d).map (fun j => b * 2 ^ (i + j)) := by
  induction d generalizing i with
  | zero => rfl
  | succ d ih =>
    rw [failedRounds, waits, waits, ih (i + 1), List.range_succ_eq_map]
    simp [Function.comp_def, Nat.add_assoc, Nat.add_comm 1]

/-! ### Lemmas on the loop -/

theorem retryLoop_ok_step {σ ε α : Type} (fn : σ → Except ε α × σ) (delay : Nat → σ → σ)
    (maxRetries baseDelay n i : Nat) (w w1 : σ) (le : Option ε) (tr : List RetryEvent) (v : α)
    (h : fn w = (.ok v, w1)) :
    retryLoop fn delay maxRetries baseDelay (n + 1) i w le tr
      = ⟨.ok v, w1, tr ++ [.invoke]⟩ := by
  rw [retryLoop, h]

theorem retryLoop_last_step {σ ε α : Type} (fn : σ → Except ε α × σ) (delay : Nat → σ → σ)
    (maxRetries baseDelay n : Nat) (w w1 : σ) (le : Option ε) (tr : List RetryEvent) (e : ε)
    (h : fn w = (.error e, w1)) :
    retryLoop fn delay maxRetries baseDelay (n + 1) maxRetries w le tr
      = ⟨.error (some e), w1, tr ++ [.invoke]⟩ := by
  rw [retryLoop, h]
  simp

theorem retryLoop_error_step {σ ε α : Type} (fn : σ → Except ε α × σ) (delay : Nat → σ → σ)
    (maxRetries baseDelay n i : Nat) (w w1 : σ) (le : Option ε) (tr : List RetryEvent) (e : ε)
    (h : fn w = (.error e, w1)) (hne : i ≠ maxRetries) :
    retryLoop fn delay maxRetries baseDelay (n + 1) i w le tr
      = retryLoop fn delay maxRetries baseDelay n (i + 1)
          (delay (baseDelay * 2 ^ i) w1) (some e)
          (tr ++ [.invoke, .wait (baseDelay * 2 ^ i)]) := by
  rw [retryLoop, h]
  simp only [if_neg hne]

/-- The loop, started at round `i` with enough iterations left, when the next `d`
invocations fail and the one after succeeds. -/
theorem retryLoop_succeeds {σ ε α : Type} (fn : σ → Except ε α × σ) (delay : Nat → σ → σ)
    (maxRetries baseDelay : Nat) (v : α) :
    ∀ (d n i : Nat) (w : σ) (le : Option ε) (tr : List RetryEvent),
      d < n → i + d ≤ maxRetries →
      (∀ j, j < d → ∃ e, (fn (worldAfter fn delay baseDelay j i w)).1 = .error e) →
      (fn (worldAfter fn delay baseDelay d i w)).1 = .ok v →
      (retryLoop fn delay maxRetries baseDelay n i w le tr).result = .ok v ∧
      (retryLoop fn delay maxRetries baseDelay n i w le tr).world
        = (fn (worldAfter fn delay baseDelay d i w)).2 ∧
      (retryLoop fn delay maxRetries baseDelay n i w le tr).trace
        = tr ++ failedRounds baseDelay d i ++ [.invoke] := by
  intro d
  induction d with
  | zero =>
    intro n i w le tr hn _ _ hok
    obtain ⟨m, rfl⟩ : ∃ m, n = m + 1 := ⟨n - 1, by omega⟩
    simp only [worldAfter] at hok
    rcases hfn : fn w with ⟨r, w1⟩
    rw [hfn] at hok
    simp only at hok
    subst hok
    rw [retryLoop_ok_step fn delay maxRetries baseDelay m i w w1 le tr v hfn]
    simp [failedRounds, worldAfter, hfn]
  | succ d ih =>
    intro n i w le tr hn hi hfail hok
    obtain ⟨m, rfl⟩ : ∃ m, n = m + 1 := ⟨n - 1, by omega⟩
    obtain ⟨e, he⟩ := hfail 0 (by omega)
    simp only [worldAfter] at he
    rcases hfn : fn w with ⟨r, w1⟩
    rw [hfn] at he
    simp only at he
    subst he
    have hne : i ≠ maxRetries := by omega
    have hw : worldAfter fn delay baseDelay (d + 1) i w
        = worldAfter fn delay baseDelay d (i + 1) (delay (baseDelay * 2 ^ i) w1) := by
      simp [worldAfter, hfn]
    have step := ih m (i + 1) (delay (baseDelay * 2 ^ i) w1) (some e)
      (tr ++ [.invoke, .wait (baseDelay * 2 ^ i)]) (by omega) (by omega)
      (fun j hj => by
        have := hfail (j + 1) (by omega)
        simpa [worldAfter, hfn] using this)
      (by rw [← hw]; exact hok)
    rw [retryLoop_error_step fn delay maxRetries baseDelay _ i w w1 le tr _ hfn hne, hw]
    refine ⟨step.1, step.2.1, ?_⟩
    rw [step.2.2]
    simp [failedRounds]

/-- The loop, started at round `i` with exactly the iterations up to `maxRetries` left,
when every invocation fails. -/
theorem retryLoop_exhausts {σ ε α : Type} (fn : σ → Except ε α × σ) (delay : Nat → σ → σ)
    (maxRetries baseDelay : Nat) :
    ∀ (d i : Nat) (w : σ) (le : Option ε) (tr : List RetryEvent) (e : ε),
      i + d = maxRetries →
      (∀ j, j < d → ∃ e1, (fn (worldAfter fn delay baseDelay j i w)).1 = .error e1) →
      (fn (worldAfter fn delay baseDelay d i w)).1 = .error e →
      (retryLoop fn delay maxRetries baseDelay (d + 1) i w le tr).result = .error (some e) ∧
      (retryLoop fn delay maxRetries baseDelay (d + 1) i w le tr).world
        = (fn (worldAfter fn delay baseDelay d i w)).2 ∧
      (retryLoop fn delay maxRetries baseDelay (d + 1) i w le tr).trace
        = tr ++ failedRounds baseDelay d i ++ [.invoke] := by
  intro d
  induction d with
  | zero =>
    intro i w le tr e hi _ herr
    simp only [worldAfter] at herr
    rcases hfn : fn w with ⟨r, w1⟩
    rw [hfn] at herr
    simp only at herr
    subst herr
    have hi2 : i = maxRetries := by omega
    subst hi2
    rw [retryLoop_last_step fn delay i baseDelay 0 w w1 le tr e hfn]
    simp [failedRounds, worldAfter, hfn]
  | succ d ih =>
    intro i w le tr e hi hfail herr
    obtain ⟨e0, he⟩ := hfail 0 (by omega)
    simp only [worldAfter] at he
    rcases hfn : fn w with ⟨r, w1⟩
    rw [hfn] at he
    simp only at he
    subst he
    have hne : i ≠ maxRetries := by omega
    have hw : worldAfter fn delay baseDelay (d + 1) i w
        = worldAfter fn delay baseDelay d (i + 1) (delay (baseDelay * 2 ^ i) w1) := by
      simp [worldAfter, hfn]
    have step := ih (i + 1) (delay (baseDelay * 2 ^ i) w1) (some e0)
      (tr ++ [.invoke, .wait (baseDelay * 2 ^ i)]) e (by omega)
      (fun j hj => by
        have := hfail (j + 1) (by omega)
        simpa [worldAfter, hfn] using this)
      (by rw [← hw]; exact herr)
    rw [retryLoop_error_step fn delay maxRetries baseDelay _ i w w1 le tr _ hfn hne, hw]
    refine ⟨step.1, step.2.1, ?_⟩
    rw [step.2.2]
    simp [failedRounds]

/-! ### Lemmas on values -/

theorem getProp_of_not_nullish (v : JSValue) (k : String) (h : isNullish v = false) :
    getProp v k = .ok (optChain v k) := by
  cases v <;> simp_all [getProp, optChain, isNullish]

theorem not_nullish_of_getProp (v r : JSValue) (k : String) (h : getProp v k = .ok r) :
    isNullish v = false ∧ r = optChain v k := by
  cases v <;> simp_all [getProp, optChain, isNullish]

theorem not_nullish_of_truthy (v : JSValue) (h : truthy v = true) : isNullish v = false := by
  cases v <;> simp_all [truthy, isNullish]

theorem not_nullish_of_isObject (v : JSValue) (h : isObject v = true) : isNullish v = false := by
  cases v <;> simp_all [isObject, isNullish]

theorem defaultTo_null_idem (c : JSValue) :
    defaultTo .null (defaultTo .null c) = defaultTo .null c := by
  cases c <;> rfl

theorem defaultTo_of_isCommandArg (c : JSValue) (h : isCommandArg c = true) :
    defaultTo .null c = c := by
  cases c <;> simp_all [isCommandArg, defaultTo]

theorem truthy_of_isCommandArg (c : JSValue) (h : isCommandArg c = true) :
    truthy c = true ↔ c ≠ .null := by
  cases c <;> simp_all [isCommandArg, truthy]

theorem roleIds_of_objects (roles : List JSValue) (h : roles.all isObject = true) :
    roleIds roles = .ok (roles.map (fun role => optChain role "id")) := by
  induction roles with
  | nil => rfl
  | cons role rest ih =>
    simp only [List.all_cons, Bool.and_eq_true] at h
    rw [roleIds, getProp_of_not_nullish role "id" (not_nullish_of_isObject role h.1), ih h.2]
    rfl

/-! ### The payload normaliser in closed form -/

/-- When no property read throws, `createWebhookPayload` returns the closed form. -/
theorem createWebhookPayload_closed (m t c roles : JSValue) (ts : String)
    (hm : isNullish m = false)
    (hts : toISOString (optChain m "createdAt") = .ok ts)
    (ha : isNullish (optChain m "author") = false)
    (hr : authorRoles m = .ok roles)
    (hc : isNullish (optChain m "channel") = false) :
    createWebhookPayload m t c
      = .ok (.obj ([("messageType", t),
                    ("message", .obj (literalFields m ts roles ++ guildField m))]
                   ++ commandField (defaultTo .null c))) := by
  have hg : ∀ k, truthy (optChain m "guild") = true →
      getProp (optChain m "guild") k = .ok (optChain (optChain m "guild") k) :=
    fun k h => getProp_of_not_nullish _ k (not_nullish_of_truthy _ h)
  simp only [createWebhookPayload, getProp_of_not_nullish m _ hm,
    getProp_of_not_nullish _ _ ha, getProp_of_not_nullish _ _ hc, hts, hr,
    bind, Except.bind, pure, Except.pure, literalFields, guildField, commandField]
  by_cases hgt : truthy (optChain m "guild") = true
  · simp only [hgt, if_true, hg _ hgt]
    by_cases hct : truthy (defaultTo .null c) = true <;> simp [hct]
  · simp only [hgt, if_false]
    by_cases hct : truthy (defaultTo .null c) = true <;> simp [hct]

/-- Whatever `createWebhookPayload` returns is the closed form: for some timestamp and
roles value, the conditions of `createWebhookPayload_closed` hold. -/
theorem createWebhookPayload_inv (m t c p : JSValue) (h : createWebhookPayload m t c = .ok p) :
    ∃ ts roles,
      p = .obj ([("messageType", t),
                 ("message", .obj (literalFields m ts roles ++ guildField m))]
                ++ commandField (defaultTo .null c)) ∧
      isNullish m = false ∧ toISOString (optChain m "createdAt") = .ok ts ∧
      authorRoles m = .ok roles := by
  have hm : isNullish m = false := by
    cases hid : getProp m "id" with
    | error e => simp [createWebhookPayload, hid, bind, Except.bind] at h
    | ok v => exact (not_nullish_of_getProp m v "id" hid).1
  simp only [createWebhookPayload, getProp_of_not_nullish m _ hm,
    bind, Except.bind, pure, Except.pure] at h
  cases hts : toISOString (optChain m "createdAt") with
  | error e => simp [hts] at h
  | ok ts =>
    simp only [hts] at h
    cases ha : getProp (optChain m "author") "id" with
    | error e => simp [ha] at h
    | ok aid =>
      have ha2 := (not_nullish_of_getProp _ _ _ ha).1
      simp only [getProp_of_not_nullish _ _ ha2] at h
      cases hr : authorRoles m with
      | error e => simp [hr] at h
      | ok roles =>
        simp only [hr] at h
        cases hc : getProp (optChain m "channel") "id" with
        | error e => simp [hc] at h
        | ok cid =>
          have hc2 := (not_nullish_of_getProp _ _ _ hc).1
          refine ⟨ts, roles, ?_, hm, rfl, rfl⟩
          have := createWebhookPayload_closed m t c roles ts hm hts ha2 hr hc2
          simp only [createWebhookPayload, getProp_of_not_nullish m _ hm, hts, hr,
            getProp_of_not_nullish _ _ ha2, bind, Except.bind, pure, Except.pure] at this
          rw [this] at h
          exact (Except.ok.inj h).symm

/-- Any payload `createWebhookPayload` returns passes `validateWebhookPayload`. -/
theorem validate_of_createWebhookPayload (m t c p : JSValue)
    (h : createWebhookPayload m t c = .ok p) : validateWebhookPayload p = true := by
  obtain ⟨ts, roles, rfl, -⟩ := createWebhookPayload_inv m t c p h
  simp [validateWebhookPayload, truthy, typeofObject, inOp]

theorem authorRoles_of_wellFormed (m : JSValue) (h : wellFormed m = true) :
    ∃ ids, authorRoles m = .ok (.arr ids) := by
  simp only [wellFormed, Bool.and_eq_true] at h
  obtain ⟨⟨⟨⟨⟨hm, -⟩, -⟩, -⟩, -⟩, hr⟩ := h
  have hm2 := not_nullish_of_isObject m hm
  simp only [authorRoles, getProp_of_not_nullish m _ hm2, bind, Except.bind, pure, Except.pure]
  simp only [rolesResolvable] at hr
  split at hr
  · rename_i heq; exact ⟨[], by simp [heq]⟩
  · rename_i heq; exact ⟨[], by simp [heq]⟩
  · rename_i roles heq
    exact ⟨roles.map (fun role => optChain role "id"), by simp [heq, roleIds_of_objects roles hr]⟩
  · simp at hr

/-- On a well-formed message `createWebhookPayload` returns the closed form. -/
theorem createWebhookPayload_of_wellFormed (m t c : JSValue) (h : wellFormed m = true) :
    ∃ ts ids, createWebhookPayload m t c
      = .ok (.obj ([("messageType", t),
                    ("message", .obj (literalFields m ts (.arr ids) ++ guildField m))]
                   ++ commandField (defaultTo .null c))) := by
  obtain ⟨ids, hr⟩ := authorRoles_of_wellFormed m h
  simp only [wellFormed, Bool.and_eq_true] at h
  obtain ⟨⟨⟨⟨⟨hm, hd⟩, ha⟩, hc⟩, -⟩, -⟩ := h
  have hts : ∃ ts, toISOString (optChain m "createdAt") = .ok ts := by
    cases hv : optChain m "createdAt" with
    | date iso =>
      cases iso with
      | none => simp [hv, isValidDate] at hd
      | some ts => exact ⟨ts, rfl⟩
    | _ => simp [hv, isValidDate] at hd
  obtain ⟨ts, hts⟩ := hts
  exact ⟨ts, ids, createWebhookPayload_closed m t c (.arr ids) ts
    (not_nullish_of_isObject m hm) hts (not_nullish_of_isObject _ ha) hr
    (not_nullish_of_isObject _ hc)⟩

theorem authorRoles_resolved (m : JSValue) (h : wellFormed m = true) :
    authorRoles m = .ok (.arr (resolvedRoles m)) := by
  simp only [wellFormed, Bool.and_eq_true] at h
  obtain ⟨⟨⟨⟨⟨hm, -⟩, -⟩, -⟩, -⟩, hr⟩ := h
  have hm2 := not_nullish_of_isObject m hm
  simp only [authorRoles, resolvedRoles, getProp_of_not_nullish m _ hm2, bind, Except.bind,
    pure, Except.pure]
  simp only [rolesResolvable] at hr
  split at hr
  · rename_i heq; simp [heq]
  · rename_i heq; simp [heq]
  · rename_i roles heq; simp [heq, roleIds_of_objects roles hr]
  · simp at hr

/-- On a well-formed message `createWebhookPayload` returns the closed form, with the
resolved roles. -/
theorem createWebhookPayload_resolved (m t c : JSValue) (h : wellFormed m = true) :
    ∃ ts, createWebhookPayload m t c
      = .ok (.obj ([("messageType", t),
                    ("message", .obj (literalFields m ts (.arr (resolvedRoles m))
                      ++ guildField m))]
                   ++ commandField (defaultTo .null c))) := by
  have hr := authorRoles_resolved m h
  simp only [wellFormed, Bool.and_eq_true] at h
  obtain ⟨⟨⟨⟨⟨hm, hd⟩, ha⟩, hc⟩, -⟩, -⟩ := h
  have hts : ∃ ts, toISOString (optChain m "createdAt") = .ok ts := by
    cases hv : optChain m "createdAt" with
    | date iso =>
      cases iso with
      | none => simp [hv, isValidDate] at hd
      | some ts => exact ⟨ts, rfl⟩
    | _ => simp [hv, isValidDate] at hd
  obtain ⟨ts, hts⟩ := hts
  exact ⟨ts, createWebhookPayload_closed m t c (.arr (resolvedRoles m)) ts
    (not_nullish_of_isObject m hm) hts (not_nullish_of_isObject _ ha) hr
    (not_nullish_of_isObject _ hc)⟩

/-! ### Lemmas on delivery -/

theorem retryLoop_invoked {σ ε α : Type} (fn : σ → Except ε α × σ) (delay : Nat → σ → σ)
    (maxRetries baseDelay : Nat) :
    ∀ (n i : Nat) (w : σ) (le : Option ε) (tr : List RetryEvent),
      (n = 0 → le ≠ none ∧ 1 ≤ invocations tr) →
      (retryLoop fn delay maxRetries baseDelay n i w le tr).result ≠ .error none ∧
      1 ≤ invocations (retryLoop fn delay maxRetries baseDelay n i w le tr).trace := by
  intro n
  induction n with
  | zero =>
    intro i w le tr h
    obtain ⟨h1, h2⟩ := h rfl
    refine ⟨?_, h2⟩
    simp only [retryLoop]
    intro hc
    exact h1 (Option.some.inj (by cases le <;> simp_all))
  | succ n ih =>
    intro i w le tr _
    rcases hfn : fn w with ⟨r, w1⟩
    cases r with
    | ok v =>
      rw [retryLoop_ok_step fn delay maxRetries baseDelay n i w w1 le tr v hfn]
      exact ⟨by simp, by simp [invocations]⟩
    | error e =>
      by_cases hi : i = maxRetries
      · subst hi
        rw [retryLoop_last_step fn delay i baseDelay n w w1 le tr e hfn]
        exact ⟨by simp, by simp [invocations]⟩
      · rw [retryLoop_error_step fn delay maxRetries baseDelay n i w w1 le tr e hfn hi]
        exact ih _ _ _ _ (fun _ => ⟨by simp, by simp [invocations]⟩)

/-- A run of `retryWithBackoff` never rejects with `undefined` and invokes the
operation at least once. -/
theorem retryWithBackoff_invoked {σ ε α : Type} (fn : σ → Except ε α × σ)
    (delay : Nat → σ → σ) (maxRetries baseDelay : Nat) (w : σ) :
    (retryWithBackoff fn delay maxRetries baseDelay w).result ≠ .error none ∧
    1 ≤ invocations (retryWithBackoff fn delay maxRetries baseDelay w).trace :=
  retryLoop_invoked fn delay maxRetries baseDelay (maxRetries + 1) 0 w none []
    (fun h => absurd h (Nat.succ_ne_zero _))

theorem postsTo_toNetEvent (url : String) (body : JSValue) (tr : List RetryEvent) :
    postsTo url (tr.map (toNetEvent url body)) = invocations tr := by
  induction tr with
  | nil => rfl
  | cons x xs ih =>
    cases x with
    | invoke =>
      simp only [List.map_cons, toNetEvent, postsTo, ih, invocations, if_true]
      simp [Nat.add_comm]
    | wait ms =>
      simp only [List.map_cons, toNetEvent, postsTo, ih, invocations]
      simp

theorem netWaits_toNetEvent (url : String) (body : JSValue) (tr : List RetryEvent) :
    netWaits (tr.map (toNetEvent url body)) = waits tr := by
  induction tr with
  | nil => rfl
  | cons x xs ih => cases x <;> simp [toNetEvent, netWaits, waits, ih]

theorem postsTo_append (url : String) (a b : List NetEvent) :
    postsTo url (a ++ b) = postsTo url a + postsTo url b := by
  induction a with
  | nil => simp [postsTo]
  | cons x xs ih => cases x <;> simp [postsTo, ih, Nat.add_assoc]

theorem deliver_trace {σ : Type} (env : Env σ) (url label : String) (payload : JSValue)
    (w : σ) :
    (deliver env url label payload w).trace
      = (retryWithBackoff (env.post url payload) env.delay defaultMaxRetries
          defaultBaseDelay w).trace.map (toNetEvent url payload) := by
  simp only [deliver]
  split
  · split <;> rfl
  · rfl
  · rfl

theorem deliver_world {σ : Type} (env : Env σ) (url label : String) (payload : JSValue)
    (w : σ) :
    (deliver env url label payload w).world
      = (retryWithBackoff (env.post url payload) env.delay defaultMaxRetries
          defaultBaseDelay w).world := by
  simp only [deliver]
  split
  · split <;> rfl
  · rfl
  · rfl

/-- The `try ... catch` around the retried POST always settles with a response object,
either a success response or a failure tagged `webhook_error`, after at least one POST
to its URL. -/
theorem deliver_settles {σ : Type} (env : Env σ) (url label : String) (payload : JSValue)
    (w : σ) :
    ∃ r, (deliver env url label payload w).result = .ok r ∧
      ((∃ data, r = createSuccessResponse data ("Data sent to " ++ label ++ " webhook")
          (env.now (deliver env url label payload w).world)) ∨
       (∃ msg, r = createErrorResponse msg "webhook_error"
          (env.now (deliver env url label payload w).world))) ∧
      1 ≤ postsTo url (deliver env url label payload w).trace := by
  have hinv := retryWithBackoff_invoked (env.post url payload) env.delay
    defaultMaxRetries defaultBaseDelay w
  have hposts : 1 ≤ postsTo url (deliver env url label payload w).trace := by
    rw [deliver_trace, postsTo_toNetEvent]
    exact hinv.2
  have hres : ∃ r, (deliver env url label payload w).result = .ok r ∧
      ((∃ data, r = createSuccessResponse data ("Data sent to " ++ label ++ " webhook")
          (env.now (deliver env url label payload w).world)) ∨
       (∃ msg, r = createErrorResponse msg "webhook_error"
          (env.now (deliver env url label payload w).world))) := by
    rw [deliver_world]
    simp only [deliver]
    split
    · split
      · exact ⟨_, rfl, Or.inl ⟨_, rfl⟩⟩
      · exact ⟨_, rfl, Or.inr ⟨_, rfl⟩⟩
    · exact ⟨_, rfl, Or.inr ⟨_, rfl⟩⟩
    · rename_i heq
      exact absurd heq hinv.1
  obtain ⟨r, hr1, hr2⟩ := hres
  exact ⟨r, hr1, hr2, hposts⟩

/-- When every POST of `payload` to `url` is rejected, the delivery settles with a
failure tagged `webhook_error` that carries the message of a rejection, after the whole
retry budget: four POSTs with waits of 1000, 2000 and 4000 ms between them. -/
theorem deliver_of_all_fail {σ : Type} (env : Env σ) (url label : String) (payload : JSValue)
    (w : σ) (hfail : ∀ s, ∃ e, (env.post url payload s).1 = .error e) :
    ∃ e : JSError, (deliver env url label payload w).result
        = .ok (createErrorResponse ("Failed to send data to " ++ label ++ ": " ++ e.message)
            "webhook_error" (env.now (deliver env url label payload w).world)) ∧
      (deliver env url label payload w).trace
        = (failedRounds defaultBaseDelay defaultMaxRetries 0 ++ [RetryEvent.invoke]).map
            (toNetEvent url payload) := by
  obtain ⟨e, he⟩ := hfail (worldAfter (env.post url payload) env.delay defaultBaseDelay
    defaultMaxRetries 0 w)
  have h := retryLoop_exhausts (env.post url payload) env.delay defaultMaxRetries
    defaultBaseDelay defaultMaxRetries 0 w none [] e (by omega) (fun j _ => hfail _) he
  have hres : (retryWithBackoff (env.post url payload) env.delay defaultMaxRetries
      defaultBaseDelay w).result = .error (some e) := h.1
  have htr : (retryWithBackoff (env.post url payload) env.delay defaultMaxRetries
      defaultBaseDelay w).trace = failedRounds defaultBaseDelay defaultMaxRetries 0 ++ [.invoke] := by
    simpa [retryWithBackoff] using h.2.2
  refine ⟨e, ?_, ?_⟩
  · rw [deliver_world]
    simp only [deliver, hres]
  · rw [deliver_trace, htr]

theorem sendToWebhook_of_valid {σ : Type} (env : Env σ) (cfg : N8nConfig) (payload : JSValue)
    (w : σ) (h : validateWebhookPayload payload = true) :
    sendToWebhook env cfg payload w = deliver env cfg.webhookUrl "n8n" payload w := by
  simp [sendToWebhook, h]

theorem sendToSecondaryWebhook_of_valid {σ : Type} (env : Env σ) (cfg : N8nConfig)
    (payload : JSValue) (w : σ) (hs : envTruthy cfg.secondaryWebhook = true)
    (h : validateWebhookPayload payload = true) :
    sendToSecondaryWebhook env cfg payload w
      = deliver env (envValue cfg.secondaryWebhook) "secondary n8n" payload w := by
  simp [sendToSecondaryWebhook, h, hs]

theorem createWebhookPayload_defaultTo (m t c : JSValue) :
    createWebhookPayload m t (defaultTo .null c) = createWebhookPayload m t c := by
  simp only [createWebhookPayload, defaultTo_null_idem]

/-- The router on a message that normalises, when the secondary dispatch does not
apply. -/
theorem processMessage_primary_only {σ : Type} (env : Env σ) (cfg : N8nConfig)
    (m t c payload : JSValue) (w : σ)
    (hp : createWebhookPayload m t c = .ok payload)
    (hno : (truthy (defaultTo .null c) && envTruthy cfg.secondaryWebhook) = false) :
    ∃ pr, (sendToWebhook env cfg payload w).result = .ok pr ∧
      (processMessage env cfg m t c w).result = .ok (.obj [("primary", pr)]) ∧
      (processMessage env cfg m t c w).trace = (sendToWebhook env cfg payload w).trace := by
  have hv := validate_of_createWebhookPayload m t c payload hp
  obtain ⟨pr, hpr, -⟩ := deliver_settles env cfg.webhookUrl "n8n" payload w
  rw [← sendToWebhook_of_valid env cfg payload w hv] at hpr
  refine ⟨pr, hpr, ?_, ?_⟩ <;>
    simp only [processMessage, createWebhookPayload_defaultTo, hp, hpr, hno] <;> simp

/-- The router on a message that normalises, when the secondary dispatch applies. -/
theorem processMessage_both {σ : Type} (env : Env σ) (cfg : N8nConfig)
    (m t c payload : JSValue) (w : σ)
    (hp : createWebhookPayload m t c = .ok payload)
    (hyes : (truthy (defaultTo .null c) && envTruthy cfg.secondaryWebhook) = true) :
    ∃ pr sr, (sendToWebhook env cfg payload w).result = .ok pr ∧
      (sendToSecondaryWebhook env cfg payload (sendToWebhook env cfg payload w).world).result
        = .ok sr ∧
      (processMessage env cfg m t c w).result = .ok (.obj [("primary", pr), ("secondary", sr)]) ∧
      (processMessage env cfg m t c w).trace
        = (sendToWebhook env cfg payload w).trace
          ++ (sendToSecondaryWebhook env cfg payload (sendToWebhook env cfg payload w).world).trace := by
  have hv := validate_of_createWebhookPayload m t c payload hp
  have hs : envTruthy cfg.secondaryWebhook = true := by
    simp only [Bool.and_eq_true] at hyes
    exact hyes.2
  obtain ⟨pr, hpr, -⟩ := deliver_settles env cfg.webhookUrl "n8n" payload w
  rw [← sendToWebhook_of_valid env cfg payload w hv] at hpr
  obtain ⟨sr, hsr, -⟩ := deliver_settles env (envValue cfg.secondaryWebhook) "secondary n8n"
    payload (sendToWebhook env cfg payload w).world
  rw [← sendToSecondaryWebhook_of_valid env cfg payload _ hs hv] at hsr
  refine ⟨pr, sr, hpr, hsr, ?_, ?_⟩ <;>
    simp only [processMessage, createWebhookPayload_defaultTo, hp, hpr, hyes] <;>
    simp [hsr]

/-! ### Lemmas for the retry budget and the shape of an outcome -/

theorem sum_backoff (b n : Nat) :
    ((List.range n).map (fun i => b * 2 ^ i)).sum = b * (2 ^ n - 1) := by
  induction n with
  | zero => simp
  | succ n ih =>
    have hx : 1 ≤ 2 ^ n := Nat.one_le_two_pow
    rw [List.range_succ, List.map_append, List.sum_append, ih]
    simp only [List.map_cons, List.map_nil, List.sum_cons, List.sum_nil, Nat.add_zero]
    rw [← Nat.mul_add, Nat.pow_succ]
    congr 1
    omega

/-- A run of `retryWithBackoff` in which every invocation fails: the result is the
error of the last invocation and the trace is `maxRetries` failed rounds and one more
invocation. -/
theorem retryWithBackoff_all_fail {σ ε α : Type} (fn : σ → Except ε α × σ)
    (delay : Nat → σ → σ) (maxRetries baseDelay : Nat) (w : σ)
    (hfail : ∀ j, j ≤ maxRetries →
      ∃ e, (fn (worldAfter fn delay baseDelay j 0 w)).1 = .error e) :
    ∃ e, (fn (worldAfter fn delay baseDelay maxRetries 0 w)).1 = .error e ∧
      (retryWithBackoff fn delay maxRetries baseDelay w).result = .error (some e) ∧
      (retryWithBackoff fn delay maxRetries baseDelay w).trace
        = failedRounds baseDelay maxRetries 0 ++ [RetryEvent.invoke] := by
  obtain ⟨e, he⟩ := hfail maxRetries (Nat.le_refl _)
  have h := retryLoop_exhausts fn delay maxRetries baseDelay maxRetries 0 w none [] e
    (by omega) (fun j hj => hfail j (Nat.le_of_lt hj)) he
  exact ⟨e, he, h.1, by simpa [retryWithBackoff] using h.2.2⟩

theorem fourAttempts_eq (url : String) (body : JSValue) :
    (failedRounds defaultBaseDelay defaultMaxRetries 0 ++ [RetryEvent.invoke]).map
      (toNetEvent url body) = fourAttempts url body :=
  rfl

theorem postsTo_fourAttempts (url : String) (body : JSValue) :
    postsTo url (fourAttempts url body) = 4 := by
  simp [fourAttempts, postsTo]

theorem netWaits_fourAttempts (url : String) (body : JSValue) :
    netWaits (fourAttempts url body) = [1000, 2000, 4000] :=
  rfl

theorem allPostsTo_toNetEvent (url : String) (body : JSValue) (tr : List RetryEvent) :
    allPostsTo url (tr.map (toNetEvent url body)) = true := by
  induction tr with
  | nil => rfl
  | cons x xs ih => cases x <;> simp [toNetEvent, allPostsTo, ih]

theorem allPostsTo_append (url : String) (a b : List NetEvent) :
    allPostsTo url (a ++ b) = (allPostsTo url a && allPostsTo url b) := by
  induction a with
  | nil => simp [allPostsTo]
  | cons x xs ih => cases x <;> simp [allPostsTo, ih, Bool.and_assoc]

theorem postsTo_of_allPostsTo (u url : String) (tr : List NetEvent)
    (h : allPostsTo u tr = true) (hne : u ≠ url) : postsTo url tr = 0 := by
  induction tr with
  | nil => rfl
  | cons x xs ih =>
    cases x with
    | post v body =>
      simp only [allPostsTo, Bool.and_eq_true, decide_eq_true_eq] at h
      obtain ⟨hv, hxs⟩ := h
      subst hv
      simp [postsTo, hne, ih hxs]
    | wait ms =>
      simp only [allPostsTo] at h
      simp [postsTo, ih h]

theorem postCount_of_allPostsTo (url : String) (tr : List NetEvent)
    (h : allPostsTo url tr = true) : postCount tr = postsTo url tr := by
  induction tr with
  | nil => rfl
  | cons x xs ih =>
    cases x with
    | post v body =>
      simp only [allPostsTo, Bool.and_eq_true, decide_eq_true_eq] at h
      obtain ⟨hv, hxs⟩ := h
      subst hv
      simp [postsTo, postCount, ih hxs]
    | wait ms =>
      simp only [allPostsTo] at h
      simp [postsTo, postCount, ih h]

theorem allPostsTo_deliver {σ : Type} (env : Env σ) (url label : String) (payload : JSValue)
    (w : σ) : allPostsTo url (deliver env url label payload w).trace = true := by
  rw [deliver_trace]
  exact allPostsTo_toNetEvent url payload _

theorem allPostsTo_sendToWebhook {σ : Type} (env : Env σ) (cfg : N8nConfig)
    (payload : JSValue) (w : σ) :
    allPostsTo cfg.webhookUrl (sendToWebhook env cfg payload w).trace = true := by
  simp only [sendToWebhook]
  split
  · rfl
  · exact allPostsTo_deliver env cfg.webhookUrl "n8n" payload w

theorem allPostsTo_sendToSecondaryWebhook {σ : Type} (env : Env σ) (cfg : N8nConfig)
    (payload : JSValue) (w : σ) :
    allPostsTo (envValue cfg.secondaryWebhook)
      (sendToSecondaryWebhook env cfg payload w).trace = true := by
  simp only [sendToSecondaryWebhook]
  split
  · rfl
  · split
    · rfl
    · exact allPostsTo_deliver env _ "secondary n8n" payload w

/-- The delivery when every POST is rejected, with the rejection whose message the
failure carries: the one of the last attempt. -/
theorem deliver_of_all_fail_last {σ : Type} (env : Env σ) (url label : String)
    (payload : JSValue) (w : σ) (hfail : ∀ s, ∃ e, (env.post url payload s).1 = .error e) :
    ∃ (e : JSError) (s : σ), (env.post url payload s).1 = .error e ∧
      (deliver env url label payload w).result
        = .ok (createErrorResponse ("Failed to send data to " ++ label ++ ": " ++ e.message)
            "webhook_error" (env.now (deliver env url label payload w).world)) ∧
      (deliver env url label payload w).trace = fourAttempts url payload := by
  obtain ⟨e, he, hres, htr⟩ := retryWithBackoff_all_fail (env.post url payload) env.delay
    defaultMaxRetries defaultBaseDelay w (fun _ _ => hfail _)
  refine ⟨e, _, he, ?_, ?_⟩
  · rw [deliver_world]
    simp only [deliver, hres]
  · rw [deliver_trace, htr]
    rfl

/-- The delivery when the first three POSTs are rejected and the fourth is answered
with a response whose body is `body`. -/
theorem deliver_of_fourth_success {σ : Type} (env : Env σ) (url label : String)
    (payload response body : JSValue) (w : σ)
    (hfail : ∀ j, j < 3 → ∃ e, (env.post url payload
      (worldAfter (env.post url payload) env.delay defaultBaseDelay j 0 w)).1 = .error e)
    (hok : (env.post url payload
      (worldAfter (env.post url payload) env.delay defaultBaseDelay 3 0 w)).1 = .ok response)
    (hbody : getProp response "data" = .ok body) :
    (deliver env url label payload w).result
      = .ok (createSuccessResponse body ("Data sent to " ++ label ++ " webhook")
          (env.now (deliver env url label payload w).world)) ∧
    (deliver env url label payload w).trace = fourAttempts url payload := by
  have h := retryLoop_succeeds (env.post url payload) env.delay defaultMaxRetries
    defaultBaseDelay response 3 (defaultMaxRetries + 1) 0 w none []
    (by decide) (by decide) hfail hok
  have hres : (retryWithBackoff (env.post url payload) env.delay defaultMaxRetries
      defaultBaseDelay w).result = .ok response := h.1
  have htr : (retryWithBackoff (env.post url payload) env.delay defaultMaxRetries
      defaultBaseDelay w).trace = failedRounds defaultBaseDelay 3 0 ++ [RetryEvent.invoke] := by
    simpa [retryWithBackoff] using h.2.2
  refine ⟨?_, ?_⟩
  · rw [deliver_world]
    simp only [deliver, hres, hbody]
  · rw [deliver_trace, htr]
    rfl

/-- The outcome of the router on an event that normalises: the result of the primary
send under `primary`, and a trace that is the trace of the primary send followed by
POSTs to the secondary endpoint only. -/
theorem processMessage_shape {σ : Type} (env : Env σ) (cfg : N8nConfig)
    (m t c payload : JSValue) (w : σ)
    (hp : createWebhookPayload m t c = .ok payload) :
    ∃ pr outcome rest, (sendToWebhook env cfg payload w).result = .ok pr ∧
      (processMessage env cfg m t c w).result = .ok outcome ∧
      getProp outcome "primary" = .ok pr ∧
      (processMessage env cfg m t c w).trace = (sendToWebhook env cfg payload w).trace ++ rest ∧
      allPostsTo (envValue cfg.secondaryWebhook) rest = true := by
  by_cases hyes : (truthy (defaultTo .null c) && envTruthy cfg.secondaryWebhook) = true
  · obtain ⟨pr, sr, hpr, -, hres, htr⟩ := processMessage_both env cfg m t c payload w hp hyes
    exact ⟨pr, _, _, hpr, hres, by simp [getProp, List.lookup], htr,
      allPostsTo_sendToSecondaryWebhook env cfg payload _⟩
  · have hno : (truthy (defaultTo .null c) && envTruthy cfg.secondaryWebhook) = false := by
      simpa using hyes
    obtain ⟨pr, hpr, hres, htr⟩ := processMessage_primary_only env cfg m t c payload w hp hno
    exact ⟨pr, _, [], hpr, hres, by simp [getProp, List.lookup], by simpa using htr, rfl⟩

/-! ### Lemmas on delivery results and on the configuration -/

theorem retryLoop_ok_origin {σ ε α : Type} (fn : σ → Except ε α × σ) (delay : Nat → σ → σ)
    (maxRetries baseDelay : Nat) (v : α) :
    ∀ (n i : Nat) (w : σ) (le : Option ε) (tr : List RetryEvent),
      (retryLoop fn delay maxRetries baseDelay n i w le tr).result = .ok v →
      ∃ s, (fn s).1 = .ok v := by
  intro n
  induction n with
  | zero =>
    intro i w le tr h
    simp [retryLoop] at h
  | succ n ih =>
    intro i w le tr h
    rcases hfn : fn w with ⟨r, w1⟩
    cases r with
    | ok u =>
      rw [retryLoop_ok_step fn delay maxRetries baseDelay n i w w1 le tr u hfn] at h
      exact ⟨w, by rw [hfn]; simpa using h⟩
    | error e =>
      by_cases hi : i = maxRetries
      · subst hi
        rw [retryLoop_last_step fn delay i baseDelay n w w1 le tr e hfn] at h
        simp at h
      · rw [retryLoop_error_step fn delay maxRetries baseDelay n i w w1 le tr e hfn hi] at h
        exact ih _ _ _ _ h

theorem filledOneSide_success (data : JSValue) (message now : String) :
    filledOneSide (createSuccessResponse data message now) = true := by
  simp [filledOneSide, createSuccessResponse, optChain, inOp, List.lookup]

theorem filledOneSide_error (message type now : String) :
    filledOneSide (createErrorResponse message type now) = true := by
  simp [filledOneSide, createErrorResponse, optChain, inOp, List.lookup]

/-- A result of a delivery is filled on one side only, and when it is a success its
`data` is the `data` of a response that a POST to the URL returned. -/
theorem deliver_filled {σ : Type} (env : Env σ) (url label : String) (payload r : JSValue)
    (w : σ) (h : (deliver env url label payload w).result = .ok r) :
    filledOneSide r = true ∧
    (getProp r "success" = .ok (.bool true) →
      ∃ s response, (env.post url payload s).1 = .ok response ∧
        getProp response "data" = getProp r "data") := by
  simp only [deliver] at h
  split at h
  · rename_i response hres
    obtain ⟨s, hs⟩ := retryLoop_ok_origin (env.post url payload) env.delay defaultMaxRetries
      defaultBaseDelay response _ _ _ _ _ hres
    split at h
    · rename_i data hdata
      have hr := (Except.ok.inj h).symm
      subst hr
      exact ⟨filledOneSide_success _ _ _, fun _ => ⟨s, response, hs, by rw [hdata]; rfl⟩⟩
    · have hr := (Except.ok.inj h).symm
      subst hr
      refine ⟨filledOneSide_error _ _ _, fun hs2 => ?_⟩
      simp [getProp, createErrorResponse, List.lookup] at hs2
  · have hr := (Except.ok.inj h).symm
    subst hr
    refine ⟨filledOneSide_error _ _ _, fun hs2 => ?_⟩
    simp [getProp, createErrorResponse, List.lookup] at hs2
  · simp at h

theorem configErrors_length_pos_of_primary (parses : String → Bool) (c : AppConfig)
    (h : envTruthy c.webhookUrl = false ∨ parses (envValue c.webhookUrl) = false) :
    0 < (configErrors parses c).length := by
  have h3 : 0 < (if !envTruthy c.webhookUrl then ["N8N_WEBHOOK_URL is required"]
      else if !validateUrl parses c.webhookUrl then ["N8N_WEBHOOK_URL has invalid URL format"]
      else []).length := by
    by_cases ht : envTruthy c.webhookUrl = true
    · rcases h with h | h
      · simp [ht] at h
      · simp [ht, validateUrl, h]
    · simp [ht]
  simp only [configErrors, List.length_append]
  omega

theorem configErrors_length_pos_of_secondary (parses : String → Bool) (c : AppConfig)
    (ht : envTruthy c.secondaryWebhook = true)
    (h : parses (envValue c.secondaryWebhook) = false) :
    0 < (configErrors parses c).length := by
  have h4 : 0 < (if envTruthy c.secondaryWebhook && !validateUrl parses c.secondaryWebhook then
      ["N8N_SECONDARY_WEBHOOK has invalid URL format"] else []).length := by
    simp [ht, validateUrl, h]
  simp only [configErrors, List.length_append]
  omega

theorem configErrors_nil (parses : String → Bool) (c : AppConfig)
    (hb : validateBotToken c.botToken = true) (hc : validateSnowflake c.clientId = true)
    (hu : validateUrl parses c.webhookUrl = true)
    (hs : envTruthy c.secondaryWebhook = false ∨ parses (envValue c.secondaryWebhook) = true)
    (hch : envTruthy c.commandChannelId = false ∨ validateSnowflake c.commandChannelId = true) :
    configErrors parses c = [] := by
  have hb2 : envTruthy c.botToken = true := by
    by_cases ht : envTruthy c.botToken = true
    · exact ht
    · simp [validateBotToken, ht] at hb
  have hc2 : envTruthy c.clientId = true := by
    by_cases ht : envTruthy c.clientId = true
    · exact ht
    · simp [validateSnowflake, ht] at hc
  have hu2 : envTruthy c.webhookUrl = true := by
    by_cases ht : envTruthy c.webhookUrl = true
    · exact ht
    · simp [validateUrl, ht] at hu
  have hs2 : (envTruthy c.secondaryWebhook && !validateUrl parses c.secondaryWebhook) = false := by
    rcases hs with hs | hs
    · simp [hs]
    · by_cases ht : envTruthy c.secondaryWebhook = true
      · simp [validateUrl, ht, hs]
      · simp [ht]
  have hch2 : (envTruthy c.commandChannelId && !validateSnowflake c.commandChannelId) = false := by
    rcases hch with hch | hch
    · simp [hch]
    · simp [hch]
  simp [configErrors, hb, hc, hu, hb2, hc2, hu2, hs2, hch2]

theorem validateConfig_of_errors (parses : String → Bool) (c : AppConfig)
    (h : 0 < (configErrors parses c).length) :
    validateConfig parses c
      = .error ⟨"Error", "Configuration validation failed:" ++ lineBreak
          ++ lineBreak.intercalate (configErrors parses c)⟩ := by
  simp only [validateConfig, gt_iff_lt, h, if_true]

/-! ### Lemmas on headers and on text -/

theorem lookup_setHeader_self (name value : String) (hs : Headers) :
    (setHeader name value hs).lookup name = some value := by
  induction hs with
  | nil => simp [setHeader, List.lookup]
  | cons kv hs ih =>
    obtain ⟨n, v⟩ := kv
    by_cases h : n = name
    · simp [setHeader, h, List.lookup]
    · have h2 : (name == n) = false := by
        simpa using fun h3 : name = n => h h3.symm
      simp [setHeader, h, List.lookup, h2, ih]

theorem lookup_setHeader_other (name value k : String) (hs : Headers) (hk : k ≠ name) :
    (setHeader name value hs).lookup k = hs.lookup k := by
  induction hs with
  | nil =>
    have h2 : (k == name) = false := by simpa using hk
    simp [setHeader, List.lookup, h2]
  | cons kv hs ih =>
    obtain ⟨n, v⟩ := kv
    by_cases h : n = name
    · subst h
      have h2 : (k == n) = false := by simpa using hk
      simp [setHeader, List.lookup, h2]
    · by_cases h3 : (k == n) = true
      · simp [setHeader, h, List.lookup, h3]
      · have h4 : (k == n) = false := by simpa using h3
        simp [setHeader, h, List.lookup, h4, ih]

theorem mem_jsTrim {c : Nat} {text : List Nat} (h : c ∈ jsTrim text) : c ∈ text :=
  (List.dropWhile_suffix isJSSpace).mem ((List.rdropWhile_prefix isJSSpace _).mem h)

theorem length_jsTrim_le (text : List Nat) : (jsTrim text).length ≤ text.length :=
  Nat.le_trans (List.rdropWhile_prefix isJSSpace _).length_le
    (List.dropWhile_suffix isJSSpace).length_le

/-- The two `replace` calls of `sanitizeInput` as one filter. -/
theorem strip_eq (input : List Nat) :
    (input.filter (fun c => !(c == 60 || c == 62))).filter (fun c => !(c == 96))
      = input.filter (fun c => !isStripped c) := by
  rw [List.filter_filter]
  congr 1
  funext c
  simp only [isStripped]
  cases (c == 60) <;> cases (c == 62) <;> cases (c == 96) <;> rfl

theorem sanitizeText_eq (input : List Nat) :
    sanitizeText input = (jsTrim (input.filter (fun c => !isStripped c))).take 2000 := by
  rw [sanitizeText, strip_eq]

theorem not_stripped_of_mem_sanitizeText {c : Nat} {input : List Nat}
    (h : c ∈ sanitizeText input) : isStripped c = false := by
  rw [sanitizeText_eq] at h
  have h2 := mem_jsTrim (List.mem_of_mem_take h)
  simpa using (List.mem_filter.1 h2).2

theorem length_dots : (codeUnits "...").length = 3 := by
  decide

/-- With a maximum of at least 3, `truncateText` keeps within the maximum; it returns a
text of at most `maxLength` code units unchanged and otherwise the first
`maxLength - 3` code units followed by three dots. -/
theorem truncateText_of_three_le (text : List Nat) (maxLength : Int) (h : 3 ≤ maxLength) :
    ((truncateText text maxLength).length : Int) ≤ maxLength ∧
    ((text.length : Int) ≤ maxLength → truncateText text maxLength = text) ∧
    (maxLength < (text.length : Int) →
      truncateText text maxLength = text.take (maxLength - 3).toNat ++ codeUnits "...") := by
  by_cases hle : (text.length : Int) ≤ maxLength
  · refine ⟨by simp [truncateText, hle], fun _ => by simp [truncateText, hle], fun hlt => ?_⟩
    omega
  · have hneg : ¬ (maxLength - 3 < 0) := by omega
    have hcut : truncateText text maxLength
        = text.take (maxLength - 3).toNat ++ codeUnits "..." := by
      simp only [truncateText, hle, if_false, sliceTo, hneg]
    refine ⟨?_, fun h2 => absurd h2 hle, fun _ => hcut⟩
    rw [hcut]
    simp only [List.length_append, List.length_take, length_dots]
    omega

theorem validateWebhookPayload_obj (fields : List (String × JSValue)) :
    validateWebhookPayload (.obj fields)
      = (fields.any (fun kv => kv.1 == "messageType") && fields.any (fun kv => kv.1 == "message")) := by
  simp [validateWebhookPayload, truthy, typeofObject, inOp]

/-! ### Lemmas on code units -/

theorem char_toNat_valid (c : Char) :
    c.toNat < 0xD800 ∨ (0xDFFF < c.toNat ∧ c.toNat < 0x110000) := by
  have := c.valid
  simpa [Char.toNat, UInt32.isValidChar, Nat.isValidChar] using this

theorem charUnits_ne_nil (c : Char) : charUnits c ≠ [] := by
  unfold charUnits; split <;> simp

theorem decodeGo_charUnits (c : Char) (rest : List Nat) :
    decodeGo none (charUnits c ++ rest) = c :: decodeGo none rest := by
  have hv := char_toNat_valid c
  unfold charUnits
  split
  · rename_i h
    have hhi : isHighSurrogate c.toNat = false := by
      simp only [isHighSurrogate, Bool.and_eq_false_iff, decide_eq_false_iff_not]
      omega
    simp only [List.singleton_append, decodeGo, hhi, Bool.false_eq_true, if_false,
      Char.ofNat_toNat]
    rfl
  · rename_i h
    have hhi : isHighSurrogate (0xD800 + (c.toNat - 0x10000) / 0x400) = true := by
      simp only [isHighSurrogate, Bool.and_eq_true, decide_eq_true_eq]
      omega
    have hlo : isLowSurrogate (0xDC00 + (c.toNat - 0x10000) % 0x400) = true := by
      simp only [isLowSurrogate, Bool.and_eq_true, decide_eq_true_eq]
      omega
    have hc : pairChar (0xD800 + (c.toNat - 0x10000) / 0x400)
        (0xDC00 + (c.toNat - 0x10000) % 0x400) = c := by
      have : 0x10000 + (0xD800 + (c.toNat - 0x10000) / 0x400 - 0xD800) * 0x400
          + (0xDC00 + (c.toNat - 0x10000) % 0x400 - 0xDC00) = c.toNat := by omega
      rw [pairChar, this, Char.ofNat_toNat]
    simp only [List.cons_append, List.nil_append, decodeGo, hhi, hlo, if_true, hc]
    rfl

/-- Reading the code units of a text gives the text back. -/
theorem ofCodeUnits_codeUnits (s : String) : ofCodeUnits (codeUnits s) = s := by
  have h : ∀ cs : List Char, decodeGo none ((cs.map charUnits).flatten) = cs := by
    intro cs
    induction cs with
    | nil => rfl
    | cons c cs ih =>
      rw [List.map_cons, List.flatten_cons, decodeGo_charUnits, ih]
  simp only [ofCodeUnits, codeUnits, h]
  rfl

theorem charUnits_prefix (a b : Char) (x y : List Nat)
    (h : charUnits a ++ x <+: charUnits b ++ y) : a = b ∧ x <+: y := by
  have ha := char_toNat_valid a
  have hb := char_toNat_valid b
  have key : a.toNat = b.toNat → a = b := fun e => by
    rw [← Char.ofNat_toNat a, ← Char.ofNat_toNat b, e]
  unfold charUnits at h
  split at h <;> split at h
  · simp only [List.singleton_append, List.cons_prefix_cons] at h
    exact ⟨key h.1, h.2⟩
  · simp only [List.singleton_append, List.cons_append, List.nil_append,
      List.cons_prefix_cons] at h
    omega
  · simp only [List.singleton_append, List.cons_append, List.nil_append,
      List.cons_prefix_cons] at h
    omega
  · simp only [List.cons_append, List.nil_append, List.cons_prefix_cons] at h
    refine ⟨key ?_, h.2.2⟩
    omega

/-- A text starts with another exactly when its code units start with the code units of
the other. -/
theorem codeUnits_prefix_iff (p s : String) :
    codeUnits p <+: codeUnits s ↔ p.toList <+: s.toList := by
  have h : ∀ a b : List Char,
      (a.map charUnits).flatten <+: (b.map charUnits).flatten ↔ a <+: b := by
    intro a
    induction a with
    | nil => intro b; simp
    | cons c cs ih =>
      intro b
      cases b with
      | nil =>
        simp only [List.map_cons, List.flatten_cons, List.map_nil, List.flatten_nil,
          List.prefix_nil, List.append_eq_nil, charUnits_ne_nil, false_and, false_iff]
        simp
      | cons d ds =>
        simp only [List.map_cons, List.flatten_cons, List.cons_prefix_cons]
        constructor
        · intro hpre
          obtain ⟨hcd, hrest⟩ := charUnits_prefix c d _ _ hpre
          exact ⟨hcd, (ih ds).1 hrest⟩
        · rintro ⟨rfl, hrest⟩
          exact (List.prefix_append_right_inj _).2 ((ih ds).2 hrest)
  exact h p.toList s.toList

/-! ### Lemmas on trimming and splitting -/

theorem splitGo_ne_nil (inGap : Bool) (cur text : List Nat) : splitGo inGap cur text ≠ [] := by
  induction text generalizing inGap cur with
  | nil => simp [splitGo]
  | cons c cs ih =>
    simp only [splitGo]
    split
    · split
      · exact ih _ _
      · simp
    · exact ih _ _

theorem splitGo_no_space (inGap : Bool) (cur text : List Nat)
    (hcur : ∀ c ∈ cur, isJSSpace c = false) :
    ∀ t ∈ splitGo inGap cur text, ∀ c ∈ t, isJSSpace c = false := by
  induction text generalizing inGap cur with
  | nil =>
    intro t ht
    simp only [splitGo, List.mem_singleton] at ht
    subst ht
    exact hcur
  | cons c cs ih =>
    simp only [splitGo]
    by_cases hc : isJSSpace c = true
    · simp only [hc, if_true]
      cases inGap with
      | true => exact ih true cur hcur
      | false =>
        intro t ht
        simp only [Bool.false_eq_true, if_false, List.mem_cons] at ht
        rcases ht with ht | ht
        · subst ht; exact hcur
        · exact ih true [] (by simp) t ht
    · simp only [hc, if_false]
      refine ih false (cur ++ [c]) ?_
      intro x hx
      rcases List.mem_append.1 hx with hx | hx
      · exact hcur x hx
      · simp only [List.mem_singleton] at hx
        subst hx
        simpa using hc

theorem splitGo_flatten (inGap : Bool) (cur text : List Nat) :
    (splitGo inGap cur text).flatten = cur ++ text.filter (fun c => !isJSSpace c) := by
  induction text generalizing inGap cur with
  | nil => simp [splitGo]
  | cons c cs ih =>
    simp only [splitGo]
    by_cases hc : isJSSpace c = true
    · cases inGap <;> simp [hc, ih]
    · simp [hc, ih]

/-- When the text does not end in white space, and the scan has a piece under way or
has just closed one with text left to read, no piece of the scan is empty. -/
theorem splitGo_pieces_ne_nil (inGap : Bool) (cur text : List Nat)
    (hstart : cur ≠ [] ∨ (inGap = true ∧ text ≠ []))
    (hlast : ∀ h : text ≠ [], isJSSpace (text.getLast h) = false) :
    ∀ t ∈ splitGo inGap cur text, t ≠ [] := by
  induction text generalizing inGap cur with
  | nil =>
    intro t ht
    simp only [splitGo, List.mem_singleton] at ht
    subst ht
    rcases hstart with h | h
    · exact h
    · exact absurd rfl h.2
  | cons c cs ih =>
    have hlast2 : ∀ h : cs ≠ [], isJSSpace (cs.getLast h) = false := by
      intro h
      have := hlast (by simp)
      rwa [List.getLast_cons h] at this
    simp only [splitGo]
    by_cases hc : isJSSpace c = true
    · have hcs : cs ≠ [] := by
        intro h
        subst h
        have := hlast (by simp)
        simp [hc] at this
      simp only [hc, if_true]
      cases inGap with
      | true => exact ih true cur (Or.inr ⟨rfl, hcs⟩) hlast2
      | false =>
        have hcur : cur ≠ [] := by
          rcases hstart with h | h
          · exact h
          · simp at h
        intro t ht
        simp only [Bool.false_eq_true, if_false, List.mem_cons] at ht
        rcases ht with ht | ht
        · subst ht; exact hcur
        · exact ih true [] (Or.inr ⟨rfl, hcs⟩) hlast2 t ht
    · simp only [hc, if_false]
      exact ih false (cur ++ [c]) (Or.inl (by simp)) hlast2

theorem jsTrim_head_not_space (text : List Nat) (c : Nat) (cs : List Nat)
    (h : jsTrim text = c :: cs) : isJSSpace c = false := by
  obtain ⟨t, ht⟩ := List.rdropWhile_prefix isJSSpace (text.dropWhile isJSSpace)
  rw [show List.rdropWhile isJSSpace (text.dropWhile isJSSpace) = jsTrim text from rfl, h] at ht
  have hne : text.dropWhile isJSSpace ≠ [] := by
    rw [← ht]; simp
  have hhead := List.head_dropWhile_not isJSSpace text hne
  have hc : (text.dropWhile isJSSpace).head hne = c := by
    simp only [← ht, List.cons_append, List.head_cons]
  rw [hc] at hhead
  exact hhead

theorem jsTrim_last_not_space (text : List Nat) (h : jsTrim text ≠ []) :
    isJSSpace ((jsTrim text).getLast h) = false := by
  have := List.rdropWhile_last_not isJSSpace (text.dropWhile isJSSpace) h
  simpa using this

theorem jsTrim_idem (text : List Nat) : jsTrim (jsTrim text) = jsTrim text := by
  have hdrop : (jsTrim text).dropWhile isJSSpace = jsTrim text := by
    cases hj : jsTrim text with
    | nil => rfl
    | cons c cs =>
      have := jsTrim_head_not_space text c cs hj
      rw [List.dropWhile_cons_of_neg (by simp [this])]
  rw [jsTrim, hdrop, jsTrim]
  exact List.rdropWhile_idempotent isJSSpace _

theorem jsTrim_of_all_space (text : List Nat) (h : text.all isJSSpace = true) :
    jsTrim text = [] := by
  have : text.dropWhile isJSSpace = [] := by
    rw [List.dropWhile_eq_nil_iff]
    simpa using h
  rw [jsTrim, this]
  rfl

/-- The pieces of a trimmed text: none is empty unless the text is empty and is its own
single piece. -/
theorem splitSpaces_jsTrim (text : List Nat) :
    (jsTrim text = [] ∧ splitSpaces (jsTrim text) = [[]]) ∨
    (∀ t ∈ splitSpaces (jsTrim text), t ≠ []) := by
  cases hj : jsTrim text with
  | nil => exact Or.inl ⟨rfl, rfl⟩
  | cons c cs =>
    refine Or.inr ?_
    have hc := jsTrim_head_not_space text c cs hj
    have hlast : ∀ h : cs ≠ [], isJSSpace (cs.getLast h) = false := by
      intro h
      have := jsTrim_last_not_space text (by rw [hj]; simp)
      simp only [hj] at this
      rwa [List.getLast_cons h] at this
    simp only [splitSpaces, splitGo, hc, Bool.false_eq_true, if_false, List.nil_append]
    exact splitGo_pieces_ne_nil false [c] cs (Or.inl (by simp)) hlast

/-- What `parseCommand` returns on a content that starts with the prefix. -/
theorem parseCommand_of_prefix (toLowerCase : List Nat → List Nat) (pfx tail : List Nat) :
    ∃ first rest, splitSpaces (jsTrim tail) = first :: rest ∧
      parseCommand toLowerCase (pfx ++ tail) pfx = some ⟨toLowerCase first, rest⟩ := by
  have hpre : pfx.isPrefixOf (pfx ++ tail) = true := by
    rw [List.isPrefixOf_iff_prefix]
    exact List.prefix_append pfx tail
  cases hs : splitSpaces (jsTrim tail) with
  | nil => exact absurd hs (splitGo_ne_nil false [] _)
  | cons first rest =>
    refine ⟨first, rest, rfl, ?_⟩
    simp only [parseCommand, hpre, Bool.not_true, Bool.false_eq_true, if_false,
      List.drop_left, hs]

theorem parseCommand_of_not_prefix (toLowerCase : List Nat → List Nat)
    (content pfx : List Nat) (h : ¬ pfx <+: content) :
    parseCommand toLowerCase content pfx = none := by
  have hpre : pfx.isPrefixOf content = false := by
    rw [← Bool.not_eq_true, List.isPrefixOf_iff_prefix]
    exact h
  simp [parseCommand, hpre]

/-- A content made of the prefix and white space only parses to the lower-cased empty
command. -/
theorem parseCommand_bare (toLowerCase : List Nat → List Nat) (pfx ws : List Nat)
    (h : ws.all isJSSpace = true) :
    parseCommand toLowerCase (pfx ++ ws) pfx = some ⟨toLowerCase [], []⟩ := by
  obtain ⟨first, rest, hs, hp⟩ := parseCommand_of_prefix toLowerCase pfx ws
  rw [jsTrim_of_all_space ws h] at hs
  have : first = [] ∧ rest = [] := by
    simp only [splitSpaces, splitGo, List.cons.injEq] at hs
    exact ⟨hs.1.symm, hs.2.symm⟩
  rw [hp, this.1, this.2]

/-- The pieces of a scan and the runs of white space between them, put back together,
are the text that was read: `gaps` holds the run before each piece after the first, and
`lead` the white space still belonging to a run that the scan had entered. -/
theorem splitGo_gaps (inGap : Bool) (cur text first : List Nat) (rest : List (List Nat))
    (hcur : inGap = true → cur = [])
    (h : splitGo inGap cur text = first :: rest) :
    ∃ (lead : List Nat) (gaps : List (List Nat)),
      lead.all isJSSpace = true ∧ (inGap = false → lead = []) ∧
      gaps.length = rest.length ∧
      (∀ g ∈ gaps, g ≠ [] ∧ g.all isJSSpace = true) ∧
      cur ++ text = lead ++ first ++ (List.zipWith (fun g t => g ++ t) gaps rest).flatten := by
  induction text generalizing inGap cur first rest with
  | nil =>
    simp only [splitGo, List.cons.injEq] at h
    obtain ⟨rfl, rfl⟩ := h
    exact ⟨[], [], rfl, fun _ => rfl, rfl, by simp, by simp⟩
  | cons c cs ih =>
    simp only [splitGo] at h
    by_cases hc : isJSSpace c = true
    · simp only [hc, if_true] at h
      cases inGap with
      | true =>
        simp only [if_true] at h
        have hnil := hcur rfl
        subst hnil
        obtain ⟨lead, gaps, hl, -, hlen, hg, heq⟩ := ih true [] first rest (fun _ => rfl) h
        refine ⟨c :: lead, gaps, by simp [hc, hl], by simp, hlen, hg, ?_⟩
        simp only [List.nil_append] at heq
        simp only [List.nil_append, heq, List.cons_append, List.append_assoc]
      | false =>
        simp only [Bool.false_eq_true, if_false, List.cons.injEq] at h
        obtain ⟨rfl, hrest⟩ := h
        cases hr : splitGo true [] cs with
        | nil => exact absurd hr (splitGo_ne_nil _ _ _)
        | cons r0 rs =>
          rw [hr] at hrest
          subst hrest
          obtain ⟨lead, gaps, hl, -, hlen, hg, heq⟩ := ih true [] r0 rs (fun _ => rfl) hr
          refine ⟨[], (c :: lead) :: gaps, rfl, fun _ => rfl, by simp [hlen], ?_, ?_⟩
          · intro g hgm
            rcases List.mem_cons.1 hgm with hgm | hgm
            · subst hgm
              exact ⟨by simp, by simp [hc, hl]⟩
            · exact hg g hgm
          · simp only [List.nil_append] at heq
            simp only [List.nil_append, List.zipWith_cons_cons, List.flatten_cons, heq,
              List.cons_append, List.append_assoc]
    · simp only [hc, if_false] at h
      obtain ⟨lead, gaps, -, hl, hlen, hg, heq⟩ := ih false (cur ++ [c]) first rest
        (fun h2 => absurd h2 (by simp)) h
      have hlead := hl rfl
      subst hlead
      refine ⟨[], gaps, rfl, fun _ => rfl, hlen, hg, ?_⟩
      rw [← heq]
      simp

/-! ### Lemmas on the pieces of a command -/

theorem isJSSpace_surrogate (u : Nat) (h1 : 0xD800 ≤ u) (h2 : u ≤ 0xDFFF) :
    isJSSpace u = false := by
  simp only [isJSSpace, Bool.or_eq_false_iff, Bool.and_eq_false_iff, beq_eq_false_iff_ne,
    decide_eq_false_iff_not]
  omega

theorem decodeGo_encode (cs : List Char) : decodeGo none ((cs.map charUnits).flatten) = cs := by
  induction cs with
  | nil => rfl
  | cons c cs ih => rw [List.map_cons, List.flatten_cons, decodeGo_charUnits, ih]

/-- The code units of a text are read back as they are. -/
theorem codeUnits_ofCodeUnits_encode (cs : List Char) :
    codeUnits (ofCodeUnits ((cs.map charUnits).flatten)) = (cs.map charUnits).flatten := by
  rw [ofCodeUnits, decodeGo_encode]
  rfl

/-- The two shapes of the code units of a character. -/
theorem charUnits_cases (c : Char) :
    charUnits c = [c.toNat] ∨
    ∃ hi lo, charUnits c = [hi, lo] ∧ isJSSpace hi = false ∧ isJSSpace lo = false := by
  have hv := char_toNat_valid c
  unfold charUnits
  split
  · exact Or.inl rfl
  · exact Or.inr ⟨_, _, rfl, isJSSpace_surrogate _ (by omega) (by omega),
      isJSSpace_surrogate _ (by omega) (by omega)⟩

theorem dropWhile_encode (cs : List Char) :
    ∃ ds : List Char, ((cs.map charUnits).flatten).dropWhile isJSSpace
      = (ds.map charUnits).flatten := by
  induction cs with
  | nil => exact ⟨[], rfl⟩
  | cons c cs ih =>
    rw [List.map_cons, List.flatten_cons]
    rcases charUnits_cases c with h | ⟨hi, lo, h, hhi, -⟩
    · rw [h, List.singleton_append]
      by_cases hs : isJSSpace c.toNat = true
      · rw [List.dropWhile_cons_of_pos hs]
        exact ih
      · rw [List.dropWhile_cons_of_neg hs]
        exact ⟨c :: cs, by rw [List.map_cons, List.flatten_cons, h, List.singleton_append]⟩
    · rw [h, List.cons_append, List.dropWhile_cons_of_neg (by simp [hhi])]
      exact ⟨c :: cs, by rw [List.map_cons, List.flatten_cons, h]; rfl⟩

theorem rdropWhile_encode (cs : List Char) :
    ∃ ds : List Char, ((cs.map charUnits).flatten).rdropWhile isJSSpace
      = (ds.map charUnits).flatten := by
  induction cs using List.reverseRecOn with
  | nil => exact ⟨[], rfl⟩
  | append_singleton cs c ih =>
    rw [List.map_append, List.flatten_append, List.map_singleton, List.flatten_singleton]
    rcases charUnits_cases c with h | ⟨hi, lo, h, -, hlo⟩
    · rw [h]
      by_cases hs : isJSSpace c.toNat = true
      · rw [List.rdropWhile_concat_pos _ _ _ hs]
        exact ih
      · rw [List.rdropWhile_concat_neg _ _ _ hs]
        exact ⟨cs ++ [c], by
          rw [List.map_append, List.flatten_append, List.map_singleton, List.flatten_singleton,
            h]⟩
    · rw [h, show ((cs.map charUnits).flatten ++ [hi, lo])
          = (((cs.map charUnits).flatten ++ [hi]) ++ [lo]) by simp,
        List.rdropWhile_concat_neg _ _ _ (by simp [hlo])]
      exact ⟨cs ++ [c], by
        rw [List.map_append, List.flatten_append, List.map_singleton, List.flatten_singleton,
          h]
        simp⟩

theorem splitGo_encode (cs : List Char) (inGap : Bool) (cur : List Char) :
    ∀ t ∈ splitGo inGap ((cur.map charUnits).flatten) ((cs.map charUnits).flatten),
      ∃ ts : List Char, t = (ts.map charUnits).flatten := by
  induction cs generalizing inGap cur with
  | nil =>
    intro t ht
    simp only [List.map_nil, List.flatten_nil, splitGo, List.mem_singleton] at ht
    exact ⟨cur, ht⟩
  | cons c cs ih =>
    have hcur : ((cur ++ [c]).map charUnits).flatten
        = (cur.map charUnits).flatten ++ charUnits c := by
      rw [List.map_append, List.flatten_append, List.map_singleton, List.flatten_singleton]
    rw [List.map_cons, List.flatten_cons]
    rcases charUnits_cases c with h | ⟨hi, lo, h, hhi, hlo⟩
    · rw [h] at hcur ⊢
      rw [List.singleton_append]
      simp only [splitGo]
      by_cases hs : isJSSpace c.toNat = true
      · simp only [hs, if_true]
        cases inGap with
        | true => exact ih true cur
        | false =>
          intro t ht
          simp only [Bool.false_eq_true, if_false, List.mem_cons] at ht
          rcases ht with ht | ht
          · exact ⟨cur, ht⟩
          · exact ih true [] t ht
      · simp only [hs, if_false]
        rw [← hcur]
        exact ih false (cur ++ [c])
    · rw [h] at hcur ⊢
      rw [List.cons_append, List.cons_append, List.nil_append]
      simp only [splitGo, hhi, hlo, Bool.false_eq_true, if_false]
      rw [show ((cur.map charUnits).flatten ++ [hi]) ++ [lo]
          = (cur.map charUnits).flatten ++ [hi, lo] by simp, ← hcur]
      exact ih false (cur ++ [c])

/-- The pieces `parseCommand` cuts from the content of a message are texts: no piece
holds half of a surrogate pair, so that each is stored in the command data as it is. -/
theorem parseCommand_pieces (toLowerCase : List Nat → List Nat) (content pfx : String)
    (parsed : ParsedCommand)
    (h : parseCommand toLowerCase (codeUnits content) (codeUnits pfx) = some parsed) :
    (∃ first, parsed.command = toLowerCase first ∧ codeUnits (ofCodeUnits first) = first) ∧
    ∀ a ∈ parsed.args, codeUnits (ofCodeUnits a) = a := by
  by_cases hpre : codeUnits pfx <+: codeUnits content
  · have hchars := (codeUnits_prefix_iff pfx content).1 hpre
    obtain ⟨r, hr⟩ := hchars
    have htail : codeUnits content = codeUnits pfx ++ (r.map charUnits).flatten := by
      simp only [codeUnits, ← hr, List.map_append, List.flatten_append]
    obtain ⟨first, rest, hs, hp⟩ :=
      parseCommand_of_prefix toLowerCase (codeUnits pfx) ((r.map charUnits).flatten)
    rw [← htail, h] at hp
    obtain ⟨d1, hd1⟩ := dropWhile_encode r
    obtain ⟨d2, hd2⟩ := rdropWhile_encode d1
    have htrim : jsTrim ((r.map charUnits).flatten) = (d2.map charUnits).flatten := by
      rw [jsTrim, hd1, hd2]
    have hall := splitGo_encode d2 false []
    rw [show splitGo false ((([] : List Char).map charUnits).flatten)
        ((d2.map charUnits).flatten) = splitSpaces (jsTrim ((r.map charUnits).flatten)) by
      rw [htrim]; rfl, hs] at hall
    simp only [Option.some.injEq] at hp
    subst hp
    refine ⟨⟨first, rfl, ?_⟩, fun a ha => ?_⟩
    · obtain ⟨ts, hts⟩ := hall first (List.mem_cons_self _ _)
      rw [hts, codeUnits_ofCodeUnits_encode]
    · obtain ⟨ts, hts⟩ := hall a (List.mem_cons_of_mem _ ha)
      rw [hts, codeUnits_ofCodeUnits_encode]
  · rw [ parseCommand_of_not_prefix toLowerCase _ _ hpre] at h
    exact absurd h (by simp)

/-! ### Lemmas on `sanitizeInput` -/

theorem filter_sanitized (input : List Nat) :
    (sanitizeText input).filter (fun c => !isStripped c) = sanitizeText input := by
  rw [List.filter_eq_self]
  intro c hc
  simp [not_stripped_of_mem_sanitizeText hc]

/-- A second pass of `sanitizeInput` only trims: it removes the white space that the
cut at 2000 code units left at the end. -/
theorem sanitizeText_twice (input : List Nat) :
    sanitizeText (sanitizeText input) = jsTrim (sanitizeText input) := by
  rw [sanitizeText_eq (sanitizeText input), filter_sanitized]
  apply List.take_of_length_le
  refine Nat.le_trans (length_jsTrim_le _) ?_
  simp only [sanitizeText, List.length_take]
  omega

theorem sanitizeText_idem_of_short (input : List Nat)
    (h : (jsTrim (input.filter (fun c => !isStripped c))).length ≤ 2000) :
    sanitizeText (sanitizeText input) = sanitizeText input := by
  rw [sanitizeText_twice, sanitizeText_eq, List.take_of_length_le h, jsTrim_idem]

theorem length_stripped_trimmed_le (input : List Nat) :
    (jsTrim (input.filter (fun c => !isStripped c))).length ≤ input.length :=
  Nat.le_trans (length_jsTrim_le _) (List.length_filter_le _ _)

/-- The text of `n` letters `a`, a space and a letter `b`, with `n + 1 = 2000`: the
first pass cuts it after the space, the second pass removes the space. -/
theorem sanitizeText_long (n : Nat) (hn : 0 < n) (hcut : n + 1 = 2000) :
    sanitizeText (List.replicate n 97 ++ [32, 98]) = List.replicate n 97 ++ [32] ∧
    sanitizeText (sanitizeText (List.replicate n 97 ++ [32, 98])) = List.replicate n 97 := by
  obtain ⟨m, rfl⟩ : ∃ m, n = m + 1 := ⟨n - 1, by omega⟩
  have hfilter : (List.replicate (m + 1) 97 ++ [32, 98]).filter (fun c => !isStripped c)
      = List.replicate (m + 1) 97 ++ [32, 98] := by
    rw [List.filter_eq_self]
    intro c hc
    rcases List.mem_append.1 hc with hc | hc
    · rw [(List.mem_replicate.1 hc).2]; decide
    · simp only [List.mem_cons, List.mem_singleton, List.not_mem_nil, or_false] at hc
      rcases hc with hc | hc <;> subst hc <;> decide
  have htrim : jsTrim (List.replicate (m + 1) 97 ++ [32, 98])
      = List.replicate (m + 1) 97 ++ [32, 98] := by
    have hd : (List.replicate (m + 1) 97 ++ [32, 98]).dropWhile isJSSpace
        = List.replicate (m + 1) 97 ++ [32, 98] := by
      rw [List.replicate_succ, List.cons_append, List.dropWhile_cons_of_neg (by decide)]
    rw [jsTrim, hd]
    have hsplit : List.replicate (m + 1) 97 ++ [32, 98]
        = (List.replicate (m + 1) 97 ++ [32]) ++ [98] := by simp
    rw [hsplit]
    exact List.rdropWhile_concat_neg isJSSpace _ 98 (by decide)
  have hfirst : sanitizeText (List.replicate (m + 1) 97 ++ [32, 98])
      = List.replicate (m + 1) 97 ++ [32] := by
    rw [sanitizeText_eq, hfilter, htrim, ← hcut, List.take_append_eq_append_take,
      List.length_replicate]
    have h1 : List.take (m + 1 + 1) (List.replicate (m + 1) 97) = List.replicate (m + 1) 97 :=
      List.take_of_length_le (by simp)
    rw [h1]
    simp
  refine ⟨hfirst, ?_⟩
  rw [sanitizeText_twice, hfirst, jsTrim]
  have hd : (List.replicate (m + 1) 97 ++ [32]).dropWhile isJSSpace
      = List.replicate (m + 1) 97 ++ [32] := by
    rw [List.replicate_succ, List.cons_append, List.dropWhile_cons_of_neg (by decide)]
  rw [hd, List.rdropWhile_concat_pos isJSSpace _ 32 (by decide), List.replicate_succ']
  exact List.rdropWhile_concat_neg isJSSpace _ 97 (by decide)

theorem sanitizeInput_some (text : List Nat) : sanitizeInput (some text) = sanitizeText text :=
  rfl

/-- The result of `sanitizeInput` does not start with white space. -/
theorem dropWhile_sanitizeText (input : List Nat) :
    (sanitizeText input).dropWhile isJSSpace = sanitizeText input := by
  rw [sanitizeText_eq]
  cases hj : jsTrim (input.filter (fun c => !isStripped c)) with
  | nil => rfl
  | cons c cs =>
    have hc := jsTrim_head_not_space _ c cs hj
    rw [show List.take 2000 (c :: cs) = c :: List.take 1999 cs from rfl,
      List.dropWhile_cons_of_neg (by simp [hc])]

/-- A second pass of `sanitizeInput` removes the white space at the end of the result of
the first, and nothing else. -/
theorem sanitizeText_twice_end (input : List Nat) :
    sanitizeText (sanitizeText input) = (sanitizeText input).rdropWhile isJSSpace := by
  rw [sanitizeText_twice, jsTrim, dropWhile_sanitizeText]

/-- The last code unit of the result of `sanitizeInput`: the code unit at index 1999 of
the stripped and trimmed input when there is one, and otherwise the last one of that
text. -/
theorem sanitizeText_idem_iff (input : List Nat) :
    sanitizeText (sanitizeText input) = sanitizeText input ↔
      ∀ u, (jsTrim (input.filter (fun c => !isStripped c)))[1999]? = some u →
        isJSSpace u = false := by
  rw [sanitizeText_twice_end, List.rdropWhile_eq_self_iff]
  simp only [sanitizeText_eq]
  constructor
  · intro h u hu
    have hlt : 1999 < (jsTrim (input.filter (fun c => !isStripped c))).length := by
      by_contra hge
      rw [List.getElem?_eq_none (by omega)] at hu
      exact absurd hu (by simp)
    have hne : List.take 2000 (jsTrim (input.filter (fun c => !isStripped c))) ≠ [] := by
      intro he
      have := congrArg List.length he
      simp only [List.length_take, List.length_nil] at this
      omega
    have := h hne
    rw [List.getLast_take, hu] at this
    simpa using this
  · intro h hne
    rw [List.getLast_take]
    cases hu : (jsTrim (input.filter (fun c => !isStripped c)))[2000 - 1]? with
    | some u =>
      have := h u hu
      simp [this]
    | none =>
      have hne2 : jsTrim (input.filter (fun c => !isStripped c)) ≠ [] := by
        intro he
        rw [he] at hne
        exact hne rfl
      have := jsTrim_last_not_space _ hne2
      simp [this]

/-- The text of `n` letters `a` is left alone by the removal of markup and by `trim`. -/
theorem stripped_trimmed_letters (n : Nat) :
    jsTrim ((List.replicate n 97).filter (fun c => !isStripped c)) = List.replicate n 97 := by
  have hfilter : (List.replicate n 97).filter (fun c => !isStripped c) = List.replicate n 97 := by
    rw [List.filter_eq_self]
    intro c hc
    rw [(List.mem_replicate.1 hc).2]; decide
  rw [hfilter, jsTrim]
  cases n with
  | zero => rfl
  | succ m =>
    have hd : (List.replicate (m + 1) 97).dropWhile isJSSpace = List.replicate (m + 1) 97 := by
      rw [List.replicate_succ, List.dropWhile_cons_of_neg (by decide)]
    rw [hd, List.replicate_succ']
    exact List.rdropWhile_concat_neg isJSSpace _ 97 (by decide)

/-! ### Lemmas on the message handler -/

theorem wellFormed_parts (m : JSValue) (h : wellFormed m = true) :
    isNullish m = false ∧ isNullish (optChain m "author") = false ∧
    isNullish (optChain m "channel") = false ∧
    ∃ ts, toISOString (optChain m "createdAt") = .ok ts := by
  simp only [wellFormed, Bool.and_eq_true] at h
  obtain ⟨⟨⟨⟨⟨hm, hd⟩, ha⟩, hc⟩, -⟩, -⟩ := h
  refine ⟨not_nullish_of_isObject m hm, not_nullish_of_isObject _ ha,
    not_nullish_of_isObject _ hc, ?_⟩
  cases hv : optChain m "createdAt" with
  | date iso =>
    cases iso with
    | none => simp [hv, isValidDate] at hd
    | some ts => exact ⟨ts, rfl⟩
  | _ => simp [hv, isValidDate] at hd

theorem isFromBot_of_wellFormed (m : JSValue) (h : wellFormed m = true) :
    isFromBot m = .ok (optChain (optChain m "author") "bot") := by
  obtain ⟨hm, ha, -, -⟩ := wellFormed_parts m h
  simp only [isFromBot, getProp_of_not_nullish m _ hm, getProp_of_not_nullish _ _ ha, bind,
    Except.bind]

theorem isDirectMessage_of_wellFormed (m : JSValue) (h : wellFormed m = true) :
    isDirectMessage m = .ok (strictEqStr (optChain (optChain m "channel") "type") "DM") := by
  obtain ⟨hm, -, hc, -⟩ := wellFormed_parts m h
  simp only [isDirectMessage, getProp_of_not_nullish m _ hm, getProp_of_not_nullish _ _ hc,
    bind, Except.bind, pure, Except.pure]

theorem isFromCommandChannel_of_wellFormed (m : JSValue) (id : Option String)
    (h : wellFormed m = true) :
    isFromCommandChannel m id
      = .ok (!envTruthy id || strictEqStr (optChain (optChain m "channel") "id") (envValue id)) := by
  obtain ⟨hm, -, hc, -⟩ := wellFormed_parts m h
  by_cases hid : envTruthy id = true
  · simp only [isFromCommandChannel, getProp_of_not_nullish m _ hm,
      getProp_of_not_nullish _ _ hc, bind, Except.bind, pure, Except.pure, hid]
    simp
  · simp [isFromCommandChannel, hid, pure, Except.pure]

theorem logMessageDetails_of_wellFormed (m : JSValue) (content : String)
    (h : wellFormed m = true) (hcontent : optChain m "content" = .str content) :
    logMessageDetails m = .ok () := by
  obtain ⟨hm, ha, hc, ts, hts⟩ := wellFormed_parts m h
  simp only [logMessageDetails, getProp_of_not_nullish m _ hm, getProp_of_not_nullish _ _ ha,
    getProp_of_not_nullish _ _ hc, hcontent, stringReceiver, hts, bind, Except.bind, pure,
    Except.pure]

/-- What the handler decides on a well-formed message with a text content. -/
theorem intakeDecision_of_wellFormed (toLowerCase : List Nat → List Nat) (bot : AppConfig)
    (m : JSValue) (content : String)
    (h : wellFormed m = true) (hcontent : optChain m "content" = .str content) :
    intakeDecision toLowerCase bot m
      = .ok (if strictEqStr (optChain (optChain m "channel") "type") "DM" then
          some (.str "dm", commandDataOf toLowerCase content bot.commandPrefix)
        else if !envTruthy bot.commandChannelId ||
            strictEqStr (optChain (optChain m "channel") "id") (envValue bot.commandChannelId) then
          some (.str "channel", commandDataOf toLowerCase content bot.commandPrefix)
        else none) := by
  obtain ⟨hm, ha, hc, ts, hts⟩ := wellFormed_parts m h
  simp only [intakeDecision, isDirectMessage_of_wellFormed m h,
    isFromCommandChannel_of_wellFormed m _ h, logMessageDetails_of_wellFormed m content h hcontent,
    getProp_of_not_nullish m _ hm, getProp_of_not_nullish _ _ ha, hcontent, stringReceiver,
    bind, Except.bind, pure, Except.pure]
  by_cases hdm : strictEqStr (optChain (optChain m "channel") "type") "DM" = true
  · simp [hdm]
  · by_cases hch : (!envTruthy bot.commandChannelId ||
        strictEqStr (optChain (optChain m "channel") "id") (envValue bot.commandChannelId)) = true
    · simp [hdm, hch]
    · simp [hdm, hch]

theorem intakeFailed_forwarded {σ : Type} (bot : AppConfig) (m : JSValue)
    (f : Option (JSValue × JSValue × JSValue)) (w : σ) (tr : List NetEvent) :
    (intakeFailed bot m f w tr).forwarded = f := by
  simp only [intakeFailed]
  split <;> rfl

theorem execute_forwarded_some {σ : Type} (toLowerCase : List Nat → List Nat) (env : Env σ)
    (cfg : N8nConfig) (bot : AppConfig)
    (m b t c : JSValue) (w : σ) (hb : isFromBot m = .ok b) (hnot : truthy b = false)
    (hd : intakeDecision toLowerCase bot m = .ok (some (t, c))) :
    (execute toLowerCase env cfg bot m w).forwarded = some (m, t, c) := by
  simp only [execute, hb, hnot, hd, Bool.false_eq_true, if_false]
  split
  · exact intakeFailed_forwarded _ _ _ _ _
  · split
    · exact intakeFailed_forwarded _ _ _ _ _
    · rfl

theorem execute_forwarded_none_of_bot {σ : Type} (toLowerCase : List Nat → List Nat)
    (env : Env σ) (cfg : N8nConfig)
    (bot : AppConfig) (m b : JSValue) (w : σ) (hb : isFromBot m = .ok b)
    (hbot : truthy b = true) :
    (execute toLowerCase env cfg bot m w).forwarded = none := by
  simp [execute, hb, hbot]

theorem execute_forwarded_none_of_skip {σ : Type} (toLowerCase : List Nat → List Nat)
    (env : Env σ) (cfg : N8nConfig)
    (bot : AppConfig) (m b : JSValue) (w : σ) (hb : isFromBot m = .ok b)
    (hd : intakeDecision toLowerCase bot m = .ok none) :
    (execute toLowerCase env cfg bot m w).forwarded = none := by
  simp only [execute, hb, hd]
  split <;> rfl

/-- The run of the handler after a call of `processMessage` that returned, on a message
whose channel can be read. -/
theorem execute_outcome {σ : Type} (toLowerCase : List Nat → List Nat) (env : Env σ)
    (cfg : N8nConfig) (bot : AppConfig)
    (m b t c outcome : JSValue) (dm : Bool) (w : σ) (hb : isFromBot m = .ok b)
    (hnot : truthy b = false) (hd : intakeDecision toLowerCase bot m = .ok (some (t, c)))
    (hres : (processMessage env cfg m t c w).result = .ok outcome)
    (hdm : isDirectMessage m = .ok dm) :
    (execute toLowerCase env cfg bot m w).outcome = some outcome ∧
    (execute toLowerCase env cfg bot m w).trace = (processMessage env cfg m t c w).trace ∧
    (execute toLowerCase env cfg bot m w).result = .ok () := by
  have hconfirm : ∃ reply, intakeConfirm bot m outcome = .ok reply := by
    simp only [intakeConfirm, hdm, bind, Except.bind, pure, Except.pure]
    split
    · split
      · split
        · exact ⟨_, rfl⟩
        · exact ⟨_, rfl⟩
      · exact ⟨_, rfl⟩
    · exact ⟨_, rfl⟩
  obtain ⟨reply, hreply⟩ := hconfirm
  simp only [execute, hb, hnot, hd, hres, hreply]
  simp

/-! ## The retry policy -/

/-- C1: for every `maxRetries`, `baseDelay` and `k ≤ maxRetries`, if the operation fails
on its first `k` invocations and succeeds with `v` on invocation `k + 1`, then
`retryWithBackoff` returns `v`; its trace is `k` rounds "invocation, then wait
`baseDelay * 2 ^ i`" (`i = 0 .. k - 1`) followed by the last invocation, so `fn` is
invoked exactly `k + 1` times and there are exactly `k` waits, the `i`-th being
`baseDelay * 2 ^ i`, each between two consecutive invocations. -/
theorem retryWithBackoff_succeeds_after_failures {σ ε α : Type}
    (fn : σ → Except ε α × σ) (delay : Nat → σ → σ) (maxRetries baseDelay k : Nat)
    (w : σ) (v : α) (hk : k ≤ maxRetries)
    (hfail : ∀ j, j < k → ∃ e, (fn (worldAfter fn delay baseDelay j 0 w)).1 = .error e)
    (hok : (fn (worldAfter fn delay baseDelay k 0 w)).1 = .ok v) :
    (retryWithBackoff fn delay maxRetries baseDelay w).result = .ok v ∧
    (retryWithBackoff fn delay maxRetries baseDelay w).trace
      = failedRounds baseDelay k 0 ++ [.invoke] ∧
    invocations (retryWithBackoff fn delay maxRetries baseDelay w).trace = k + 1 ∧
    waits (retryWithBackoff fn delay maxRetries baseDelay w).trace
      = (List.range k).map (fun i => baseDelay * 2 ^ i) := by
  have h := retryLoop_succeeds fn delay maxRetries baseDelay v k (maxRetries + 1) 0 w none []
    (by omega) (by omega) hfail hok
  have htr : (retryWithBackoff fn delay maxRetries baseDelay w).trace
      = failedRounds baseDelay k 0 ++ [.invoke] := by
    simpa [retryWithBackoff] using h.2.2
  refine ⟨h.1, htr, ?_, ?_⟩
  · rw [htr, invocations_append, invocations_failedRounds]
    rfl
  · rw [htr, waits_append, waits_failedRounds]
    simp [waits]

/-- Witness of C1: two failures, then success, with the default parameters. -/
theorem retryWithBackoff_succeeds_after_failures_witness :
    (2 ≤ 3) ∧
    (∀ j, j < 2 → ∃ e, (flakyOp 2 (worldAfter (flakyOp 2) noDelay 1000 j 0 0)).1 = .error e) ∧
    (flakyOp 2 (worldAfter (flakyOp 2) noDelay 1000 2 0 0)).1 = .ok 42 ∧
    (retryWithBackoff (flakyOp 2) noDelay 3 1000 0).result = .ok 42 ∧
    (retryWithBackoff (flakyOp 2) noDelay 3 1000 0).trace
      = [.invoke, .wait 1000, .invoke, .wait 2000, .invoke] ∧
    invocations (retryWithBackoff (flakyOp 2) noDelay 3 1000 0).trace = 3 ∧
    waits (retryWithBackoff (flakyOp 2) noDelay 3 1000 0).trace = [1000, 2000] :=
  have h1 : ∀ j, j < 2 → ∃ e,
      (flakyOp 2 (worldAfter (flakyOp 2) noDelay 1000 j 0 0)).1 = .error e := by
    intro j hj
    interval_cases j
    · exact ⟨_, rfl⟩
    · exact ⟨_, rfl⟩
  ⟨by decide, h1, rfl,
    retryWithBackoff_succeeds_after_failures (flakyOp 2) noDelay 3 1000 2 0 42 (by decide) h1 rfl⟩

/-- C2: for every `maxRetries`, if the operation fails on every invocation, then
`retryWithBackoff` invokes it exactly `maxRetries + 1` times and rejects with the error
of the last, `maxRetries + 1`-th, invocation. -/
theorem retryWithBackoff_exhausted {σ ε α : Type}
    (fn : σ → Except ε α × σ) (delay : Nat → σ → σ) (maxRetries baseDelay : Nat) (w : σ)
    (hfail : ∀ j, j ≤ maxRetries →
      ∃ e, (fn (worldAfter fn delay baseDelay j 0 w)).1 = .error e) :
    ∃ e, (fn (worldAfter fn delay baseDelay maxRetries 0 w)).1 = .error e ∧
      (retryWithBackoff fn delay maxRetries baseDelay w).result = .error (some e) ∧
      invocations (retryWithBackoff fn delay maxRetries baseDelay w).trace = maxRetries + 1 := by
  obtain ⟨e, he⟩ := hfail maxRetries (Nat.le_refl _)
  have h := retryLoop_exhausts fn delay maxRetries baseDelay maxRetries 0 w none [] e
    (by omega) (fun j hj => hfail j (Nat.le_of_lt hj)) he
  refine ⟨e, he, h.1, ?_⟩
  have htr : (retryWithBackoff fn delay maxRetries baseDelay w).trace
      = failedRounds baseDelay maxRetries 0 ++ [.invoke] := by
    simpa [retryWithBackoff] using h.2.2
  rw [htr, invocations_append, invocations_failedRounds]
  rfl

/-- Witness of C2: an operation that always fails, two retries: three invocations, and
the error is the one of the third invocation. -/
theorem retryWithBackoff_exhausted_witness :
    (∀ j, j ≤ 2 → ∃ e, (failingOp (worldAfter failingOp noDelay 1000 j 0 0)).1 = .error e) ∧
    ∃ e, (failingOp (worldAfter failingOp noDelay 1000 2 0 0)).1 = .error e ∧
      (retryWithBackoff failingOp noDelay 2 1000 0).result = .error (some e) ∧
      invocations (retryWithBackoff failingOp noDelay 2 1000 0).trace = 2 + 1 :=
  have h1 : ∀ j, j ≤ 2 → ∃ e,
      (failingOp (worldAfter failingOp noDelay 1000 j 0 0)).1 = .error e :=
    fun _ _ => ⟨_, rfl⟩
  ⟨h1, retryWithBackoff_exhausted failingOp noDelay 2 1000 0 h1⟩

/-- C15: for every `maxRetries` and `baseDelay`, when the operation always fails the
run is `maxRetries` rounds "invocation, then wait" followed by a last invocation (no wait
after the final attempt): there are exactly `maxRetries` waits and their sum is
`baseDelay * (2 ^ maxRetries - 1)`; with the defaults `3` and `1000` the waits are 1000,
2000 and 4000 ms between 4 attempts, 7000 ms in total. -/
theorem retryWithBackoff_waits {σ ε α : Type}
    (fn : σ → Except ε α × σ) (delay : Nat → σ → σ) (maxRetries baseDelay : Nat) (w : σ)
    (hfail : ∀ j, j ≤ maxRetries →
      ∃ e, (fn (worldAfter fn delay baseDelay j 0 w)).1 = .error e) :
    (retryWithBackoff fn delay maxRetries baseDelay w).trace
      = failedRounds baseDelay maxRetries 0 ++ [.invoke] ∧
    waits (retryWithBackoff fn delay maxRetries baseDelay w).trace
      = (List.range maxRetries).map (fun i => baseDelay * 2 ^ i) ∧
    (waits (retryWithBackoff fn delay maxRetries baseDelay w).trace).length = maxRetries ∧
    (waits (retryWithBackoff fn delay maxRetries baseDelay w).trace).sum
      = baseDelay * (2 ^ maxRetries - 1) ∧
    (maxRetries = defaultMaxRetries → baseDelay = defaultBaseDelay →
      (retryWithBackoff fn delay maxRetries baseDelay w).trace
        = [.invoke, .wait 1000, .invoke, .wait 2000, .invoke, .wait 4000, .invoke] ∧
      invocations (retryWithBackoff fn delay maxRetries baseDelay w).trace = 4 ∧
      waits (retryWithBackoff fn delay maxRetries baseDelay w).trace = [1000, 2000, 4000] ∧
      (waits (retryWithBackoff fn delay maxRetries baseDelay w).trace).sum = 7000) := by
  obtain ⟨e, -, -, htr⟩ := retryWithBackoff_all_fail fn delay maxRetries baseDelay w hfail
  have hw : waits (retryWithBackoff fn delay maxRetries baseDelay w).trace
      = (List.range maxRetries).map (fun i => baseDelay * 2 ^ i) := by
    rw [htr, waits_append, waits_failedRounds]
    simp [waits]
  refine ⟨htr, hw, ?_, ?_, ?_⟩
  · rw [hw]
    simp
  · rw [hw]
    exact sum_backoff baseDelay maxRetries
  · intro hm hb
    subst hm
    subst hb
    rw [htr]
    exact ⟨rfl, rfl, rfl, rfl⟩

/-- Witness of C15: an operation that always fails, with the default parameters. -/
theorem retryWithBackoff_waits_witness :
    (∀ j, j ≤ 3 → ∃ e, (failingOp (worldAfter failingOp noDelay 1000 j 0 0)).1 = .error e) ∧
    (retryWithBackoff failingOp noDelay 3 1000 0).trace
      = [.invoke, .wait 1000, .invoke, .wait 2000, .invoke, .wait 4000, .invoke] ∧
    (waits (retryWithBackoff failingOp noDelay 3 1000 0).trace).length = 3 ∧
    (waits (retryWithBackoff failingOp noDelay 3 1000 0).trace).sum = 1000 * (2 ^ 3 - 1) ∧
    (waits (retryWithBackoff failingOp noDelay 3 1000 0).trace).sum = 7000 :=
  have h1 : ∀ j, j ≤ 3 → ∃ e,
      (failingOp (worldAfter failingOp noDelay 1000 j 0 0)).1 = .error e :=
    fun _ _ => ⟨_, rfl⟩
  have h := retryWithBackoff_waits failingOp noDelay 3 1000 0 h1
  ⟨h1, (h.2.2.2.2 rfl rfl).1, h.2.2.1, h.2.2.2.1, (h.2.2.2.2 rfl rfl).2.2.2⟩

/-! ## The payload normaliser -/

/-- C8: for every well-formed inbound message, every `messageType` and every command
argument, `createWebhookPayload` returns a payload; the payload has the keys
`messageType` and `message`, and `validateWebhookPayload` accepts it. -/
theorem createWebhookPayload_valid (message messageType command : JSValue)
    (h : wellFormed message = true) :
    ∃ payload, createWebhookPayload message messageType command = .ok payload ∧
      inOp "messageType" payload = true ∧ inOp "message" payload = true ∧
      validateWebhookPayload payload = true := by
  obtain ⟨ts, ids, hp⟩ := createWebhookPayload_of_wellFormed message messageType command h
  refine ⟨_, hp, ?_, ?_, validate_of_createWebhookPayload _ _ _ _ hp⟩ <;> simp [inOp]

/-- Witness of C8: the direct message of the scenario. -/
theorem createWebhookPayload_valid_witness :
    wellFormed dmMessage = true ∧
    ∃ payload, createWebhookPayload dmMessage (.str "dm") .null = .ok payload ∧
      inOp "messageType" payload = true ∧ inOp "message" payload = true ∧
      validateWebhookPayload payload = true :=
  ⟨by decide, createWebhookPayload_valid dmMessage (.str "dm") .null (by decide)⟩

/-- C9: for every well-formed message, `payload.message` has a key `guild` if and only
if the message has a guild (`message.guild` is an object); when it has one, the value is
the object with `id: guild.id` and `name: guild.name`; when `message.guild` is absent
(a direct message) the key `guild` is absent. -/
theorem createWebhookPayload_guild (message messageType command : JSValue)
    (h : wellFormed message = true) :
    ∃ payload pm, createWebhookPayload message messageType command = .ok payload ∧
      getProp payload "message" = .ok pm ∧
      (inOp "guild" pm = true ↔ isObject (optChain message "guild") = true) ∧
      (isObject (optChain message "guild") = true →
        getProp pm "guild"
          = .ok (.obj [("id", optChain (optChain message "guild") "id"),
                       ("name", optChain (optChain message "guild") "name")])) ∧
      (isNullish (optChain message "guild") = true → inOp "guild" pm = false) := by
  obtain ⟨ts, ids, hp⟩ := createWebhookPayload_of_wellFormed message messageType command h
  refine ⟨_, .obj (literalFields message ts (.arr ids) ++ guildField message), hp, ?_, ?_, ?_, ?_⟩
  · simp [getProp, List.lookup]
  · cases hg : optChain message "guild" <;>
      simp [inOp, literalFields, guildField, hg, truthy, isObject] <;>
      simp [wellFormed, hg, isNullish, isObject] at h
  · intro ho
    cases hg : optChain message "guild" <;> simp [hg, isObject] at ho
    simp [getProp, literalFields, guildField, hg, truthy, List.lookup]
  · intro hn
    cases hg : optChain message "guild" <;> simp [hg, isNullish] at hn <;>
      simp [inOp, literalFields, guildField, hg, truthy]

/-- Witness of C9: a message from a guild channel. -/
theorem createWebhookPayload_guild_witness :
    wellFormed guildMessage = true ∧
    ∃ payload pm, createWebhookPayload guildMessage (.str "channel") pingCommand = .ok payload ∧
      getProp payload "message" = .ok pm ∧
      (inOp "guild" pm = true ↔ isObject (optChain guildMessage "guild") = true) ∧
      (isObject (optChain guildMessage "guild") = true →
        getProp pm "guild"
          = .ok (.obj [("id", optChain (optChain guildMessage "guild") "id"),
                       ("name", optChain (optChain guildMessage "guild") "name")])) ∧
      (isNullish (optChain guildMessage "guild") = true → inOp "guild" pm = false) :=
  ⟨by decide, createWebhookPayload_guild guildMessage (.str "channel") pingCommand (by decide)⟩

/-- C10: for every well-formed message and every command argument (`null` or an
object), the payload has a key `command` if and only if the command passed is not
`null`; when it is present its value is the command passed. -/
theorem createWebhookPayload_command (message messageType command : JSValue)
    (h : wellFormed message = true) (hc : isCommandArg command = true) :
    ∃ payload, createWebhookPayload message messageType command = .ok payload ∧
      (inOp "command" payload = true ↔ command ≠ .null) ∧
      (command ≠ .null → getProp payload "command" = .ok command) := by
  obtain ⟨ts, ids, hp⟩ := createWebhookPayload_of_wellFormed message messageType command h
  rw [defaultTo_of_isCommandArg command hc] at hp
  refine ⟨_, hp, ?_, ?_⟩
  · cases command <;> simp [isCommandArg] at hc <;> simp [inOp, commandField, truthy]
  · intro hne
    cases command <;> simp [isCommandArg] at hc <;>
      simp_all [getProp, commandField, truthy, List.lookup]

/-- Witness of C10: a guild message with the command data of `!ping`. -/
theorem createWebhookPayload_command_witness :
    wellFormed guildMessage = true ∧ isCommandArg pingCommand = true ∧
    ∃ payload, createWebhookPayload guildMessage (.str "channel") pingCommand = .ok payload ∧
      (inOp "command" payload = true ↔ pingCommand ≠ .null) ∧
      (pingCommand ≠ .null → getProp payload "command" = .ok pingCommand) :=
  ⟨by decide, by decide,
    createWebhookPayload_command guildMessage (.str "channel") pingCommand (by decide) (by decide)⟩

/-- C11: for every well-formed message, `payload.message.channel` is the object with
`id: channel.id`, `name` and `type: channel.type`, where `name` is the name of the
channel when it has one (a non-empty string) and the string `"DM"` when the channel has
no name; in particular, for an event with no guild, no command and a channel without
name (the direct-message scenario) the payload has no key `guild`, no key `command`, and
`message.channel.name` is `"DM"`. -/
theorem createWebhookPayload_channel (message messageType command : JSValue)
    (h : wellFormed message = true) :
    ∃ payload pm name, createWebhookPayload message messageType command = .ok payload ∧
      getProp payload "message" = .ok pm ∧
      getProp pm "channel"
        = .ok (.obj [("id", optChain (optChain message "channel") "id"),
                     ("name", name),
                     ("type", optChain (optChain message "channel") "type")]) ∧
      (∀ s, optChain (optChain message "channel") "name" = .str s → s ≠ "" →
        name = .str s) ∧
      (isNullish (optChain (optChain message "channel") "name") = true → name = .str "DM") ∧
      (isNullish (optChain message "guild") = true → inOp "guild" pm = false) ∧
      (command = .null → inOp "command" payload = false) := by
  obtain ⟨ts, hp⟩ := createWebhookPayload_resolved message messageType command h
  refine ⟨_, .obj (literalFields message ts (.arr (resolvedRoles message)) ++ guildField message),
    orElse (optChain (optChain message "channel") "name") (.str "DM"), hp, ?_, ?_, ?_, ?_, ?_, ?_⟩
  · simp [getProp, List.lookup]
  · simp [getProp, literalFields, List.lookup]
  · intro s hs hne
    simp [orElse, hs, truthy, hne]
  · intro hn
    cases hv : optChain (optChain message "channel") "name" <;>
      simp [hv, isNullish] at hn <;> simp [orElse, truthy]
  · intro hn
    cases hg : optChain message "guild" <;> simp [hg, isNullish] at hn <;>
      simp [inOp, literalFields, guildField, hg, truthy]
  · intro hc
    subst hc
    simp [inOp, commandField, defaultTo, truthy]

/-- Witness of C11: the direct message of the scenario, routed as `dm` without a
command. -/
theorem createWebhookPayload_channel_witness :
    wellFormed dmMessage = true ∧
    isNullish (optChain (optChain dmMessage "channel") "name") = true ∧
    isNullish (optChain dmMessage "guild") = true ∧
    ∃ payload pm,
      createWebhookPayload dmMessage (.str "dm") .null = .ok payload ∧
      getProp payload "message" = .ok pm ∧
      getProp pm "channel"
        = .ok (.obj [("id", .str "c1"), ("name", .str "DM"), ("type", .str "dm")]) ∧
      inOp "guild" pm = false ∧ inOp "command" payload = false :=
  ⟨by decide, by decide, by decide,
    (createWebhookPayload_channel dmMessage (.str "dm") .null (by decide)).elim
      (fun payload h1 => h1.elim (fun pm h2 => h2.elim (fun name h =>
        ⟨payload, pm, h.1, h.2.1,
          (h.2.2.2.2.1 (by decide)) ▸ h.2.2.1,
          h.2.2.2.2.2.1 (by decide), h.2.2.2.2.2.2 rfl⟩)))⟩

/-- C12: for every well-formed message, `payload.message.author` is the object with
`id`, `username` and `discriminator` copied from `message.author`, and `roles`: the
list of the ids of the roles of the member's role cache, in the order of the cache, and
the empty list whenever `member`, `member.roles` or the role cache is absent. -/
theorem createWebhookPayload_author (message messageType command : JSValue)
    (h : wellFormed message = true) :
    ∃ payload pm roles, createWebhookPayload message messageType command = .ok payload ∧
      getProp payload "message" = .ok pm ∧
      getProp pm "author"
        = .ok (.obj [("id", optChain (optChain message "author") "id"),
                     ("username", optChain (optChain message "author") "username"),
                     ("discriminator", optChain (optChain message "author") "discriminator"),
                     ("roles", .arr roles)]) ∧
      (∀ items, optChain (optChain (optChain message "member") "roles") "cache" = .arr items →
        roles = items.map (fun role => optChain role "id")) ∧
      ((isNullish (optChain message "member") = true ∨
        isNullish (optChain (optChain message "member") "roles") = true ∨
        isNullish (optChain (optChain (optChain message "member") "roles") "cache") = true) →
        roles = []) := by
  obtain ⟨ts, hp⟩ := createWebhookPayload_resolved message messageType command h
  refine ⟨_, .obj (literalFields message ts (.arr (resolvedRoles message)) ++ guildField message),
    resolvedRoles message, hp, ?_, ?_, ?_, ?_⟩
  · simp [getProp, List.lookup]
  · simp [getProp, literalFields, List.lookup]
  · intro items hitems
    simp [resolvedRoles, hitems]
  · intro hn
    have hcache :
        isNullish (optChain (optChain (optChain message "member") "roles") "cache") = true := by
      rcases hn with hn | hn | hn
      · cases hv : optChain message "member" <;> simp [hv, isNullish] at hn <;>
          simp [optChain, isNullish]
      · cases hv : optChain (optChain message "member") "roles" <;>
          simp [hv, isNullish] at hn <;> simp [optChain, isNullish]
      · exact hn
    cases hv : optChain (optChain (optChain message "member") "roles") "cache" <;>
      simp [hv, isNullish] at hcache <;> simp [resolvedRoles, hv]

/-- Witness of C12: the guild message, whose author holds the roles `r1` and `r2`. -/
theorem createWebhookPayload_author_witness :
    wellFormed guildMessage = true ∧
    ∃ payload pm roles,
      createWebhookPayload guildMessage (.str "channel") pingCommand = .ok payload ∧
      getProp payload "message" = .ok pm ∧
      getProp pm "author"
        = .ok (.obj [("id", optChain (optChain guildMessage "author") "id"),
                     ("username", optChain (optChain guildMessage "author") "username"),
                     ("discriminator",
                       optChain (optChain guildMessage "author") "discriminator"),
                     ("roles", .arr roles)]) ∧
      roles = [.str "r1", .str "r2"] :=
  ⟨by decide,
    (createWebhookPayload_author guildMessage (.str "channel") pingCommand (by decide)).elim
      (fun payload h1 => h1.elim (fun pm h2 => h2.elim (fun roles h =>
        ⟨payload, pm, roles, h.1, h.2.1, h.2.2.1, h.2.2.2.1 _ rfl⟩)))⟩

/-! ## The dispatcher -/

/-- C5, counterexample: `sendToWebhook(null)` raises; the caller gets the exception
`Invalid webhook payload structure`, not a result. -/
theorem sendToWebhook_raises_on_null :
    (sendToWebhook (countingEnv allUp) primaryOnly .null 0).result
      = .error invalidPayloadError :=
  rfl

/-- C5, amended: for every payload that `validateWebhookPayload` accepts and every
behaviour of the endpoint, `sendToWebhook` does not raise: it returns a result, which is
a success response or a failure tagged `webhook_error`. -/
theorem sendToWebhook_settles_on_valid {σ : Type} (env : Env σ) (cfg : N8nConfig)
    (payload : JSValue) (w : σ) (h : validateWebhookPayload payload = true) :
    ∃ r, (sendToWebhook env cfg payload w).result = .ok r ∧
      ((∃ data now, r = createSuccessResponse data "Data sent to n8n webhook" now) ∨
       (∃ msg now, r = createErrorResponse msg "webhook_error" now)) := by
  rw [sendToWebhook_of_valid env cfg payload w h]
  obtain ⟨r, hr, hshape, -⟩ := deliver_settles env cfg.webhookUrl "n8n" payload w
  refine ⟨r, hr, ?_⟩
  rcases hshape with ⟨data, hd⟩ | ⟨msg, hm⟩
  · exact Or.inl ⟨data, _, hd⟩
  · exact Or.inr ⟨msg, _, hm⟩

/-- Witness of C5, amended: a valid payload sent to an endpoint that is down. -/
theorem sendToWebhook_settles_on_valid_witness :
    validateWebhookPayload (.obj [("messageType", .str "dm"), ("message", .null)]) = true ∧
    ∃ r, (sendToWebhook (countingEnv primaryDown) primaryOnly
        (.obj [("messageType", .str "dm"), ("message", .null)]) 0).result = .ok r ∧
      ((∃ data now, r = createSuccessResponse data "Data sent to n8n webhook" now) ∨
       (∃ msg now, r = createErrorResponse msg "webhook_error" now)) :=
  ⟨by decide, sendToWebhook_settles_on_valid (countingEnv primaryDown) primaryOnly
    (.obj [("messageType", .str "dm"), ("message", .null)]) 0 (by decide)⟩

/-- C6: for every payload that is `null`, is not an object, or lacks the key
`messageType` or the key `message`, `sendToWebhook` fails at once with the
invalid-payload error: no HTTP POST, no wait, the world untouched. -/
theorem sendToWebhook_rejects_invalid {σ : Type} (env : Env σ) (cfg : N8nConfig)
    (payload : JSValue) (w : σ)
    (h : payload = .null ∨ typeofObject payload = false ∨
      inOp "messageType" payload = false ∨ inOp "message" payload = false) :
    (sendToWebhook env cfg payload w).result = .error invalidPayloadError ∧
    (sendToWebhook env cfg payload w).trace = [] ∧
    postCount (sendToWebhook env cfg payload w).trace = 0 ∧
    netWaits (sendToWebhook env cfg payload w).trace = [] ∧
    (sendToWebhook env cfg payload w).world = w := by
  have hv : validateWebhookPayload payload = false := by
    rcases h with h | h | h | h
    · subst h; rfl
    · simp [validateWebhookPayload, h]
    · simp [validateWebhookPayload, h]
    · simp [validateWebhookPayload, h]
  simp [sendToWebhook, hv, postCount, netWaits]

/-- Witness of C6: a payload without the key `message`. -/
theorem sendToWebhook_rejects_invalid_witness :
    (headerOnlyPayload = .null ∨ typeofObject headerOnlyPayload = false ∨
      inOp "messageType" headerOnlyPayload = false ∨ inOp "message" headerOnlyPayload = false) ∧
    (sendToWebhook (countingEnv allUp) primaryOnly headerOnlyPayload 0).result
      = .error invalidPayloadError ∧
    (sendToWebhook (countingEnv allUp) primaryOnly headerOnlyPayload 0).trace = [] ∧
    postCount (sendToWebhook (countingEnv allUp) primaryOnly headerOnlyPayload 0).trace = 0 ∧
    netWaits (sendToWebhook (countingEnv allUp) primaryOnly headerOnlyPayload 0).trace = [] ∧
    (sendToWebhook (countingEnv allUp) primaryOnly headerOnlyPayload 0).world = 0 :=
  ⟨Or.inr (Or.inr (Or.inr (by decide))),
    sendToWebhook_rejects_invalid (countingEnv allUp) primaryOnly headerOnlyPayload 0
      (Or.inr (Or.inr (Or.inr (by decide))))⟩

/-! ## The router -/

/-- C3, counterexample: a message without `createdAt`, routed with command data while a
secondary endpoint is configured: the outcome has the keys `success` and `error` only,
so no `secondary` (and no `primary`) although the command is not `null` and the
secondary URL is configured. -/
theorem processMessage_undated_no_secondary :
    pingCommand ≠ .null ∧ envTruthy bothEndpoints.secondaryWebhook = true ∧
    ∃ outcome,
      (processMessage (countingEnv allUp) bothEndpoints undatedMessage (.str "channel")
        pingCommand 0).result = .ok outcome ∧
      inOp "secondary" outcome = false ∧ keys outcome = ["success", "error"] :=
  ⟨by simp [pingCommand], by decide, _, rfl, by decide, by decide⟩

/-- C3, amended: for every message on which payload normalisation succeeds, every
`messageType` and every command argument (`null` or an object), the outcome of
`processMessage` has a `primary` entry, and it has a `secondary` entry if and only if
the command is not `null` and a secondary webhook URL is configured; in every other
such case `primary` is its only key. -/
theorem processMessage_secondary_iff {σ : Type} (env : Env σ) (cfg : N8nConfig)
    (message messageType command payload : JSValue) (w : σ)
    (hp : createWebhookPayload message messageType command = .ok payload)
    (hc : isCommandArg command = true) :
    ∃ outcome, (processMessage env cfg message messageType command w).result = .ok outcome ∧
      inOp "primary" outcome = true ∧
      (inOp "secondary" outcome = true ↔
        (command ≠ .null ∧ envTruthy cfg.secondaryWebhook = true)) ∧
      (¬ (command ≠ .null ∧ envTruthy cfg.secondaryWebhook = true) →
        keys outcome = ["primary"]) := by
  have hd := defaultTo_of_isCommandArg command hc
  have ht := truthy_of_isCommandArg command hc
  by_cases hyes : (truthy (defaultTo .null command) && envTruthy cfg.secondaryWebhook) = true
  · obtain ⟨pr, sr, -, -, hres, -⟩ := processMessage_both env cfg message messageType command
      payload w hp hyes
    have hboth : command ≠ .null ∧ envTruthy cfg.secondaryWebhook = true := by
      rw [hd, Bool.and_eq_true] at hyes
      exact ⟨ht.1 hyes.1, hyes.2⟩
    exact ⟨_, hres, by simp [inOp], by simp [inOp, hboth], fun h => absurd hboth h⟩
  · have hno : (truthy (defaultTo .null command) && envTruthy cfg.secondaryWebhook) = false := by
      simpa using hyes
    obtain ⟨pr, -, hres, -⟩ := processMessage_primary_only env cfg message messageType command
      payload w hp hno
    have hnot : ¬ (command ≠ .null ∧ envTruthy cfg.secondaryWebhook = true) := by
      intro h
      apply hyes
      rw [hd, Bool.and_eq_true]
      exact ⟨ht.2 h.1, h.2⟩
    exact ⟨_, hres, by simp [inOp], by simp [inOp, hnot], fun _ => by simp [keys]⟩

/-- Witness of C3, amended: the guild message with the command data of `!ping`. -/
theorem processMessage_secondary_iff_witness :
    createWebhookPayload guildMessage (.str "channel") pingCommand = .ok guildPingPayload ∧
    isCommandArg pingCommand = true ∧
    ∃ outcome, (processMessage (countingEnv allUp) bothEndpoints guildMessage (.str "channel")
        pingCommand 0).result = .ok outcome ∧
      inOp "primary" outcome = true ∧
      (inOp "secondary" outcome = true ↔
        (pingCommand ≠ .null ∧ envTruthy bothEndpoints.secondaryWebhook = true)) ∧
      (¬ (pingCommand ≠ .null ∧ envTruthy bothEndpoints.secondaryWebhook = true) →
        keys outcome = ["primary"]) :=
  ⟨rfl, by decide,
    processMessage_secondary_iff (countingEnv allUp) bothEndpoints guildMessage (.str "channel")
      pingCommand guildPingPayload 0 rfl (by decide)⟩

/-- C4, the code at the failing input: on a message whose `createdAt` is missing,
normalisation fails and `processMessage` returns the failure result of its `catch` block
as it is.  `success` is `false` and the error has the kind `processing_error`, but the
value has the keys `success` and `error` only: it has no `primary` field, so that what
the callers read, `result.primary?.success` and `result.primary?.error`, is `undefined`.
No POST is made. -/
theorem processMessage_undated_bare_failure :
    (∃ e, createWebhookPayload undatedMessage (.str "dm") .null = .error e) ∧
    ∃ outcome,
      (processMessage (countingEnv allUp) primaryOnly undatedMessage (.str "dm") .null 0).result
        = .ok outcome ∧
      keys outcome = ["success", "error"] ∧
      inOp "primary" outcome = false ∧
      getProp outcome "success" = .ok (.bool false) ∧
      (getProp outcome "error").bind (fun err => getProp err "type")
        = .ok (.str "processing_error") ∧
      optChain (optChain outcome "primary") "success" = .undefined ∧
      optChain (optChain outcome "primary") "error" = .undefined ∧
      (processMessage (countingEnv allUp) primaryOnly undatedMessage (.str "dm") .null 0).trace
        = [] :=
  ⟨⟨_, rfl⟩, _, rfl, by decide, by decide, rfl, rfl, rfl, rfl, rfl⟩

/-- C7, counterexample: a message without `createdAt`, routed with command data while a
secondary endpoint is configured and every POST to the primary endpoint fails: no POST is
made at all, so none to the secondary endpoint, and the outcome carries neither a
`primary` nor a `secondary` result. -/
theorem processMessage_undated_no_delivery :
    pingCommand ≠ .null ∧ envTruthy bothEndpoints.secondaryWebhook = true ∧
    (∀ body s, ∃ e,
      ((countingEnv primaryDown).post bothEndpoints.webhookUrl body s).1 = .error e) ∧
    postsTo "https://n8n.example/secondary"
      (processMessage (countingEnv primaryDown) bothEndpoints undatedMessage (.str "channel")
        pingCommand 0).trace = 0 ∧
    postCount
      (processMessage (countingEnv primaryDown) bothEndpoints undatedMessage (.str "channel")
        pingCommand 0).trace = 0 ∧
    ∃ outcome,
      (processMessage (countingEnv primaryDown) bothEndpoints undatedMessage (.str "channel")
        pingCommand 0).result = .ok outcome ∧
      inOp "primary" outcome = false ∧ inOp "secondary" outcome = false :=
  ⟨by simp [pingCommand], by decide, fun _ _ => ⟨_, rfl⟩, rfl, rfl, _, rfl, by decide, by decide⟩

/-- C7, amended: for every event on which payload normalisation succeeds, with a command
that is an object and a configured secondary endpoint, `processMessage` sends to the
primary endpoint and then to the secondary one, whatever the first send gave: each
endpoint is POSTed to at least once, and the outcome holds under `primary` the result of
the primary send and under `secondary` the result of the secondary send.  If every
primary POST fails, `primary.success` is `false` (and the secondary send still took
place); if every secondary POST fails, `secondary.success` is `false` and `primary` is
still the result of the primary send. -/
theorem processMessage_dispatches_independent {σ : Type} (env : Env σ) (cfg : N8nConfig)
    (message messageType command payload : JSValue) (w : σ)
    (hp : createWebhookPayload message messageType command = .ok payload)
    (hc : isObject command = true)
    (hs : envTruthy cfg.secondaryWebhook = true) :
    ∃ pr sr,
      (sendToWebhook env cfg payload w).result = .ok pr ∧
      (sendToSecondaryWebhook env cfg payload (sendToWebhook env cfg payload w).world).result
        = .ok sr ∧
      (processMessage env cfg message messageType command w).result
        = .ok (.obj [("primary", pr), ("secondary", sr)]) ∧
      (processMessage env cfg message messageType command w).trace
        = (sendToWebhook env cfg payload w).trace
          ++ (sendToSecondaryWebhook env cfg payload
                (sendToWebhook env cfg payload w).world).trace ∧
      1 ≤ postsTo cfg.webhookUrl (sendToWebhook env cfg payload w).trace ∧
      1 ≤ postsTo (envValue cfg.secondaryWebhook)
        (sendToSecondaryWebhook env cfg payload (sendToWebhook env cfg payload w).world).trace ∧
      ((∀ s, ∃ e, (env.post cfg.webhookUrl payload s).1 = .error e) →
        getProp pr "success" = .ok (.bool false)) ∧
      ((∀ s, ∃ e, (env.post (envValue cfg.secondaryWebhook) payload s).1 = .error e) →
        getProp sr "success" = .ok (.bool false)) := by
  have hv := validate_of_createWebhookPayload message messageType command payload hp
  have hyes : (truthy (defaultTo .null command) && envTruthy cfg.secondaryWebhook) = true := by
    cases command <;> simp [isObject] at hc
    simp [defaultTo, truthy, hs]
  obtain ⟨pr, sr, hpr, hsr, hres, htr⟩ := processMessage_both env cfg message messageType
    command payload w hp hyes
  refine ⟨pr, sr, hpr, hsr, hres, htr, ?_, ?_, ?_, ?_⟩
  · rw [sendToWebhook_of_valid env cfg payload w hv]
    obtain ⟨_, -, -, hposts⟩ := deliver_settles env cfg.webhookUrl "n8n" payload w
    exact hposts
  · rw [sendToSecondaryWebhook_of_valid env cfg payload _ hs hv]
    obtain ⟨_, -, -, hposts⟩ := deliver_settles env (envValue cfg.secondaryWebhook)
      "secondary n8n" payload (sendToWebhook env cfg payload w).world
    exact hposts
  · intro hfail
    obtain ⟨e, he, -⟩ := deliver_of_all_fail env cfg.webhookUrl "n8n" payload w hfail
    rw [sendToWebhook_of_valid env cfg payload w hv, he] at hpr
    rw [← Except.ok.inj hpr]
    rfl
  · intro hfail
    obtain ⟨e, he, -⟩ := deliver_of_all_fail env (envValue cfg.secondaryWebhook)
      "secondary n8n" payload (sendToWebhook env cfg payload w).world hfail
    rw [sendToSecondaryWebhook_of_valid env cfg payload _ hs hv, he] at hsr
    rw [← Except.ok.inj hsr]
    rfl

/-- Witness of C7, amended: the guild message with the command data of `!ping`, once
with the primary endpoint down and once with the secondary endpoint down. -/
theorem processMessage_dispatches_independent_witness :
    createWebhookPayload guildMessage (.str "channel") pingCommand = .ok guildPingPayload ∧
    isObject pingCommand = true ∧ envTruthy bothEndpoints.secondaryWebhook = true ∧
    (∀ s, ∃ e, ((countingEnv primaryDown).post bothEndpoints.webhookUrl guildPingPayload s).1
      = .error e) ∧
    (∀ s, ∃ e, ((countingEnv secondaryDown).post (envValue bothEndpoints.secondaryWebhook)
      guildPingPayload s).1 = .error e) ∧
    (∃ pr sr,
      (processMessage (countingEnv primaryDown) bothEndpoints guildMessage (.str "channel")
        pingCommand 0).result = .ok (.obj [("primary", pr), ("secondary", sr)]) ∧
      getProp pr "success" = .ok (.bool false) ∧
      1 ≤ postsTo (envValue bothEndpoints.secondaryWebhook)
        (sendToSecondaryWebhook (countingEnv primaryDown) bothEndpoints guildPingPayload
          (sendToWebhook (countingEnv primaryDown) bothEndpoints guildPingPayload 0).world).trace) ∧
    (∃ pr sr,
      (sendToWebhook (countingEnv secondaryDown) bothEndpoints guildPingPayload 0).result
        = .ok pr ∧
      (processMessage (countingEnv secondaryDown) bothEndpoints guildMessage (.str "channel")
        pingCommand 0).result = .ok (.obj [("primary", pr), ("secondary", sr)]) ∧
      getProp sr "success" = .ok (.bool false)) :=
  have hdown1 : ∀ s, ∃ e,
      ((countingEnv primaryDown).post bothEndpoints.webhookUrl guildPingPayload s).1
        = .error e := fun _ => ⟨_, rfl⟩
  have hdown2 : ∀ s, ∃ e,
      ((countingEnv secondaryDown).post (envValue bothEndpoints.secondaryWebhook)
        guildPingPayload s).1 = .error e := fun _ => ⟨_, rfl⟩
  ⟨rfl, by decide, by decide, hdown1, hdown2,
    (processMessage_dispatches_independent (countingEnv primaryDown) bothEndpoints guildMessage
      (.str "channel") pingCommand guildPingPayload 0 rfl (by decide) (by decide)).elim
      (fun pr h => h.elim (fun sr h =>
        ⟨pr, sr, h.2.2.1, h.2.2.2.2.2.2.1 hdown1, h.2.2.2.2.2.1⟩)),
    (processMessage_dispatches_independent (countingEnv secondaryDown) bothEndpoints guildMessage
      (.str "channel") pingCommand guildPingPayload 0 rfl (by decide) (by decide)).elim
      (fun pr h => h.elim (fun sr h =>
        ⟨pr, sr, h.1, h.2.2.1, h.2.2.2.2.2.2.2 hdown2⟩))⟩

/-- C13: for every well-formed event, if the primary endpoint fails on every HTTP
attempt, `processMessage` returns an outcome whose `primary` has `success = false` and an
`error` of type `webhook_error` whose message carries the message of the failure of the
last attempt.  The primary send is exactly four POSTs to the primary URL with waits of
1000, 2000 and 4000 ms between them; whatever follows in the trace is addressed to the
secondary endpoint, so with a secondary URL different from the primary one the primary
URL is POSTed to exactly 4 times. -/
theorem processMessage_primary_exhausted {σ : Type} (env : Env σ) (cfg : N8nConfig)
    (message messageType command : JSValue) (w : σ)
    (hw : wellFormed message = true)
    (hfail : ∀ body s, ∃ e, (env.post cfg.webhookUrl body s).1 = .error e) :
    ∃ (payload outcome pr err : JSValue) (e : JSError) (s : σ) (rest : List NetEvent),
      createWebhookPayload message messageType command = .ok payload ∧
      (processMessage env cfg message messageType command w).result = .ok outcome ∧
      getProp outcome "primary" = .ok pr ∧
      getProp pr "success" = .ok (.bool false) ∧
      getProp pr "error" = .ok err ∧
      getProp err "type" = .ok (.str "webhook_error") ∧
      (env.post cfg.webhookUrl payload s).1 = .error e ∧
      getProp err "message" = .ok (.str ("Failed to send data to n8n: " ++ e.message)) ∧
      (processMessage env cfg message messageType command w).trace
        = fourAttempts cfg.webhookUrl payload ++ rest ∧
      postsTo cfg.webhookUrl (fourAttempts cfg.webhookUrl payload) = 4 ∧
      netWaits (fourAttempts cfg.webhookUrl payload) = [1000, 2000, 4000] ∧
      allPostsTo (envValue cfg.secondaryWebhook) rest = true ∧
      (envValue cfg.secondaryWebhook ≠ cfg.webhookUrl →
        postsTo cfg.webhookUrl (processMessage env cfg message messageType command w).trace
          = 4) := by
  obtain ⟨ts, hp⟩ := createWebhookPayload_resolved message messageType command hw
  have hv := validate_of_createWebhookPayload _ _ _ _ hp
  obtain ⟨pr, outcome, rest, hpr, hres, hprim, htr, hrest⟩ :=
    processMessage_shape env cfg message messageType command _ w hp
  obtain ⟨e, s, he, hdres, hdtr⟩ := deliver_of_all_fail_last env cfg.webhookUrl "n8n" _ w
    (hfail _)
  rw [sendToWebhook_of_valid env cfg _ w hv] at hpr htr
  rw [hdres] at hpr
  rw [hdtr] at htr
  have hpr2 := (Except.ok.inj hpr).symm
  subst hpr2
  refine ⟨_, outcome, _,
    .obj [("type", .str "webhook_error"),
          ("message", .str ("Failed to send data to n8n: " ++ e.message)),
          ("timestamp", .str (env.now (deliver env cfg.webhookUrl "n8n" _ w).world))],
    e, s, rest, hp, hres, hprim, rfl, rfl, rfl, he, rfl, htr,
    postsTo_fourAttempts _ _, rfl, hrest, ?_⟩
  · intro hne
    rw [htr, postsTo_append, postsTo_fourAttempts, postsTo_of_allPostsTo _ _ rest hrest hne]

/-- Witness of C13: the direct message of the scenario with the primary endpoint
down. -/
theorem processMessage_primary_exhausted_witness :
    wellFormed dmMessage = true ∧
    (∀ body s, ∃ e, ((countingEnv primaryDown).post primaryOnly.webhookUrl body s).1
      = .error e) ∧
    ∃ outcome pr err,
      (processMessage (countingEnv primaryDown) primaryOnly dmMessage (.str "dm") .null 0).result
        = .ok outcome ∧
      getProp outcome "primary" = .ok pr ∧
      getProp pr "success" = .ok (.bool false) ∧
      getProp pr "error" = .ok err ∧
      getProp err "type" = .ok (.str "webhook_error") ∧
      postCount (processMessage (countingEnv primaryDown) primaryOnly dmMessage (.str "dm")
        .null 0).trace = 4 ∧
      netWaits (processMessage (countingEnv primaryDown) primaryOnly dmMessage (.str "dm")
        .null 0).trace = [1000, 2000, 4000] :=
  have hdown : ∀ body s, ∃ e,
      ((countingEnv primaryDown).post primaryOnly.webhookUrl body s).1 = .error e :=
    fun _ _ => ⟨_, rfl⟩
  ⟨by decide, hdown,
    (processMessage_primary_exhausted (countingEnv primaryDown) primaryOnly dmMessage (.str "dm")
      .null 0 (by decide) hdown).elim
      (fun _ h1 => h1.elim (fun outcome h2 => h2.elim (fun pr h3 => h3.elim (fun err h4 =>
        h4.elim (fun _ h5 => h5.elim (fun _ h6 => h6.elim (fun _ h =>
          ⟨outcome, pr, err, h.2.1, h.2.2.1, h.2.2.2.1, h.2.2.2.2.1, h.2.2.2.2.2.1,
            rfl, rfl⟩)))))))⟩

/-- C14: for every well-formed event, if the primary endpoint fails on its first three
HTTP attempts and answers the fourth with a response whose body is `body`,
`processMessage` returns an outcome whose `primary` has `success = true` and `data`
equal to `body`.  The primary send is exactly four POSTs to the primary URL; whatever
follows in the trace is addressed to the secondary endpoint, so with a secondary URL
different from the primary one the primary URL is POSTed to exactly 4 times. -/
theorem processMessage_primary_fourth_attempt {σ : Type} (env : Env σ) (cfg : N8nConfig)
    (message messageType command response body : JSValue) (w : σ)
    (hw : wellFormed message = true)
    (hfail : ∀ payload j, j < 3 → ∃ e, (env.post cfg.webhookUrl payload
      (worldAfter (env.post cfg.webhookUrl payload) env.delay defaultBaseDelay j 0 w)).1
        = .error e)
    (hok : ∀ payload, (env.post cfg.webhookUrl payload
      (worldAfter (env.post cfg.webhookUrl payload) env.delay defaultBaseDelay 3 0 w)).1
        = .ok response)
    (hbody : getProp response "data" = .ok body) :
    ∃ (payload outcome pr : JSValue) (rest : List NetEvent),
      createWebhookPayload message messageType command = .ok payload ∧
      (processMessage env cfg message messageType command w).result = .ok outcome ∧
      getProp outcome "primary" = .ok pr ∧
      getProp pr "success" = .ok (.bool true) ∧
      getProp pr "data" = .ok body ∧
      (processMessage env cfg message messageType command w).trace
        = fourAttempts cfg.webhookUrl payload ++ rest ∧
      postsTo cfg.webhookUrl (fourAttempts cfg.webhookUrl payload) = 4 ∧
      allPostsTo (envValue cfg.secondaryWebhook) rest = true ∧
      (envValue cfg.secondaryWebhook ≠ cfg.webhookUrl →
        postsTo cfg.webhookUrl (processMessage env cfg message messageType command w).trace
          = 4) := by
  obtain ⟨ts, hp⟩ := createWebhookPayload_resolved message messageType command hw
  have hv := validate_of_createWebhookPayload _ _ _ _ hp
  obtain ⟨pr, outcome, rest, hpr, hres, hprim, htr, hrest⟩ :=
    processMessage_shape env cfg message messageType command _ w hp
  obtain ⟨hdres, hdtr⟩ := deliver_of_fourth_success env cfg.webhookUrl "n8n" _ response body w
    (hfail _) (hok _) hbody
  rw [sendToWebhook_of_valid env cfg _ w hv] at hpr htr
  rw [hdres] at hpr
  rw [hdtr] at htr
  have hpr2 := (Except.ok.inj hpr).symm
  subst hpr2
  refine ⟨_, outcome, _, rest, hp, hres, hprim, rfl, rfl, htr,
    postsTo_fourAttempts _ _, hrest, ?_⟩
  · intro hne
    rw [htr, postsTo_append, postsTo_fourAttempts, postsTo_of_allPostsTo _ _ rest hrest hne]

/-- Witness of C14: the direct message of the scenario with a primary endpoint that
answers 500 three times and then 200. -/
theorem processMessage_primary_fourth_attempt_witness :
    wellFormed dmMessage = true ∧
    (∀ payload j, j < 3 → ∃ e, ((countingEnv upOnFourth).post primaryOnly.webhookUrl payload
      (worldAfter ((countingEnv upOnFourth).post primaryOnly.webhookUrl payload)
        (countingEnv upOnFourth).delay defaultBaseDelay j 0 0)).1 = .error e) ∧
    (∀ payload, ((countingEnv upOnFourth).post primaryOnly.webhookUrl payload
      (worldAfter ((countingEnv upOnFourth).post primaryOnly.webhookUrl payload)
        (countingEnv upOnFourth).delay defaultBaseDelay 3 0 0)).1 = .ok okResponse) ∧
    getProp okResponse "data" = .ok (.obj [("received", .bool true)]) ∧
    ∃ outcome pr,
      (processMessage (countingEnv upOnFourth) primaryOnly dmMessage (.str "dm") .null 0).result
        = .ok outcome ∧
      getProp outcome "primary" = .ok pr ∧
      getProp pr "success" = .ok (.bool true) ∧
      getProp pr "data" = .ok (.obj [("received", .bool true)]) ∧
      postCount (processMessage (countingEnv upOnFourth) primaryOnly dmMessage (.str "dm")
        .null 0).trace = 4 :=
  have hfail : ∀ payload j, j < 3 → ∃ e,
      ((countingEnv upOnFourth).post primaryOnly.webhookUrl payload
        (worldAfter ((countingEnv upOnFourth).post primaryOnly.webhookUrl payload)
          (countingEnv upOnFourth).delay defaultBaseDelay j 0 0)).1 = .error e := by
    intro payload j hj
    interval_cases j
    · exact ⟨_, rfl⟩
    · exact ⟨_, rfl⟩
    · exact ⟨_, rfl⟩
  have hok : ∀ payload, ((countingEnv upOnFourth).post primaryOnly.webhookUrl payload
      (worldAfter ((countingEnv upOnFourth).post primaryOnly.webhookUrl payload)
        (countingEnv upOnFourth).delay defaultBaseDelay 3 0 0)).1 = .ok okResponse :=
    fun _ => rfl
  ⟨by decide, hfail, hok, rfl,
    (processMessage_primary_fourth_attempt (countingEnv upOnFourth) primaryOnly dmMessage
      (.str "dm") .null okResponse (.obj [("received", .bool true)]) 0 (by decide) hfail hok
      rfl).elim
      (fun _ h1 => h1.elim (fun outcome h2 => h2.elim (fun pr h3 => h3.elim (fun _ h =>
        ⟨outcome, pr, h.2.1, h.2.2.1, h.2.2.2.1, h.2.2.2.2.1, rfl⟩))))⟩

/-- C17: for every input, malformed messages included, and every behaviour of the
endpoints, `processMessage` never raises: it returns a value to its caller. -/
theorem processMessage_never_raises {σ : Type} (env : Env σ) (cfg : N8nConfig)
    (message messageType command : JSValue) (w : σ) :
    ∃ outcome, (processMessage env cfg message messageType command w).result = .ok outcome := by
  simp only [processMessage]
  split
  · exact ⟨_, rfl⟩
  · split
    · exact ⟨_, rfl⟩
    · split
      · split
        · exact ⟨_, rfl⟩
        · exact ⟨_, rfl⟩
      · exact ⟨_, rfl⟩

/-! ## The connectivity test and the delivery results -/

/-- C16: for every configuration, `testWebhook` sends, under the retry policy, a
payload with `messageType` `"test"` and the fixed placeholder identifiers
(`test-message-id`, `test-user-id`, `test-channel-id`, no `guild`, no `command`) to the
primary URL only: every POST of its trace is a POST of that payload to the primary URL
and there is at least one, so no POST goes to a secondary URL different from the primary
one; the value returned is the single result of the primary send, a success response or
a `webhook_error` failure, with no `primary` or `secondary` wrapper. -/
theorem testWebhook_primary_only {σ : Type} (env : Env σ) (cfg : N8nConfig) (w : σ) :
    (∃ rt : List RetryEvent,
      (testWebhook env cfg w).trace
        = rt.map (toNetEvent cfg.webhookUrl (testPayload (env.now w))) ∧
      1 ≤ invocations rt) ∧
    getProp (testPayload (env.now w)) "messageType" = .ok (.str "test") ∧
    (getProp (testPayload (env.now w)) "message").bind (fun m => getProp m "id")
      = .ok (.str "test-message-id") ∧
    ((getProp (testPayload (env.now w)) "message").bind (fun m => getProp m "author")).bind
      (fun a => getProp a "id") = .ok (.str "test-user-id") ∧
    ((getProp (testPayload (env.now w)) "message").bind (fun m => getProp m "channel")).bind
      (fun c => getProp c "id") = .ok (.str "test-channel-id") ∧
    inOp "command" (testPayload (env.now w)) = false ∧
    inOp "guild" (optChain (testPayload (env.now w)) "message") = false ∧
    allPostsTo cfg.webhookUrl (testWebhook env cfg w).trace = true ∧
    postCount (testWebhook env cfg w).trace = postsTo cfg.webhookUrl (testWebhook env cfg w).trace ∧
    (envValue cfg.secondaryWebhook ≠ cfg.webhookUrl →
      postsTo (envValue cfg.secondaryWebhook) (testWebhook env cfg w).trace = 0) ∧
    ∃ r, (testWebhook env cfg w).result = .ok r ∧
      ((∃ data now, r = createSuccessResponse data "Data sent to n8n webhook" now) ∨
       (∃ msg now, r = createErrorResponse msg "webhook_error" now)) ∧
      inOp "primary" r = false ∧ inOp "secondary" r = false := by
  have hv : validateWebhookPayload (testPayload (env.now w)) = true := by
    simp [validateWebhookPayload, testPayload, truthy, typeofObject, inOp]
  have hrun : testWebhook env cfg w
      = deliver env cfg.webhookUrl "n8n" (testPayload (env.now w)) w := by
    rw [testWebhook, sendToWebhook_of_valid env cfg _ w hv]
  have hall : allPostsTo cfg.webhookUrl (testWebhook env cfg w).trace = true := by
    rw [hrun]
    exact allPostsTo_deliver env cfg.webhookUrl "n8n" _ w
  refine ⟨?_, rfl, rfl, rfl, rfl, by simp [inOp, testPayload],
    by simp [inOp, testPayload, optChain, List.lookup], hall,
    postCount_of_allPostsTo _ _ hall, ?_, ?_⟩
  · refine ⟨_, ?_, (retryWithBackoff_invoked (env.post cfg.webhookUrl (testPayload (env.now w)))
      env.delay defaultMaxRetries defaultBaseDelay w).2⟩
    rw [hrun, deliver_trace]
  · intro hne
    exact postsTo_of_allPostsTo _ _ _ hall (fun h => hne h.symm)
  · obtain ⟨r, hr, hshape, -⟩ := deliver_settles env cfg.webhookUrl "n8n"
      (testPayload (env.now w)) w
    refine ⟨r, by rw [hrun]; exact hr, ?_, ?_, ?_⟩
    · rcases hshape with ⟨data, hd⟩ | ⟨msg, hm⟩
      · exact Or.inl ⟨data, _, hd⟩
      · exact Or.inr ⟨msg, _, hm⟩
    · rcases hshape with ⟨data, hd⟩ | ⟨msg, hm⟩
      · rw [hd]; simp [inOp, createSuccessResponse]
      · rw [hm]; simp [inOp, createErrorResponse]
    · rcases hshape with ⟨data, hd⟩ | ⟨msg, hm⟩
      · rw [hd]; simp [inOp, createSuccessResponse]
      · rw [hm]; simp [inOp, createErrorResponse]

/-- Witness of C16: the test with both endpoints configured and up: one POST, to the
primary URL, none to the secondary URL. -/
theorem testWebhook_primary_only_witness :
    envValue bothEndpoints.secondaryWebhook ≠ bothEndpoints.webhookUrl ∧
    (testWebhook (countingEnv allUp) bothEndpoints 0).trace
      = [.post "https://n8n.example/primary" (testPayload "2024-01-01T00:00:02.000Z")] ∧
    postsTo (envValue bothEndpoints.secondaryWebhook)
      (testWebhook (countingEnv allUp) bothEndpoints 0).trace = 0 :=
  ⟨by decide, rfl,
    (testWebhook_primary_only (countingEnv allUp) bothEndpoints 0).2.2.2.2.2.2.2.2.2.1
      (by decide)⟩

/-- C18: for every payload, when no secondary webhook URL is configured
`sendToSecondaryWebhook` does not raise: it returns the failure result with
`success = false` and an error of type `config_error`, and makes no HTTP POST. -/
theorem sendToSecondaryWebhook_unconfigured {σ : Type} (env : Env σ) (cfg : N8nConfig)
    (payload : JSValue) (w : σ) (h : envTruthy cfg.secondaryWebhook = false) :
    ∃ r, (sendToSecondaryWebhook env cfg payload w).result = .ok r ∧
      r = createErrorResponse "Secondary webhook URL not configured" "config_error" (env.now w) ∧
      getProp r "success" = .ok (.bool false) ∧
      (getProp r "error").bind (fun err => getProp err "type") = .ok (.str "config_error") ∧
      (sendToSecondaryWebhook env cfg payload w).trace = [] ∧
      postCount (sendToSecondaryWebhook env cfg payload w).trace = 0 := by
  refine ⟨_, ?_, rfl, rfl, rfl, ?_, ?_⟩ <;> simp [sendToSecondaryWebhook, h, postCount]

/-- Witness of C18: no secondary URL, and a payload that validation would reject. -/
theorem sendToSecondaryWebhook_unconfigured_witness :
    envTruthy primaryOnly.secondaryWebhook = false ∧
    ∃ r, (sendToSecondaryWebhook (countingEnv allUp) primaryOnly .null 0).result = .ok r ∧
      r = createErrorResponse "Secondary webhook URL not configured" "config_error"
        ((countingEnv allUp).now 0) ∧
      getProp r "success" = .ok (.bool false) ∧
      (getProp r "error").bind (fun err => getProp err "type") = .ok (.str "config_error") ∧
      (sendToSecondaryWebhook (countingEnv allUp) primaryOnly .null 0).trace = [] ∧
      postCount (sendToSecondaryWebhook (countingEnv allUp) primaryOnly .null 0).trace = 0 :=
  ⟨by decide,
    sendToSecondaryWebhook_unconfigured (countingEnv allUp) primaryOnly .null 0 (by decide)⟩

/-- C19: every result returned by `sendToWebhook` or `sendToSecondaryWebhook` or built
by `createSuccessResponse` or `createErrorResponse` is filled on one side only: with
`success = true` it has `data` and `timestamp` and no `error`; with `success = false` it
has an `error` with `type`, `message` and `timestamp` and no `data`.  For a success
returned by one of the two sends, `data` is the `data` of a response that a POST to the
endpoint returned. -/
theorem deliveryResult_filled {σ : Type} (env : Env σ) (cfg : N8nConfig)
    (payload r : JSValue) (w : σ)
    (h : (sendToWebhook env cfg payload w).result = .ok r ∨
      (sendToSecondaryWebhook env cfg payload w).result = .ok r ∨
      (∃ data message now, r = createSuccessResponse data message now) ∨
      (∃ message type now, r = createErrorResponse message type now)) :
    filledOneSide r = true ∧
    ((sendToWebhook env cfg payload w).result = .ok r →
      getProp r "success" = .ok (.bool true) →
      ∃ s response, (env.post cfg.webhookUrl payload s).1 = .ok response ∧
        getProp response "data" = getProp r "data") ∧
    ((sendToSecondaryWebhook env cfg payload w).result = .ok r →
      getProp r "success" = .ok (.bool true) →
      ∃ s response, (env.post (envValue cfg.secondaryWebhook) payload s).1 = .ok response ∧
        getProp response "data" = getProp r "data") := by
  have hprim : (sendToWebhook env cfg payload w).result = .ok r →
      (deliver env cfg.webhookUrl "n8n" payload w).result = .ok r := by
    intro hr
    simp only [sendToWebhook] at hr
    split at hr
    · simp at hr
    · exact hr
  have hsec : (sendToSecondaryWebhook env cfg payload w).result = .ok r →
      r = createErrorResponse "Secondary webhook URL not configured" "config_error" (env.now w) ∨
      (deliver env (envValue cfg.secondaryWebhook) "secondary n8n" payload w).result = .ok r := by
    intro hr
    simp only [sendToSecondaryWebhook] at hr
    split at hr
    · exact Or.inl (Except.ok.inj hr).symm
    · split at hr
      · simp at hr
      · exact Or.inr hr
  refine ⟨?_, ?_, ?_⟩
  · rcases h with h | h | ⟨data, message, now, h⟩ | ⟨message, type, now, h⟩
    · exact (deliver_filled env _ _ payload r w (hprim h)).1
    · rcases hsec h with h | h
      · rw [h]; exact filledOneSide_error _ _ _
      · exact (deliver_filled env _ _ payload r w h).1
    · rw [h]; exact filledOneSide_success _ _ _
    · rw [h]; exact filledOneSide_error _ _ _
  · intro hr hs
    exact (deliver_filled env _ _ payload r w (hprim hr)).2 hs
  · intro hr hs
    rcases hsec hr with h | h
    · rw [h] at hs
      simp [getProp, createErrorResponse, List.lookup] at hs
    · exact (deliver_filled env _ _ payload r w h).2 hs

/-- Witness of C19: the success that `sendToWebhook` returns when the endpoint answers
200; its `data` is the body of the response. -/
theorem deliveryResult_filled_witness :
    (sendToWebhook (countingEnv allUp) primaryOnly guildPingPayload 0).result
      = .ok (createSuccessResponse (.obj [("received", .bool true)]) "Data sent to n8n webhook"
          "2024-01-01T00:00:02.000Z") ∧
    filledOneSide (createSuccessResponse (.obj [("received", .bool true)])
      "Data sent to n8n webhook" "2024-01-01T00:00:02.000Z") = true :=
  ⟨rfl, (deliveryResult_filled (countingEnv allUp) primaryOnly guildPingPayload _ 0
    (Or.inl rfl)).1⟩

/-! ## The configuration -/

/-- C20: `_validateConfig` (URL parsing being the given predicate `parses`) throws
whenever the primary webhook URL is absent or does not parse as a URL, and whenever a
secondary webhook URL is present but does not parse as a URL.  It passes whenever the bot
token, the client id and the primary URL are valid, the secondary URL is absent or
parses and the command channel is absent or valid, whatever the auth token and the debug
flag: an absent secondary URL, auth token, command channel or debug flag never causes a
failure. -/
theorem validateConfig_urls (parses : String → Bool) (env : ProcessEnv) :
    ((envTruthy env.n8nWebhookUrl = false ∨ parses (envValue env.n8nWebhookUrl) = false) →
      ∃ e, validateConfig parses (loadConfig env) = .error e) ∧
    (envTruthy env.n8nSecondaryWebhook = true →
      parses (envValue env.n8nSecondaryWebhook) = false →
      ∃ e, validateConfig parses (loadConfig env) = .error e) ∧
    (validateBotToken env.discordBotToken = true →
      validateSnowflake env.discordClientId = true →
      validateUrl parses env.n8nWebhookUrl = true →
      (envTruthy env.n8nSecondaryWebhook = false ∨
        parses (envValue env.n8nSecondaryWebhook) = true) →
      (envTruthy env.commandChannelId = false ∨
        validateSnowflake env.commandChannelId = true) →
      validateConfig parses (loadConfig env) = .ok ()) := by
  refine ⟨?_, ?_, ?_⟩
  · intro h
    exact ⟨_, validateConfig_of_errors parses (loadConfig env)
      (configErrors_length_pos_of_primary parses (loadConfig env) h)⟩
  · intro ht h
    exact ⟨_, validateConfig_of_errors parses (loadConfig env)
      (configErrors_length_pos_of_secondary parses (loadConfig env) ht h)⟩
  · intro hb hc hu hs hch
    have hnil := configErrors_nil parses (loadConfig env) hb hc hu hs hch
    simp [validateConfig, hnil]

/-- Witness of C20: with only the required variables set validation passes; without a
primary URL, or with a secondary URL that does not parse, it throws. -/
theorem validateConfig_urls_witness :
    validateConfig httpsOnly (loadConfig minimalEnv) = .ok () ∧
    (∃ e, validateConfig httpsOnly (loadConfig
      ⟨minimalEnv.discordBotToken, minimalEnv.discordClientId, none, none, none, none, none,
        none⟩) = .error e) ∧
    (∃ e, validateConfig httpsOnly (loadConfig
      ⟨minimalEnv.discordBotToken, minimalEnv.discordClientId, minimalEnv.n8nWebhookUrl, none,
        some "not a url", none, none, none⟩) = .error e) :=
  ⟨(validateConfig_urls httpsOnly minimalEnv).2.2 (by decide) (by decide) (by decide)
      (Or.inl (by decide)) (Or.inl (by decide)),
    (validateConfig_urls httpsOnly
      ⟨minimalEnv.discordBotToken, minimalEnv.discordClientId, none, none, none, none, none,
        none⟩).1 (Or.inl (by decide)),
    (validateConfig_urls httpsOnly
      ⟨minimalEnv.discordBotToken, minimalEnv.discordClientId, minimalEnv.n8nWebhookUrl, none,
        some "not a url", none, none, none⟩).2.1 (by decide) (by decide)⟩

/-! ## The HTTP client -/

/-- C21: for every request of the service's HTTP client, the header `Content-Type` is
`application/json`; when a webhook token is configured the header `Authorization` is
`Bearer ` followed by the token, and when none is configured the interceptor leaves the
headers as they are, so no `Authorization` is added. -/
theorem outboundHeaders_auth (cfg : N8nConfig) :
    (outboundHeaders cfg).lookup "Content-Type" = some "application/json" ∧
    (envTruthy cfg.webhookToken = true →
      (outboundHeaders cfg).lookup "Authorization"
        = some ("Bearer " ++ envValue cfg.webhookToken)) ∧
    (envTruthy cfg.webhookToken = false →
      (outboundHeaders cfg).lookup "Authorization" = none) ∧
    (∀ headers : Headers, envTruthy cfg.webhookToken = true →
      (requestInterceptor cfg headers).lookup "Authorization"
        = some ("Bearer " ++ envValue cfg.webhookToken)) ∧
    (∀ headers : Headers, envTruthy cfg.webhookToken = false →
      requestInterceptor cfg headers = headers) ∧
    (∀ (headers : Headers) (name : String), name ≠ "Authorization" →
      (requestInterceptor cfg headers).lookup name = headers.lookup name) := by
  have hother : ∀ (headers : Headers) (name : String), name ≠ "Authorization" →
      (requestInterceptor cfg headers).lookup name = headers.lookup name := by
    intro headers name hne
    simp only [requestInterceptor]
    split
    · exact lookup_setHeader_other _ _ _ _ hne
    · rfl
  refine ⟨?_, ?_, ?_, ?_, ?_, hother⟩
  · rw [outboundHeaders, hother _ _ (by decide)]
    rfl
  · intro h
    simp only [outboundHeaders, requestInterceptor, h, if_true]
    exact lookup_setHeader_self _ _ _
  · intro h
    simp only [outboundHeaders, requestInterceptor, h]
    rfl
  · intro headers h
    simp only [requestInterceptor, h, if_true]
    exact lookup_setHeader_self _ _ _
  · intro headers h
    simp [requestInterceptor, h]

/-- Witness of C21: a configuration with the token `s3cret`, and one without token. -/
theorem outboundHeaders_auth_witness :
    envTruthy (N8nConfig.mk "https://n8n.example/primary" (some "s3cret") none).webhookToken
      = true ∧
    (outboundHeaders ⟨"https://n8n.example/primary", some "s3cret", none⟩).lookup "Authorization"
      = some "Bearer s3cret" ∧
    (outboundHeaders primaryOnly).lookup "Authorization" = none ∧
    (outboundHeaders primaryOnly).lookup "Content-Type" = some "application/json" :=
  ⟨by decide,
    (outboundHeaders_auth ⟨"https://n8n.example/primary", some "s3cret", none⟩).2.1 (by decide),
    (outboundHeaders_auth primaryOnly).2.2.1 (by decide),
    (outboundHeaders_auth primaryOnly).1⟩

/-! ## The text helpers -/

/-- C22, the code at the failing input: `truncateText("hello", 2)` is `"hell..."`, seven
code units for a maximum of two (the end of the slice, `2 - 3`, is negative and counts
from the end of the text). -/
theorem truncateText_exceeds_small_maximum :
    truncateText (codeUnits "hello") 2 = codeUnits "hell..." ∧
    (truncateText (codeUnits "hello") 2).length = 7 ∧
    ¬ ((truncateText (codeUnits "hello") 2).length ≤ 2) := by
  decide

/-- C24: for every string input, whatever its code units, `sanitizeInput(input)` has at
most 2000 code units and contains none of the code units of `<`, `>` and the backtick;
for every input that is not a string it is the empty string. -/
theorem sanitizeInput_safe (input : Option (List Nat)) :
    (sanitizeInput input).length ≤ 2000 ∧
    (∀ u ∈ codeUnits "<>`", u ∉ sanitizeInput input) ∧
    sanitizeInput none = [] ∧
    (∀ v : JSValue, (∀ s, v ≠ .str s) → sanitizeInput (asText v) = []) := by
  refine ⟨?_, ?_, rfl, ?_⟩
  · cases input with
    | none => simp [sanitizeInput]
    | some text =>
      simp only [sanitizeInput, sanitizeText, List.length_take]
      omega
  · intro u hu hmem
    cases input with
    | none => simp [sanitizeInput] at hmem
    | some text =>
      have hs := not_stripped_of_mem_sanitizeText hmem
      have hu2 : u = 60 ∨ u = 62 ∨ u = 96 := by
        have hcu : codeUnits "<>`" = [60, 62, 96] := by decide
        rw [hcu] at hu
        simpa using hu
      rcases hu2 with rfl | rfl | rfl <;> simp [isStripped] at hs
  · intro v hv
    cases v with
    | str s => exact absurd rfl (hv s)
    | _ => rfl

/-- C23: for every content and prefix, `parseCommand(content, prefix)` is `null` if and
only if the content does not start with the prefix.  Otherwise, with `tail` the content
after the prefix, trimmed and split on its runs of white space into a first piece and
the remaining pieces, it returns `command`: the first piece lower-cased by the engine,
and `args`: the remaining pieces as they are.  The split is the one on runs of white
space: the pieces contain no white space, no piece of `args` is empty, and the trimmed
tail is the first piece followed by each remaining piece after a run of white space that
is not empty.  This holds whatever the lower-casing of the engine is. -/
theorem parseCommand_spec (toLowerCase : List Nat → List Nat) (content pfx : List Nat) :
    (parseCommand toLowerCase content pfx = none ↔ ¬ pfx <+: content) ∧
    (∀ tail, content = pfx ++ tail →
      ∃ first rest, splitSpaces (jsTrim tail) = first :: rest ∧
        parseCommand toLowerCase content pfx = some ⟨toLowerCase first, rest⟩ ∧
        (∀ t ∈ first :: rest, ∀ c ∈ t, isJSSpace c = false) ∧
        first ++ rest.flatten = (jsTrim tail).filter (fun c => !isJSSpace c) ∧
        (∀ t ∈ rest, t ≠ []) ∧
        (∃ gaps : List (List Nat), gaps.length = rest.length ∧
          (∀ g ∈ gaps, g ≠ [] ∧ g.all isJSSpace = true) ∧
          jsTrim tail = first ++ (List.zipWith (fun g t => g ++ t) gaps rest).flatten)) := by
  constructor
  · constructor
    · intro hnone hpre
      obtain ⟨tail, rfl⟩ := hpre
      obtain ⟨first, rest, -, hp⟩ := parseCommand_of_prefix toLowerCase pfx tail
      rw [hp] at hnone
      exact absurd hnone (by simp)
    · exact parseCommand_of_not_prefix toLowerCase content pfx
  · intro tail hc
    subst hc
    obtain ⟨first, rest, hs, hp⟩ := parseCommand_of_prefix toLowerCase pfx tail
    refine ⟨first, rest, hs, hp, ?_, ?_, ?_, ?_⟩
    · rw [← hs]
      exact splitGo_no_space false [] _ (by simp)
    · have := splitGo_flatten false [] (jsTrim tail)
      rw [show splitGo false [] (jsTrim tail) = splitSpaces (jsTrim tail) from rfl, hs] at this
      simpa using this
    · rcases splitSpaces_jsTrim tail with ⟨-, h⟩ | h
      · rw [hs] at h
        simp only [List.cons.injEq] at h
        intro t ht
        rw [h.2] at ht
        simp at ht
      · intro t ht
        exact h t (by rw [hs]; exact List.mem_cons_of_mem _ ht)
    · obtain ⟨lead, gaps, -, hl, hlen, hg, heq⟩ :=
        splitGo_gaps false [] (jsTrim tail) first rest (fun h => absurd h (by simp)) hs
      rw [hl rfl] at heq
      exact ⟨gaps, hlen, hg, by simpa using heq⟩

/-- Witness of C23: the content `!ÉCHO  Foo BAR ` with the prefix `!`, under a
lower-casing that maps the capital letters of Latin-1, and a content that does not start
with the prefix. -/
theorem parseCommand_spec_witness :
    parseCommand latinLower (codeUnits "!ÉCHO  Foo BAR ") (codeUnits "!")
      = some ⟨codeUnits "écho", [codeUnits "Foo", codeUnits "BAR"]⟩ ∧
    parseCommand latinLower (codeUnits "hello") (codeUnits "!") = none ∧
    ¬ codeUnits "!" <+: codeUnits "hello" :=
  ⟨by decide, by decide,
    (parseCommand_spec latinLower (codeUnits "hello") (codeUnits "!")).1.1 (by decide)⟩

/-- C27, counterexample: on the text of 1999 letters, a space and a letter the first pass
of `sanitizeInput` cuts after the space and returns 2000 code units; the second pass
trims that space and returns 1999. -/
theorem sanitizeInput_not_idempotent :
    sanitizeInput (some (sanitizeInput (some longInput))) ≠ sanitizeInput (some longInput) ∧
    (sanitizeInput (some longInput)).length = 2000 ∧
    (sanitizeInput (some (sanitizeInput (some longInput)))).length = 1999 := by
  have h := sanitizeText_long 1999 (by norm_num) rfl
  have h1 : sanitizeText longInput = List.replicate 1999 97 ++ [32] := h.1
  have h2 : sanitizeText (sanitizeText longInput) = List.replicate 1999 97 := h.2
  simp only [sanitizeInput_some]
  refine ⟨?_, ?_, ?_⟩
  · intro heq
    have hlen := congrArg List.length heq
    rw [h2] at hlen
    rw [h1, List.length_append, List.length_replicate] at hlen
    simp only [List.length_cons, List.length_nil] at hlen
    omega
  · rw [h1, List.length_append, List.length_replicate]
    rfl
  · rw [h2, List.length_replicate]

/-- C27, amended: for every string `s`, whatever its code units, a second pass of
`sanitizeInput` removes the white space at the end of the result of the first and nothing
else.  So `sanitizeInput(sanitizeInput(s)) = sanitizeInput(s)` if and only if
`sanitizeInput(s)` does not end in white space, that is if and only if the code unit at
index 1999 of `s` without `<`, `>` and the backtick, trimmed, is not white space when
there is one.  In particular this holds for every string of at most 2000 code units. -/
theorem sanitizeInput_idempotent_iff (s : List Nat) :
    sanitizeInput (some (sanitizeInput (some s)))
      = (sanitizeInput (some s)).rdropWhile isJSSpace ∧
    (sanitizeInput (some (sanitizeInput (some s))) = sanitizeInput (some s) ↔
      ∀ h : sanitizeInput (some s) ≠ [],
        isJSSpace ((sanitizeInput (some s)).getLast h) = false) ∧
    (sanitizeInput (some (sanitizeInput (some s))) = sanitizeInput (some s) ↔
      ∀ u, (jsTrim (s.filter (fun c => !isStripped c)))[1999]? = some u →
        isJSSpace u = false) ∧
    (s.length ≤ 2000 →
      sanitizeInput (some (sanitizeInput (some s))) = sanitizeInput (some s)) := by
  simp only [sanitizeInput_some]
  refine ⟨sanitizeText_twice_end s, ?_, sanitizeText_idem_iff s, fun hlen => ?_⟩
  · rw [sanitizeText_twice_end, List.rdropWhile_eq_self_iff]
    simp
  · exact sanitizeText_idem_of_short s (Nat.le_trans (length_stripped_trimmed_le s) hlen)

/-- Instances of C27, amended: the text of 2001 letters, which the first pass cuts to
a text that ends in a letter, and a short text with markup and white space around it. -/
theorem sanitizeInput_idempotent_iff_witness :
    sanitizeInput (some (sanitizeInput (some (List.replicate 2001 97))))
      = sanitizeInput (some (List.replicate 2001 97)) ∧
    sanitizeInput (some (sanitizeInput (some (codeUnits "  <b>hi</b>  "))))
      = sanitizeInput (some (codeUnits "  <b>hi</b>  ")) :=
  ⟨(sanitizeInput_idempotent_iff (List.replicate 2001 97)).2.2.1.2 (by
      intro u hu
      rw [stripped_trimmed_letters, List.getElem?_replicate] at hu
      split at hu
      · cases hu; decide
      · exact absurd hu (by simp)),
    (sanitizeInput_idempotent_iff (codeUnits "  <b>hi</b>  ")).2.2.2 (by decide)⟩

/-! ## The validator of payloads -/

/-- C26: `validateWebhookPayload(payload)` is true if and only if the payload is an
object other than `null` that has both keys `messageType` and `message`.  The values do
not matter: a payload with the same keys gives the same answer, and the two keys with
`null` and `undefined` as values pass.  Keys other than the two never change the
answer. -/
theorem validateWebhookPayload_iff (payload : JSValue) :
    (validateWebhookPayload payload = true ↔
      (typeofObject payload = true ∧ payload ≠ .null ∧
        inOp "messageType" payload = true ∧ inOp "message" payload = true)) ∧
    (∀ fields : List (String × JSValue), validateWebhookPayload (.obj fields) = true ↔
      ("messageType" ∈ fields.map Prod.fst ∧ "message" ∈ fields.map Prod.fst)) ∧
    (∀ fields values : List (String × JSValue),
      fields.map Prod.fst = values.map Prod.fst →
      validateWebhookPayload (.obj fields) = validateWebhookPayload (.obj values)) ∧
    validateWebhookPayload (.obj [("messageType", .null), ("message", .undefined)]) = true ∧
    (∀ fields extra : List (String × JSValue),
      (∀ kv ∈ extra, kv.1 ≠ "messageType" ∧ kv.1 ≠ "message") →
      validateWebhookPayload (.obj (fields ++ extra)) = validateWebhookPayload (.obj fields)) := by
  have hkeys : ∀ (k : String) (fields : List (String × JSValue)),
      fields.any (fun kv => kv.1 == k) = (fields.map Prod.fst).any (fun x => x == k) := by
    intro k fields
    induction fields with
    | nil => rfl
    | cons kv fs ih => simp [ih]
  refine ⟨?_, ?_, ?_, by decide, ?_⟩
  · cases payload <;> simp [validateWebhookPayload, truthy, typeofObject, inOp]
  · intro fields
    rw [validateWebhookPayload_obj]
    simp
  · intro fields values h
    rw [validateWebhookPayload_obj, validateWebhookPayload_obj, hkeys, hkeys, hkeys, hkeys, h]
  · intro fields extra h
    rw [validateWebhookPayload_obj, validateWebhookPayload_obj]
    have h1 : extra.any (fun kv => kv.1 == "messageType") = false := by
      simp only [List.any_eq_false, beq_iff_eq]
      exact fun kv hkv => (h kv hkv).1
    have h2 : extra.any (fun kv => kv.1 == "message") = false := by
      simp only [List.any_eq_false, beq_iff_eq]
      exact fun kv hkv => (h kv hkv).2
    simp [List.any_append, h1, h2]

/-! ## The message handler -/

/-- C25: for a message of the platform (well-formed, with a text content), the handler
calls `processMessage` if and only if the author is not a bot and the message is a direct
message or comes from the command channel, every channel counting as the command channel
when no command-channel id is configured.  The call is made with the message itself,
with `messageType` `"dm"` for a direct message and `"channel"` for any other, and its
result and network activity are those of the handler.  This holds whatever the
lower-casing of the engine is. -/
theorem execute_forwards {σ : Type} (toLowerCase : List Nat → List Nat) (env : Env σ)
    (cfg : N8nConfig) (bot : AppConfig) (message : JSValue) (content : String) (w : σ)
    (hw : wellFormed message = true)
    (hcontent : optChain message "content" = .str content) :
    ((execute toLowerCase env cfg bot message w).forwarded ≠ none ↔
      (truthy (optChain (optChain message "author") "bot") = false ∧
        (strictEqStr (optChain (optChain message "channel") "type") "DM" = true ∨
         envTruthy bot.commandChannelId = false ∨
         strictEqStr (optChain (optChain message "channel") "id")
           (envValue bot.commandChannelId) = true))) ∧
    (∀ m t c, (execute toLowerCase env cfg bot message w).forwarded = some (m, t, c) →
      m = message ∧
      (strictEqStr (optChain (optChain message "channel") "type") "DM" = true →
        t = .str "dm") ∧
      (strictEqStr (optChain (optChain message "channel") "type") "DM" = false →
        t = .str "channel") ∧
      (execute toLowerCase env cfg bot message w).outcome
        = (processMessage env cfg m t c w).result.toOption ∧
      (execute toLowerCase env cfg bot message w).trace = (processMessage env cfg m t c w).trace) := by
  have hb := isFromBot_of_wellFormed message hw
  have hd := intakeDecision_of_wellFormed toLowerCase bot message content hw hcontent
  have hdm := isDirectMessage_of_wellFormed message hw
  by_cases hbot : truthy (optChain (optChain message "author") "bot") = true
  · have hnone := execute_forwarded_none_of_bot toLowerCase env cfg bot message _ w hb hbot
    refine ⟨⟨fun h => absurd hnone h, fun h => ?_⟩, fun m t c hf => ?_⟩
    · rw [hbot] at h
      exact absurd h.1 (by simp)
    · rw [hnone] at hf
      exact absurd hf (by simp)
  · have hnot : truthy (optChain (optChain message "author") "bot") = false := by
      simpa using hbot
    by_cases hty : strictEqStr (optChain (optChain message "channel") "type") "DM" = true
    · rw [if_pos hty] at hd
      have hf := execute_forwarded_some toLowerCase env cfg bot message _ _ _ w hb hnot hd
      refine ⟨⟨fun _ => ⟨hnot, Or.inl hty⟩, fun _ => by rw [hf]; simp⟩, fun m t c hf2 => ?_⟩
      rw [hf] at hf2
      simp only [Option.some.injEq, Prod.mk.injEq] at hf2
      obtain ⟨rfl, rfl, rfl⟩ := hf2
      obtain ⟨ts, hp⟩ := createWebhookPayload_resolved message (.str "dm")
        (commandDataOf toLowerCase content bot.commandPrefix) hw
      obtain ⟨pr, outcome, rest, -, hres, -⟩ := processMessage_shape env cfg message _ _ _ w hp
      obtain ⟨ho, htr, -⟩ := execute_outcome toLowerCase env cfg bot message _ _ _ outcome _ w hb hnot hd
        hres hdm
      refine ⟨rfl, fun _ => rfl, fun h => ?_, ?_, htr⟩
      · rw [hty] at h
        exact absurd h (by simp)
      · rw [ho, hres]
        rfl
    · rw [if_neg hty] at hd
      by_cases hch : (!envTruthy bot.commandChannelId ||
          strictEqStr (optChain (optChain message "channel") "id")
            (envValue bot.commandChannelId)) = true
      · rw [if_pos hch] at hd
        have hf := execute_forwarded_some toLowerCase env cfg bot message _ _ _ w hb hnot hd
        have hcond : envTruthy bot.commandChannelId = false ∨
            strictEqStr (optChain (optChain message "channel") "id")
              (envValue bot.commandChannelId) = true := by
          simpa using hch
        refine ⟨⟨fun _ => ⟨hnot, Or.inr hcond⟩, fun _ => by rw [hf]; simp⟩,
          fun m t c hf2 => ?_⟩
        rw [hf] at hf2
        simp only [Option.some.injEq, Prod.mk.injEq] at hf2
        obtain ⟨rfl, rfl, rfl⟩ := hf2
        obtain ⟨ts, hp⟩ := createWebhookPayload_resolved message (.str "channel")
          (commandDataOf toLowerCase content bot.commandPrefix) hw
        obtain ⟨pr, outcome, rest, -, hres, -⟩ := processMessage_shape env cfg message _ _ _ w hp
        obtain ⟨ho, htr, -⟩ := execute_outcome toLowerCase env cfg bot message _ _ _ outcome _ w hb hnot hd
          hres hdm
        refine ⟨rfl, fun h => absurd h hty, fun _ => rfl, ?_, htr⟩
        rw [ho, hres]
        rfl
      · rw [if_neg hch] at hd
        have hnone := execute_forwarded_none_of_skip toLowerCase env cfg bot message _ w hb hd
        refine ⟨⟨fun h => absurd hnone h, fun h => ?_⟩, fun m t c hf => ?_⟩
        · rcases h.2 with h2 | h2 | h2
          · exact absurd h2 hty
          · exact absurd (by simp [h2]) hch
          · exact absurd (by simp [h2]) hch
        · rw [hnone] at hf
          exact absurd hf (by simp)

/-- Witness of C25: a guild message of a user, with no command channel configured. -/
theorem execute_forwards_witness :
    wellFormed platformMessage = true ∧
    optChain platformMessage "content" = .str "!ping" ∧
    (execute latinLower (countingEnv allUp) bothEndpoints minimalBot platformMessage 0).forwarded
      = some (platformMessage, .str "channel", pingCommand) ∧
    ((execute latinLower (countingEnv allUp) bothEndpoints minimalBot platformMessage 0).forwarded
        ≠ none ↔
      (truthy (optChain (optChain platformMessage "author") "bot") = false ∧
        (strictEqStr (optChain (optChain platformMessage "channel") "type") "DM" = true ∨
         envTruthy minimalBot.commandChannelId = false ∨
         strictEqStr (optChain (optChain platformMessage "channel") "id")
           (envValue minimalBot.commandChannelId) = true))) :=
  ⟨by decide, rfl, rfl,
    (execute_forwards latinLower (countingEnv allUp) bothEndpoints minimalBot platformMessage
      "!ping" 0 (by decide) rfl).1⟩

/-- C28: for a message of the platform that the handler forwards, the command data
handed to `processMessage` is not `null` if and only if the content starts with the
configured prefix, as code units and, which is the same, as characters.  For a content
made of the prefix alone, or of the prefix followed by white space only, `parseCommand`
returns the command `''` with no arguments (the engine lower-cases the empty string to
itself), the command data is the object with `name: ''`, `args: []` and the prefix, the
payload carries it under `command`, and with a secondary endpoint configured the outcome
has a `secondary` entry after at least one POST to the secondary URL.  This holds
whatever the lower-casing of the engine is. -/
theorem execute_command_data {σ : Type} (toLowerCase : List Nat → List Nat) (env : Env σ)
    (cfg : N8nConfig) (bot : AppConfig)
    (message m t c : JSValue) (content : String) (w : σ)
    (hw : wellFormed message = true)
    (hcontent : optChain message "content" = .str content)
    (hf : (execute toLowerCase env cfg bot message w).forwarded = some (m, t, c)) :
    (c ≠ .null ↔ codeUnits bot.commandPrefix <+: codeUnits content) ∧
    (c ≠ .null ↔ bot.commandPrefix.toList <+: content.toList) ∧
    (∀ ws, codeUnits content = codeUnits bot.commandPrefix ++ ws → ws.all isJSSpace = true →
      toLowerCase [] = [] →
      parseCommand toLowerCase (codeUnits content) (codeUnits bot.commandPrefix)
        = some ⟨[], []⟩ ∧
      c = .obj [("name", .str ""), ("args", .arr []), ("prefix", .str bot.commandPrefix)] ∧
      (∃ payload, createWebhookPayload m t c = .ok payload ∧
        getProp payload "command" = .ok c) ∧
      (envTruthy cfg.secondaryWebhook = true →
        ∃ outcome, (execute toLowerCase env cfg bot message w).outcome = some outcome ∧
          inOp "secondary" outcome = true ∧
          1 ≤ postsTo (envValue cfg.secondaryWebhook)
            (execute toLowerCase env cfg bot message w).trace)) := by
  have hb := isFromBot_of_wellFormed message hw
  have hd := intakeDecision_of_wellFormed toLowerCase bot message content hw hcontent
  have hdm := isDirectMessage_of_wellFormed message hw
  -- the arguments of the call
  have hargs : m = message ∧ c = commandDataOf toLowerCase content bot.commandPrefix ∧
      intakeDecision toLowerCase bot message = .ok (some (t, c)) ∧
      truthy (optChain (optChain message "author") "bot") = false := by
    by_cases hbot : truthy (optChain (optChain message "author") "bot") = true
    · rw [execute_forwarded_none_of_bot toLowerCase env cfg bot message _ w hb hbot] at hf
      exact absurd hf (by simp)
    · have hnot : truthy (optChain (optChain message "author") "bot") = false := by
        simpa using hbot
      by_cases hty : strictEqStr (optChain (optChain message "channel") "type") "DM" = true
      · rw [if_pos hty] at hd
        rw [execute_forwarded_some toLowerCase env cfg bot message _ _ _ w hb hnot hd] at hf
        simp only [Option.some.injEq, Prod.mk.injEq] at hf
        obtain ⟨rfl, rfl, rfl⟩ := hf
        exact ⟨rfl, rfl, hd, hnot⟩
      · rw [if_neg hty] at hd
        by_cases hch : (!envTruthy bot.commandChannelId ||
            strictEqStr (optChain (optChain message "channel") "id")
              (envValue bot.commandChannelId)) = true
        · rw [if_pos hch] at hd
          rw [execute_forwarded_some toLowerCase env cfg bot message _ _ _ w hb hnot hd] at hf
          simp only [Option.some.injEq, Prod.mk.injEq] at hf
          obtain ⟨rfl, rfl, rfl⟩ := hf
          exact ⟨rfl, rfl, hd, hnot⟩
        · rw [if_neg hch] at hd
          rw [execute_forwarded_none_of_skip toLowerCase env cfg bot message _ w hb hd] at hf
          exact absurd hf (by simp)
  obtain ⟨rfl, hc, hdec, hnot⟩ := hargs
  have hiff : c ≠ .null ↔ codeUnits bot.commandPrefix <+: codeUnits content := by
    rw [hc, commandDataOf]
    by_cases hpre : codeUnits bot.commandPrefix <+: codeUnits content
    · obtain ⟨tail, htail⟩ := hpre
      obtain ⟨first, rest, -, hp⟩ :=
        parseCommand_of_prefix toLowerCase (codeUnits bot.commandPrefix) tail
      rw [htail] at hp
      have hpre2 : (codeUnits bot.commandPrefix).isPrefixOf (codeUnits content) = true := by
        rw [List.isPrefixOf_iff_prefix]
        exact ⟨tail, htail⟩
      simp only [hpre2, if_true, hp]
      exact ⟨fun _ => ⟨tail, htail⟩, fun _ => by simp⟩
    · have hpre2 : (codeUnits bot.commandPrefix).isPrefixOf (codeUnits content) = false := by
        rw [← Bool.not_eq_true, List.isPrefixOf_iff_prefix]
        exact hpre
      simp only [hpre2, Bool.false_eq_true, if_false]
      exact ⟨fun h => absurd rfl h, fun h => absurd h hpre⟩
  refine ⟨hiff, hiff.trans (codeUnits_prefix_iff _ _), ?_⟩
  · intro ws hws hall hlower
    have hparse : parseCommand toLowerCase (codeUnits content) (codeUnits bot.commandPrefix)
        = some ⟨[], []⟩ := by
      rw [hws, parseCommand_bare toLowerCase _ ws hall, hlower]
    have hpre2 : (codeUnits bot.commandPrefix).isPrefixOf (codeUnits content) = true := by
      rw [List.isPrefixOf_iff_prefix, hws]
      exact List.prefix_append _ _
    have hcval : c = .obj [("name", .str ""), ("args", .arr []),
        ("prefix", .str bot.commandPrefix)] := by
      rw [hc, commandDataOf]
      simp only [hpre2, if_true, hparse, List.map_nil]
      rfl
    obtain ⟨ts, hp⟩ := createWebhookPayload_resolved m t c hw
    have hct : truthy (defaultTo .null c) = true := by
      rw [hcval]; rfl
    refine ⟨hparse, hcval, ⟨_, hp, ?_⟩, fun hsec => ?_⟩
    · have hfield : commandField (defaultTo .null c) = [("command", c)] := by
        rw [hcval]; rfl
      rw [hfield]
      simp [getProp, List.lookup]
    · have hv := validate_of_createWebhookPayload _ _ _ _ hp
      have hyes : (truthy (defaultTo .null c) && envTruthy cfg.secondaryWebhook) = true := by
        simp [hct, hsec]
      obtain ⟨pr, sr, -, -, hres, htr⟩ := processMessage_both env cfg m t c _ w hp hyes
      obtain ⟨ho, htr2, -⟩ := execute_outcome toLowerCase env cfg bot m _ t c _ _ w hb hnot hdec hres hdm
      refine ⟨_, ho, by simp [inOp], ?_⟩
      rw [htr2, htr, postsTo_append, sendToSecondaryWebhook_of_valid env cfg _ _ hsec hv]
      obtain ⟨_, -, -, hposts⟩ := deliver_settles env (envValue cfg.secondaryWebhook)
        "secondary n8n" _ (sendToWebhook env cfg _ w).world
      exact Nat.le_trans hposts (Nat.le_add_left _ _)

/-- Witness of C28: a guild message whose content is the prefix `!` alone, with a
secondary endpoint configured. -/
theorem execute_command_data_witness :
    wellFormed bareCommandMessage = true ∧
    optChain bareCommandMessage "content" = .str "!" ∧
    (execute latinLower (countingEnv allUp) bothEndpoints minimalBot bareCommandMessage
        0).forwarded
      = some (bareCommandMessage, .str "channel",
          .obj [("name", .str ""), ("args", .arr []), ("prefix", .str "!")]) ∧
    ((JSValue.obj [("name", .str ""), ("args", .arr []), ("prefix", .str "!")]) ≠ .null ↔
      codeUnits minimalBot.commandPrefix <+: codeUnits "!") ∧
    parseCommand latinLower (codeUnits "!") (codeUnits minimalBot.commandPrefix)
      = some ⟨[], []⟩ ∧
    (execute latinLower (countingEnv allUp) bothEndpoints minimalBot bareCommandMessage
        0).outcome.map keys
      = some ["primary", "secondary"] ∧
    1 ≤ postsTo "https://n8n.example/secondary"
      (execute latinLower (countingEnv allUp) bothEndpoints minimalBot bareCommandMessage
        0).trace :=
  ⟨by decide, rfl, rfl,
    (execute_command_data latinLower (countingEnv allUp) bothEndpoints minimalBot
      bareCommandMessage bareCommandMessage (.str "channel")
      (.obj [("name", .str ""), ("args", .arr []), ("prefix", .str "!")]) "!" 0
      (by decide) rfl rfl).1,
    ((execute_command_data latinLower (countingEnv allUp) bothEndpoints minimalBot
      bareCommandMessage bareCommandMessage (.str "channel")
      (.obj [("name", .str ""), ("args", .arr []), ("prefix", .str "!")]) "!" 0
      (by decide) rfl rfl).2.2 [] (by decide) (by decide) (by decide)).1,
    rfl, by decide⟩

end NoseCone
